import Mathlib

/-!
# messari-registry: normalization pipeline, SQL statement builders, store and handlers

A shallow embedding of `database/models/crypto_asset.go`, `util/normalize.go`, the statement
builders and the store of `database/sqlite.go`, and the register handler and the query
helpers of `server/server.go`.

Go strings are modelled by Lean strings (sequences of Unicode scalar values, i.e. valid
UTF-8 text).  The functions of the Go standard library that the code calls
(`strings.TrimSpace`, `strings.ToLower`, `strings.ToUpper`, `strings.Title`,
`strconv.Atoi`, `time.Parse` with the layout `2006-01-02`) are embedded from their Go
definitions.  The Unicode data tables they consult for runes above ASCII
(`unicode.CaseRanges`, `unicode.Letter`, `unicode.Digit`) depend on the Go release and are
taken as a parameter `unicode.Tables`.
-/

/-! ## Go standard library: package unicode -/

namespace unicode

/-- Case selectors of `unicode.To`: the constants `UpperCase`, `LowerCase`, `TitleCase`. -/
inductive Case where
  | UpperCase
  | LowerCase
  | TitleCase
  deriving DecidableEq, Repr

/-- Data tables of package unicode, a parameter of the embedding: `caseTo c r` is
`unicode.To(c, r)` (the lookup in `CaseRanges`), `letter` and `digit` are membership in the
range tables `Letter` and `Digit`.  The code only consults them for runes above ASCII. -/
structure Tables where
  caseTo : Case → Char → Char
  letter : Char → Bool
  digit : Char → Bool

/-- The constant `unicode.MaxASCII`. -/
def MaxASCII : Nat := 0x7F

/-- The constant `unicode.MaxLatin1`. -/
def MaxLatin1 : Nat := 0xFF

/-- Go `unicode.IsSpace`: the Latin-1 switch, then the `White_Space` table above Latin-1. -/
def IsSpace (r : Char) : Bool :=
  let n := r.toNat
  if n ≤ MaxLatin1 then
    n = 0x09 || n = 0x0A || n = 0x0B || n = 0x0C || n = 0x0D || n = 0x20 || n = 0x85 || n = 0xA0
  else
    n = 0x1680 || (0x2000 ≤ n && n ≤ 0x200A) || n = 0x2028 || n = 0x2029 || n = 0x202F
      || n = 0x205F || n = 0x3000

/-- Go `unicode.ToLower`: ASCII is handled arithmetically, other runes through the table. -/
def ToLower (T : Tables) (r : Char) : Char :=
  if r.toNat ≤ MaxASCII then
    if 'A'.toNat ≤ r.toNat ∧ r.toNat ≤ 'Z'.toNat then Char.ofNat (r.toNat + ('a'.toNat - 'A'.toNat))
    else r
  else T.caseTo Case.LowerCase r

/-- Go `unicode.ToUpper`. -/
def ToUpper (T : Tables) (r : Char) : Char :=
  if r.toNat ≤ MaxASCII then
    if 'a'.toNat ≤ r.toNat ∧ r.toNat ≤ 'z'.toNat then Char.ofNat (r.toNat - ('a'.toNat - 'A'.toNat))
    else r
  else T.caseTo Case.UpperCase r

/-- Go `unicode.ToTitle`. -/
def ToTitle (T : Tables) (r : Char) : Char :=
  if r.toNat ≤ MaxASCII then
    if 'a'.toNat ≤ r.toNat ∧ r.toNat ≤ 'z'.toNat then Char.ofNat (r.toNat - ('a'.toNat - 'A'.toNat))
    else r
  else T.caseTo Case.TitleCase r

/-- Tables that leave every rune above ASCII alone and know no letter or digit there: the
behaviour of the package on ASCII text, used to evaluate the definitions. -/
def asciiTables : Tables where
  caseTo := fun _ r => r
  letter := fun _ => false
  digit := fun _ => false

end unicode

/-! ## Go standard library: package strings -/

namespace strings

/-- Go `strings.TrimSpace`: `TrimFunc(s, unicode.IsSpace)`, leading then trailing runes. -/
def TrimSpace (s : String) : String :=
  ⟨(s.data.dropWhile unicode.IsSpace).rdropWhile unicode.IsSpace⟩

/-- Go `strings.ToLower`: `Map(unicode.ToLower, s)` (the ASCII fast path computes the same). -/
def ToLower (T : unicode.Tables) (s : String) : String :=
  ⟨s.data.map (unicode.ToLower T)⟩

/-- Go `strings.ToUpper`: `Map(unicode.ToUpper, s)`. -/
def ToUpper (T : unicode.Tables) (s : String) : String :=
  ⟨s.data.map (unicode.ToUpper T)⟩

/-- Go `strings.isSeparator`: ASCII alphanumerics and underscore are not separators, letters
and digits are not separators, otherwise only spaces are. -/
def isSeparator (T : unicode.Tables) (r : Char) : Bool :=
  let n := r.toNat
  if n ≤ 0x7F then
    if '0'.toNat ≤ n ∧ n ≤ '9'.toNat then false
    else if 'a'.toNat ≤ n ∧ n ≤ 'z'.toNat then false
    else if 'A'.toNat ≤ n ∧ n ≤ 'Z'.toNat then false
    else if n = '_'.toNat then false
    else true
  else if T.letter r || T.digit r then false
  else unicode.IsSpace r

/-- The closure of Go `strings.Title` run over the runes, `prev` being its remembered state. -/
def titleRunes (T : unicode.Tables) : Char → List Char → List Char
  | _, [] => []
  | prev, r :: rs =>
    (if isSeparator T prev then unicode.ToTitle T r else r) :: titleRunes T r rs

/-- Go `strings.Title`: title-cases every rune that begins a word. -/
def Title (T : unicode.Tables) (s : String) : String :=
  ⟨titleRunes T ' ' s.data⟩

end strings

/-! ## Go standard library: package strconv -/

namespace strconv

/-- Decimal digit test on a rune, as the byte tests of `ParseUint`. -/
def isDigit (c : Char) : Bool := '0'.toNat ≤ c.toNat && c.toNat ≤ '9'.toNat

/-- The digit loop of Go `strconv.ParseUint` in base 10: `none` on a non-digit. -/
def parseDigits : Nat → List Char → Option Nat
  | acc, [] => some acc
  | acc, c :: cs =>
    if isDigit c then parseDigits (acc * 10 + (c.toNat - '0'.toNat)) cs else none

/-- Go `strconv.Atoi` for a 64-bit `int`: an optional sign, at least one decimal digit, and a
value in the range of `int`; `none` stands for the returned `*NumError`. -/
def Atoi (s : String) : Option Int :=
  let signed : Bool × List Char :=
    match s.data with
    | '+' :: rest => (false, rest)
    | '-' :: rest => (true, rest)
    | cs => (false, cs)
  if signed.2 = [] then none
  else
    match parseDigits 0 signed.2 with
    | none => none
    | some un =>
      if signed.1 then
        if un > 2 ^ 63 then none else some (-(un : Int))
      else
        if un ≥ 2 ^ 63 then none else some (un : Int)

end strconv

/-! ## Go standard library: package time -/

namespace time

/-- An instant as Go `time.Time` compares it: seconds since the Unix epoch and the
nanoseconds within that second. -/
structure Time where
  sec : Int
  nsec : Nat
  deriving DecidableEq, Repr

/-- Go `Time.After`: `t` is strictly later than `u`. -/
def Time.After (t u : Time) : Bool :=
  decide (t.sec > u.sec) || (decide (t.sec = u.sec) && decide (t.nsec > u.nsec))

/-- Go `time.isLeap`. -/
def isLeap (year : Nat) : Bool :=
  year % 4 = 0 && (year % 100 ≠ 0 || year % 400 = 0)

/-- The table `time.daysBefore`: days of a non-leap year before the end of month `m`. -/
def daysBefore (m : Nat) : Nat :=
  [0, 31, 59, 90, 120, 151, 181, 212, 243, 273, 304, 334, 365].getD m 0

/-- Go `time.daysIn`: the number of days of month `m` (1 to 12) of `year`. -/
def daysIn (m year : Nat) : Nat :=
  if m = 2 ∧ isLeap year then 29 else daysBefore m - daysBefore (m - 1)

/-- Days from 0000-01-01 to the first of January of `year` in the proleptic Gregorian
calendar. -/
def daysBeforeYear (year : Nat) : Nat :=
  365 * year + (year + 3) / 4 - (year + 99) / 100 + (year + 399) / 400

/-- Days from 0000-01-01 to 1970-01-01. -/
def unixEpochDays : Nat := 719528

/-- Go `time.Date(year, month, day, 0, 0, 0, 0, time.UTC)` for a valid calendar date. -/
def Date (year month day : Nat) : Time :=
  let leapDay : Nat := if month > 2 ∧ isLeap year then 1 else 0
  let days : Int := daysBeforeYear year + daysBefore (month - 1) + leapDay + (day - 1)
  { sec := (days - unixEpochDays) * 86400, nsec := 0 }

/-- The byte test `time.isDigit`. -/
def isDigit (c : Char) : Bool := '0'.toNat ≤ c.toNat && c.toNat ≤ '9'.toNat

/-- The value of a decimal digit. -/
def digitVal (c : Char) : Nat := c.toNat - '0'.toNat

/-- Go `time.Parse("2006-01-02", value)`: four year digits, `-`, two month digits, `-`, two
day digits and nothing else; the month must be 1 to 12 and the day must exist in that month.
`none` stands for the returned `*ParseError`. -/
def Parse (value : String) : Option Time :=
  match value.data with
  | [y1, y2, y3, y4, s1, m1, m2, s2, d1, d2] =>
    if isDigit y1 && isDigit y2 && isDigit y3 && isDigit y4 && s1 = '-' && isDigit m1
        && isDigit m2 && s2 = '-' && isDigit d1 && isDigit d2 then
      let year := digitVal y1 * 1000 + digitVal y2 * 100 + digitVal y3 * 10 + digitVal y4
      let month := digitVal m1 * 10 + digitVal m2
      let day := digitVal d1 * 10 + digitVal d2
      if month = 0 ∨ 12 < month then none
      else if day < 1 ∨ day > daysIn month year then none
      else some (Date year month day)
    else none
  | _ => none

end time

/-! ## IEEE 754 binary64, the Go type `float64` -/

/-- A Go `float64`, given by its 64-bit pattern (`math.Float64bits`). -/
structure Float64 where
  bits : Nat
  deriving DecidableEq, Repr

namespace Float64

/-- The sign bit. -/
def sign (x : Float64) : Nat := x.bits / 2 ^ 63 % 2

/-- The biased exponent field. -/
def exponent (x : Float64) : Nat := x.bits / 2 ^ 52 % 2 ^ 11

/-- The fraction field. -/
def fraction (x : Float64) : Nat := x.bits % 2 ^ 52

/-- Not-a-number: exponent all ones and a non-zero fraction. -/
def isNaN (x : Float64) : Bool := x.exponent = 2047 && x.fraction ≠ 0

/-- Positive or negative zero. -/
def isZero (x : Float64) : Bool := x.exponent = 0 && x.fraction = 0

/-- The Go comparison `x < 0`: false for NaN and for both zeros, otherwise the sign bit. -/
def ltZero (x : Float64) : Bool := !x.isNaN && !x.isZero && x.sign = 1

/-- The Go comparison `x >= 0`: false for NaN, true for both zeros, otherwise sign clear. -/
def geZero (x : Float64) : Bool := !x.isNaN && (x.isZero || x.sign = 0)

end Float64

/-! ## util/normalize.go -/

namespace util

/-- Go `util.Normalize`: trims space and lowercases the passed string. -/
def Normalize (T : unicode.Tables) (str : String) : String :=
  strings.ToLower T (strings.TrimSpace str)

end util

/-! ## database/models/crypto_asset.go -/

namespace models

/-- The struct `CryptoAsset`.  A nil pointer or nil slice is `none`; a non-nil empty `Team`
is `some []`. -/
structure CryptoAsset where
  ID : Option String := none
  Name : Option String := none
  Symbol : Option String := none
  Description : Option String := none
  Team : Option (List String) := none
  ICOAmount : Option Float64 := none
  BlockReward : Option Float64 := none
  FundingStatus : Option String := none
  FoundedDate : Option String := none
  CoinType : Option String := none
  Website : Option String := none
  deriving DecidableEq, Repr

/-- Go `capitalize`: `strings.Title(strings.ToLower(str))`. -/
def capitalize (T : unicode.Tables) (str : String) : String :=
  strings.Title T (strings.ToLower T str)

/-- Go `(*CryptoAsset).Format`, returning the record as mutated. -/
def CryptoAsset.Format (T : unicode.Tables) (asset : CryptoAsset) : CryptoAsset :=
  let asset := { asset with Name := asset.Name.map fun s => capitalize T (strings.TrimSpace s) }
  let asset :=
    { asset with Symbol := asset.Symbol.map fun s => strings.ToUpper T (strings.TrimSpace s) }
  let asset :=
    { asset with
      FundingStatus := asset.FundingStatus.map fun s => strings.ToUpper T (strings.TrimSpace s) }
  { asset with CoinType := asset.CoinType.map fun s => capitalize T (strings.TrimSpace s) }

/-- What a call of `Normalize` leaves behind: the returned `int`, the returned `error`
(`none` for nil, otherwise its message) and the record as mutated in place. -/
structure NormalizeResult where
  id : Int
  err : Option String
  asset : CryptoAsset
  deriving DecidableEq, Repr

/-- The id block of `Normalize`: `strconv.Atoi` on a present id, 0 for an absent one. -/
def parseID (asset : CryptoAsset) : Except String Int :=
  match asset.ID with
  | none => Except.ok 0
  | some s =>
    match strconv.Atoi s with
    | some id => Except.ok id
    | none => Except.error ("invalid id: " ++ s)

/-- The condition `p != nil && *p < 0` on an amount field. -/
def isNegative (p : Option Float64) : Bool :=
  match p with
  | some x => x.ltZero
  | none => false

/-- The end of `Normalize`, after the founded date: coin type and website, then success. -/
def normalizeRest (T : unicode.Tables) (id : Int) (asset : CryptoAsset) : NormalizeResult :=
  let asset := { asset with CoinType := asset.CoinType.map (util.Normalize T) }
  let asset := { asset with Website := asset.Website.map (util.Normalize T) }
  { id := id, err := none, asset := asset }

/-- Go `(*CryptoAsset).Normalize`, with `now` the value of `time.Now()`.  The statements run
in source order and an early return keeps the mutations made before it. -/
def CryptoAsset.Normalize (T : unicode.Tables) (now : time.Time) (asset : CryptoAsset) :
    NormalizeResult :=
  match parseID asset with
  | Except.error e => { id := -1, err := some e, asset := asset }
  | Except.ok id =>
    let asset := { asset with Name := asset.Name.map (util.Normalize T) }
    let asset := { asset with Symbol := asset.Symbol.map (util.Normalize T) }
    let asset := { asset with Description := asset.Description.map strings.TrimSpace }
    let asset := { asset with Team := asset.Team.map (List.map strings.TrimSpace) }
    if isNegative asset.ICOAmount then
      { id := -1, err := some "ICO amount cannot be negative", asset := asset }
    else if isNegative asset.BlockReward then
      { id := -1, err := some "block reward cannot be negative", asset := asset }
    else
      let asset := { asset with FundingStatus := asset.FundingStatus.map (util.Normalize T) }
      match asset.FoundedDate with
      | none => normalizeRest T id asset
      | some raw =>
        let foundedDate := strings.TrimSpace raw
        match time.Parse foundedDate with
        | none =>
          { id := -1, err := some "date must be an ISO-8601 date in the past", asset := asset }
        | some date =>
          if date.After now then
            { id := -1, err := some "date must be an ISO-8601 date in the past", asset := asset }
          else
            normalizeRest T id { asset with FoundedDate := some foundedDate }

end models

/-! ## database/sqlite.go: the select statement builder -/

namespace database

/-- A value of the `[]interface{}` argument list of a statement; `null` is a nil pointer,
which database/sql passes as SQL NULL. -/
inductive Arg where
  | str (s : String)
  | float (x : Float64)
  | int (n : Int)
  | null
  deriving DecidableEq, Repr

/-- The struct `statement`: a SQL statement and its arguments. -/
structure statement where
  sql : String
  args : List Arg
  deriving DecidableEq, Repr

/-- Go `createClauseKeyword`: writes ` WHERE` for the first clause and clears the flag, writes
` AND` otherwise.  Returns the buffer and the flag. -/
def createClauseKeyword (sqlBuffer : String) (isFirstClause : Bool) : String × Bool :=
  if isFirstClause then (sqlBuffer ++ " WHERE", false)
  else (sqlBuffer ++ " AND", isFirstClause)

/-- Go `createConditionalClause`: returns the buffer, the flag and the boolean result. -/
def createConditionalClause (sqlBuffer : String) (isFirstClause : Bool) (numValues : Nat)
    (column : String) : String × Bool × Bool :=
  if numValues > 0 then
    let kw := createClauseKeyword sqlBuffer isFirstClause
    let sqlBuffer := kw.1 ++ " ("
    let condition := column ++ " = ?"
    let sqlBuffer := (List.range numValues).foldl
      (fun buf i => (if i ≠ 0 then buf ++ " OR " else buf) ++ condition) sqlBuffer
    (sqlBuffer ++ ")", kw.2, true)
  else (sqlBuffer, isFirstClause, false)

/-- Go `createDateClause`: returns the buffer, the flag and the boolean result. -/
def createDateClause (sqlBuffer : String) (isFirstClause : Bool) (date comparator : String) :
    String × Bool × Bool :=
  if date.length > 0 then
    let kw := createClauseKeyword sqlBuffer isFirstClause
    (kw.1 ++ (" foundedDate " ++ comparator ++ " ?"), kw.2, true)
  else (sqlBuffer, isFirstClause, false)

/-- The loop `for _, v := range values { args = append(args, v) }`. -/
def appendStrings (args : List Arg) (values : List String) : List Arg :=
  values.foldl (fun args v => args ++ [Arg.str v]) args

/-- Go `_createSelectStatement`. -/
def _createSelectStatement (names symbols fundingStatuses coinTypes : List String)
    (startDate endDate : String) : statement :=
  let args : List Arg := []
  let isFirstClause := true
  let sqlBuffer := "SELECT * FROM crypto_asset ca LEFT JOIN team_member ON id = cryptoAssetId"
  let r := createConditionalClause sqlBuffer isFirstClause names.length "ca.name"
  let args := if r.2.2 then appendStrings args names else args
  let r := createConditionalClause r.1 r.2.1 symbols.length "symbol"
  let args := if r.2.2 then appendStrings args symbols else args
  let r := createConditionalClause r.1 r.2.1 fundingStatuses.length "fundingStatus"
  let args := if r.2.2 then appendStrings args fundingStatuses else args
  let r := createConditionalClause r.1 r.2.1 coinTypes.length "coinType"
  let args := if r.2.2 then appendStrings args coinTypes else args
  let r := createDateClause r.1 r.2.1 startDate ">="
  let args := if r.2.2 then args ++ [Arg.str startDate] else args
  let r := createDateClause r.1 r.2.1 endDate "<="
  let args := if r.2.2 then args ++ [Arg.str endDate] else args
  { sql := r.1 ++ ";", args := args }

/-! ## database/sqlite.go: the update statement builder -/

/-- Go `createSetClause`: writes `column = ?`, after `, ` when a set clause was written
before, if the value is non-nil.  Returns the buffer, the flag and the boolean result. -/
def createSetClause (sqlBuffer : String) (setClauseWritten : Bool) (isNil : Bool)
    (column : String) : String × Bool × Bool :=
  if !isNil then
    let sqlBuffer := if setClauseWritten then sqlBuffer ++ ", " else sqlBuffer
    (sqlBuffer ++ (column ++ " = ?"), true, true)
  else (sqlBuffer, setClauseWritten, false)

/-- The statement `args = append(args, *p)` under `if ok`: `ok` holds only for a non-nil
`p`, whose value is appended. -/
def appendDeref {α : Type} (args : List Arg) (ok : Bool) (p : Option α) (toArg : α → Arg) :
    List Arg :=
  if ok then args ++ (p.map toArg).toList else args

/-- Go `_createUpdateStatement`; `none` is the nil statement. -/
def _createUpdateStatement (id : Int) (cryptoAsset : models.CryptoAsset) : Option statement :=
  let args : List Arg := []
  let sqlBuffer := "UPDATE crypto_asset SET "
  let setClauseWritten := false
  let r := createSetClause sqlBuffer setClauseWritten cryptoAsset.Name.isNone "name"
  let args := appendDeref args r.2.2 cryptoAsset.Name Arg.str
  let r := createSetClause r.1 r.2.1 cryptoAsset.Symbol.isNone "symbol"
  let args := appendDeref args r.2.2 cryptoAsset.Symbol Arg.str
  let r := createSetClause r.1 r.2.1 cryptoAsset.Description.isNone "description"
  let args := appendDeref args r.2.2 cryptoAsset.Description Arg.str
  let r := createSetClause r.1 r.2.1 cryptoAsset.ICOAmount.isNone "icoAmount"
  let args := appendDeref args r.2.2 cryptoAsset.ICOAmount Arg.float
  let r := createSetClause r.1 r.2.1 cryptoAsset.BlockReward.isNone "blockReward"
  let args := appendDeref args r.2.2 cryptoAsset.BlockReward Arg.float
  let r := createSetClause r.1 r.2.1 cryptoAsset.FundingStatus.isNone "fundingStatus"
  let args := appendDeref args r.2.2 cryptoAsset.FundingStatus Arg.str
  let r := createSetClause r.1 r.2.1 cryptoAsset.FoundedDate.isNone "foundedDate"
  let args := appendDeref args r.2.2 cryptoAsset.FoundedDate Arg.str
  let r := createSetClause r.1 r.2.1 cryptoAsset.CoinType.isNone "coinType"
  let args := appendDeref args r.2.2 cryptoAsset.CoinType Arg.str
  let r := createSetClause r.1 r.2.1 cryptoAsset.Website.isNone "website"
  let args := appendDeref args r.2.2 cryptoAsset.Website Arg.str
  if r.2.1 then some { sql := r.1 ++ " WHERE id = ?;", args := args ++ [Arg.int id] }
  else none

end database

/-! ## Go standard library: further functions used by the store -/

namespace strconv

/-- Go `strconv.Itoa`: the decimal text of an `int`. -/
def Itoa (i : Int) : String :=
  if i < 0 then "-" ++ Nat.repr i.natAbs else Nat.repr i.natAbs

end strconv

namespace strings

/-- The search of Go `strings.LastIndex` from position `n` downwards: the greatest position
at most `n` where `substr` starts, or -1.  Positions count runes. -/
def lastIndexFrom (s substr : List Char) : Nat → Int
  | 0 => if substr.isPrefixOf s then 0 else -1
  | n + 1 =>
    if substr.isPrefixOf (s.drop (n + 1)) then ((n + 1 : Nat) : Int) else lastIndexFrom s substr n

/-- Go `strings.LastIndex`: the position of the last instance of `substr` in `s`, or -1.
Positions count runes where Go counts bytes; `sliceFrom` counts the same way. -/
def LastIndex (s substr : String) : Int :=
  lastIndexFrom s.data substr.data s.data.length

/-- The Go slice expression `s[i:]` for a position `i ≥ 0`. -/
def sliceFrom (s : String) (i : Int) : String :=
  ⟨s.data.drop i.toNat⟩

end strings

/-! ## The SQLite driver: package sqlite3 -/

namespace sqlite3

/-- The type `sqlite3.ErrNoExtended`: an extended result code of SQLite. -/
abbrev ErrNoExtended := Nat

/-- The constant `sqlite3.ErrConstraintForeignKey`, `ErrConstraint.Extend(3)`. -/
def ErrConstraintForeignKey : ErrNoExtended := 787

/-- The constant `sqlite3.ErrConstraintNotNull`, `ErrConstraint.Extend(5)`. -/
def ErrConstraintNotNull : ErrNoExtended := 1299

/-- The constant `sqlite3.ErrConstraintUnique`, `ErrConstraint.Extend(8)`. -/
def ErrConstraintUnique : ErrNoExtended := 2067

/-- The type `sqlite3.Error`: its extended code and the text its method `Error()` returns. -/
structure Error where
  ExtendedCode : ErrNoExtended
  text : String
  deriving DecidableEq, Repr

end sqlite3

/-! ## database/errors.go -/

namespace database

/-- A Go `error` value as the store returns it: the four types of `errors.go`, an error of
the driver type `sqlite3.Error`, or any other error of package database/sql, identified by
its text and passed through unchanged. -/
inductive Error where
  | EmptyUpdateError
  | NullConstraintError (field : String)
  | UniqueConstraintError (symbol : String)
  | UnknownIDError (id : Int)
  | sqlite (e : sqlite3.Error)
  | sql (text : String)
  deriving DecidableEq, Repr

/-- The method `Error()` of each error type. -/
def Error.text : Error → String
  | Error.EmptyUpdateError => "nothing to update"
  | Error.NullConstraintError field => field ++ " cannot be null"
  | Error.UniqueConstraintError symbol => "symbol " ++ symbol ++ " already exists"
  | Error.UnknownIDError id => "crypto asset with id " ++ strconv.Itoa id ++ " not found"
  | Error.sqlite e => e.text
  | Error.sql text => text

/-! ## database/sqlite.go: the store -/

/-- A call that the store issues on its connection, transaction, statement or rows. -/
inductive Call where
  | Begin
  | Exec (query : String) (args : List Arg)
  | LastInsertId
  | RowsAffected
  | Prepare (query : String)
  | StmtExec (query : String) (args : List Arg)
  | StmtClose
  | Rollback
  | Commit
  | Query (query : String) (args : List Arg)
  | RowsClose
  deriving DecidableEq, Repr

/-- What the `sql.Result` of a successful `Exec` answers. -/
structure Result where
  LastInsertId : Except String Int
  RowsAffected : Except String Int

/-- A row of the join of crypto_asset and team_member as `rows.Scan` reads it. -/
structure Row where
  id : Int
  name : String
  symbol : String
  description : String
  icoAmount : Float64
  blockReward : Float64
  fundingStatus : String
  foundedDate : String
  coinType : String
  website : String
  fkID : Option Int
  teamMember : Option String
  deriving DecidableEq, Repr

/-- How database/sql and the SQLite engine answer the calls of one operation of the store.
`Exec` on a transaction or statement fails with an error of the driver type `sqlite3.Error`,
the type the code asserts such an error to have; the other calls fail with an error given
by its text.  `StmtExec n` answers the `n`-th execution of the prepared statement, the rows
of `Query` are the results of the successive `rows.Scan`. -/
structure Responses where
  Begin : Option String
  Exec : String → List Arg → Except sqlite3.Error Result
  Prepare : String → Option String
  StmtExec : Nat → List Arg → Option sqlite3.Error
  Commit : Option String
  Query : String → List Arg → Except String (List (Except String Row))

/-- The loop of Go `insertTeamMembers` from the `n`-th member on: the calls issued and the
error returned. -/
def insertLoop (db : Responses) (id : Int) : Nat → List String → List Call × Option Error
  | _, [] => ([], none)
  | n, teamMember :: rest =>
    let call := Call.StmtExec "INSERT INTO team_member(cryptoAssetId, name) VALUES(?, ?)"
      [Arg.int id, Arg.str teamMember]
    match db.StmtExec n [Arg.int id, Arg.str teamMember] with
    | some sqliteError =>
      if sqliteError.ExtendedCode = sqlite3.ErrConstraintForeignKey then
        ([call], some (Error.UnknownIDError id))
      else ([call], some (Error.sqlite sqliteError))
    | none => (call :: (insertLoop db id (n + 1) rest).1, (insertLoop db id (n + 1) rest).2)

/-- Go `insertTeamMembers`: the calls issued and the error returned.  The deferred
`stmt.Close()` runs on every return after a successful `Prepare`. -/
def insertTeamMembers (db : Responses) (id : Int) (team : List String) :
    List Call × Option Error :=
  match db.Prepare "INSERT INTO team_member(cryptoAssetId, name) VALUES(?, ?)" with
  | some text =>
    ([Call.Prepare "INSERT INTO team_member(cryptoAssetId, name) VALUES(?, ?)"],
      some (Error.sql text))
  | none =>
    ([Call.Prepare "INSERT INTO team_member(cryptoAssetId, name) VALUES(?, ?)"]
        ++ (insertLoop db id 0 team).1 ++ [Call.StmtClose],
      (insertLoop db id 0 team).2)

/-- The block `if updateCryptoAssetStatement != nil` of Go `Update`: the calls issued and the
error returned from inside the block, `none` when the block falls through. -/
def updateScalars (db : Responses) (id : Int) :
    Option statement → List Call × Option Error
  | none => ([], none)
  | some updateCryptoAssetStatement =>
    let exec := Call.Exec updateCryptoAssetStatement.sql updateCryptoAssetStatement.args
    match db.Exec updateCryptoAssetStatement.sql updateCryptoAssetStatement.args with
    | Except.error err => ([exec, Call.Rollback], some (Error.sqlite err))
    | Except.ok result =>
      match result.RowsAffected with
      | Except.error text => ([exec, Call.RowsAffected], some (Error.sql text))
      | Except.ok rowsAffected =>
        if rowsAffected ≠ 1 then ([exec, Call.RowsAffected], some (Error.UnknownIDError id))
        else ([exec, Call.RowsAffected], none)

/-- The block `if cryptoAsset.Team != nil` of Go `Update`: the calls issued and the error
returned from inside the block, `none` when the block falls through. -/
def updateTeam (db : Responses) (id : Int) : Option (List String) → List Call × Option Error
  | none => ([], none)
  | some team =>
    let delete := Call.Exec "DELETE FROM team_member WHERE cryptoAssetId = ?;" [Arg.int id]
    match db.Exec "DELETE FROM team_member WHERE cryptoAssetId = ?;" [Arg.int id] with
    | Except.error err => ([delete, Call.Rollback], some (Error.sqlite err))
    | Except.ok _ =>
      match (insertTeamMembers db id team).2 with
      | some err => (delete :: (insertTeamMembers db id team).1 ++ [Call.Rollback], some err)
      | none => (delete :: (insertTeamMembers db id team).1, none)

/-- Go `(*SQLite).Update`: the calls issued, in order, and the error returned (`none` for
nil). -/
def Update (db : Responses) (id : Int) (cryptoAsset : models.CryptoAsset) :
    List Call × Option Error :=
  let updateCryptoAssetStatement := _createUpdateStatement id cryptoAsset
  if updateCryptoAssetStatement.isNone && cryptoAsset.Team.isNone then
    ([], some Error.EmptyUpdateError)
  else
    match db.Begin with
    | some text => ([Call.Begin], some (Error.sql text))
    | none =>
      let scalars := updateScalars db id updateCryptoAssetStatement
      match scalars.2 with
      | some err => (Call.Begin :: scalars.1, some err)
      | none =>
        let team := updateTeam db id cryptoAsset.Team
        match team.2 with
        | some err => (Call.Begin :: scalars.1 ++ team.1, some err)
        | none =>
          match db.Commit with
          | some text => (Call.Begin :: scalars.1 ++ team.1 ++ [Call.Commit], some (Error.sql text))
          | none => (Call.Begin :: scalars.1 ++ team.1 ++ [Call.Commit], none)

/-- How a Go call ends: it returns a value, or it panics. -/
inductive Outcome (α : Type) where
  | returned (value : α)
  | panicked
  deriving DecidableEq, Repr

/-- A pointer argument of `Exec`: the value, or SQL NULL for a nil pointer. -/
def pointerArg {α : Type} (toArg : α → Arg) : Option α → Arg
  | some v => toArg v
  | none => Arg.null

/-- The statement and arguments of the asset-row insert of Go `Insert`. -/
def insertAssetCall (cryptoAsset : models.CryptoAsset) : String × List Arg :=
  ("INSERT INTO crypto_asset(name, symbol, description, icoAmount, blockReward, "
      ++ "fundingStatus, foundedDate, coinType, website) VALUES(?, ?, ?, ?, ?, ?, ?, ?, ?)",
    [pointerArg Arg.str cryptoAsset.Name, pointerArg Arg.str cryptoAsset.Symbol,
      pointerArg Arg.str cryptoAsset.Description, pointerArg Arg.float cryptoAsset.ICOAmount,
      pointerArg Arg.float cryptoAsset.BlockReward,
      pointerArg Arg.str cryptoAsset.FundingStatus, pointerArg Arg.str cryptoAsset.FoundedDate,
      pointerArg Arg.str cryptoAsset.CoinType, pointerArg Arg.str cryptoAsset.Website])

/-- The error handling of the asset-row insert of Go `Insert`, after the rollback: the switch
on the extended code.  The uniqueness case dereferences `cryptoAsset.Symbol` and panics on
a nil symbol. -/
def insertError (cryptoAsset : models.CryptoAsset) (sqliteErr : sqlite3.Error) :
    Outcome (String × Option Error) :=
  if sqliteErr.ExtendedCode = sqlite3.ErrConstraintNotNull then
    let errString := sqliteErr.text
    let nullField := strings.sliceFrom errString (strings.LastIndex errString "." + 1)
    Outcome.returned ("", some (Error.NullConstraintError nullField))
  else if sqliteErr.ExtendedCode = sqlite3.ErrConstraintUnique then
    match cryptoAsset.Symbol with
    | some symbol => Outcome.returned ("", some (Error.UniqueConstraintError symbol))
    | none => Outcome.panicked
  else Outcome.returned ("", some (Error.sqlite sqliteErr))

/-- Go `(*SQLite).Insert`: the calls issued, in order, and how the call ends: the returned
string and error (`none` for nil), or a panic. -/
def Insert (db : Responses) (cryptoAsset : models.CryptoAsset) :
    List Call × Outcome (String × Option Error) :=
  match db.Begin with
  | some text => ([Call.Begin], Outcome.returned ("", some (Error.sql text)))
  | none =>
    let exec := Call.Exec (insertAssetCall cryptoAsset).1 (insertAssetCall cryptoAsset).2
    match db.Exec (insertAssetCall cryptoAsset).1 (insertAssetCall cryptoAsset).2 with
    | Except.error sqliteErr =>
      ([Call.Begin, exec, Call.Rollback], insertError cryptoAsset sqliteErr)
    | Except.ok result =>
      match result.LastInsertId with
      | Except.error text =>
        ([Call.Begin, exec, Call.LastInsertId, Call.Rollback],
          Outcome.returned ("", some (Error.sql text)))
      | Except.ok id =>
        let team := insertTeamMembers db id (cryptoAsset.Team.getD [])
        match team.2 with
        | some err =>
          ([Call.Begin, exec, Call.LastInsertId] ++ team.1 ++ [Call.Rollback],
            Outcome.returned ("", some err))
        | none =>
          match db.Commit with
          | some text =>
            ([Call.Begin, exec, Call.LastInsertId] ++ team.1 ++ [Call.Commit],
              Outcome.returned ("", some (Error.sql text)))
          | none =>
            ([Call.Begin, exec, Call.LastInsertId] ++ team.1 ++ [Call.Commit],
              Outcome.returned (strconv.Itoa id, none))

/-- The record that Go `Select` creates from the first row of an identifier, with the empty
non-nil team `[]string{}`. -/
def newCryptoAsset (row : Row) : models.CryptoAsset :=
  { ID := some (strconv.Itoa row.id)
    Name := some row.name
    Symbol := some row.symbol
    Description := some row.description
    Team := some []
    ICOAmount := some row.icoAmount
    BlockReward := some row.blockReward
    FundingStatus := some row.fundingStatus
    FoundedDate := some row.foundedDate
    CoinType := some row.coinType
    Website := some row.website }

/-- The body of the loop of Go `Select` after a successful `Scan`.  The map
`cryptoAssetMap` is kept as its entries in order of insertion; appending to the team of the
record found changes that entry, as it does through the pointer held by the map. -/
def selectStep (cryptoAssetMap : List (Int × models.CryptoAsset)) (row : Row) :
    List (Int × models.CryptoAsset) :=
  let cryptoAssetMap :=
    match cryptoAssetMap.find? (fun entry => entry.1 = row.id) with
    | some _ => cryptoAssetMap
    | none => cryptoAssetMap ++ [(row.id, newCryptoAsset row)]
  match row.teamMember with
  | none => cryptoAssetMap
  | some teamMember =>
    cryptoAssetMap.map fun entry =>
      if entry.1 = row.id then
        (entry.1, { entry.2 with Team := some (entry.2.Team.getD [] ++ [teamMember]) })
      else entry

/-- The loop `for rows.Next()` of Go `Select` over the results of the successive scans: the
final map, or the error of the first failing `Scan`. -/
def scanRows : List (Int × models.CryptoAsset) → List (Except String Row) →
    Except Error (List (Int × models.CryptoAsset))
  | cryptoAssetMap, [] => Except.ok cryptoAssetMap
  | _, Except.error text :: _ => Except.error (Error.sql text)
  | cryptoAssetMap, Except.ok row :: rest => scanRows (selectStep cryptoAssetMap row) rest

/-- Go `(*SQLite).Select`: the calls issued and the records or the error returned.  Go
ranges over the map in an unspecified order; the embedding lists the records in order of
first encounter, and what is proved of the result is independent of its order. -/
def Select (db : Responses) (names symbols fundingStatuses coinTypes : List String)
    (startDate endDate : String) : List Call × Except Error (List models.CryptoAsset) :=
  let stmt := _createSelectStatement names symbols fundingStatuses coinTypes startDate endDate
  match db.Query stmt.sql stmt.args with
  | Except.error text => ([Call.Query stmt.sql stmt.args], Except.error (Error.sql text))
  | Except.ok rows =>
    match scanRows [] rows with
    | Except.error err => ([Call.Query stmt.sql stmt.args, Call.RowsClose], Except.error err)
    | Except.ok cryptoAssetMap =>
      ([Call.Query stmt.sql stmt.args, Call.RowsClose],
        Except.ok (cryptoAssetMap.map fun entry => entry.2))

end database

/-! ## Go standard library: strings.Split -/

namespace strings

/-- The loop of Go `genSplit` for a separator of one rune, as `strings.Split` runs it: the
runes before the next separator are gathered in `piece` (the slice `s[:m]` that
`Index(s, sep)` delimits), the separator ends the piece and the loop goes on behind it, the
end of the text ends the last piece. -/
def splitLoop (sep : Char) : List Char → List Char → List (List Char)
  | piece, [] => [piece]
  | piece, c :: cs =>
    if c = sep then piece :: splitLoop sep [] cs else splitLoop sep (piece ++ [c]) cs

/-- Go `strings.Split(s, sep)` for a separator of one rune: the pieces of `s` between the
separators, one more than there are separators. -/
def Split (s : String) (sep : Char) : List String :=
  (splitLoop sep [] s.data).map String.mk

end strings

/-! ## The SQLite engine: comparison of TEXT values -/

namespace sqlite3

/-- The comparison `a <= b` of two TEXT values under the default collation BINARY: `memcmp`
over the common length, then the shorter text first.  The encodings are UTF-8, which orders
as the code points do, so the runes are compared by their code points. -/
def textLE : List Char → List Char → Bool
  | [], _ => true
  | _ :: _, [] => false
  | a :: as, b :: bs =>
    if a.toNat < b.toNat then true
    else if b.toNat < a.toNat then false
    else textLE as bs

end sqlite3

/-! ## database/interface.go -/

namespace database

/-- The interface `database.Interface` as the handlers use it: what its methods return.
`Close` returns nothing. -/
structure Interface where
  Insert : models.CryptoAsset → Outcome (String × Option Error)
  Select : List String → List String → List String → List String → String → String →
    Except Error (List models.CryptoAsset)
  Update : Int → models.CryptoAsset → Option Error

end database

/-! ## server/server.go -/

namespace server

/-- The constant `comma`, the separator of `strings.Split` in this package. -/
def comma : Char := ','

/-- The constant `errKey`. -/
def errKey : String := "error"

/-- The constant `internalServerError`. -/
def internalServerError : String := "internal server error"

/-- The constant `nullTeamError`. -/
def nullTeamError : String := "team cannot be null"

/-- The constant `http.StatusOK`. -/
def StatusOK : Nat := 200

/-- The constant `http.StatusBadRequest`. -/
def StatusBadRequest : Nat := 400

/-- The constant `http.StatusInternalServerError`. -/
def StatusInternalServerError : Nat := 500

/-- The value that `register` hands to `ctx.JSON`: a `map[string]string`, as its entries. -/
abbrev Body := List (String × String)

/-- The response that a handler writes with `ctx.JSON`: the status code and the body. -/
structure Response where
  code : Nat
  body : Body
  deriving DecidableEq, Repr

/-- A call that `register` makes on the parsed record or on the database. -/
inductive Call where
  | Normalize (cryptoAsset : models.CryptoAsset)
  | Insert (cryptoAsset : models.CryptoAsset)
  deriving DecidableEq, Repr

/-- The switch of `register` on the type of the error that `Insert` returned. -/
def insertFailure (err : database.Error) : Response :=
  match err with
  | database.Error.NullConstraintError _ =>
    { code := StatusBadRequest, body := [(errKey, err.text)] }
  | database.Error.UniqueConstraintError _ =>
    { code := StatusBadRequest, body := [(errKey, err.text)] }
  | _ => { code := StatusInternalServerError, body := [(errKey, internalServerError)] }

/-- Go `(*Server).register`, with `parsed` what `models.NewCryptoAsset` returned for the
request body (the record decoded by encoding/json, or the text of its error) and `now` the
value of `time.Now()`: the calls made, in order, and the response written; a panic of
`Insert` is a panic of the handler.  The decoder leaves `Team` nil for a body without the key
`team` or with `null` there, and sets it to an empty non-nil slice for `[]`.  Log lines are
not part of the model. -/
def register (T : unicode.Tables) (now : time.Time) (DB : database.Interface)
    (parsed : Except String models.CryptoAsset) : List Call × database.Outcome Response :=
  match parsed with
  | Except.error errString =>
    ([], database.Outcome.returned { code := StatusBadRequest, body := [(errKey, errString)] })
  | Except.ok cryptoAsset =>
    if cryptoAsset.Team.isNone then
      ([], database.Outcome.returned
        { code := StatusBadRequest, body := [(errKey, nullTeamError)] })
    else
      let normalized := cryptoAsset.Normalize T now
      match normalized.err with
      | some errString =>
        ([Call.Normalize cryptoAsset],
          database.Outcome.returned { code := StatusBadRequest, body := [(errKey, errString)] })
      | none =>
        match DB.Insert normalized.asset with
        | database.Outcome.panicked =>
          ([Call.Normalize cryptoAsset, Call.Insert normalized.asset],
            database.Outcome.panicked)
        | database.Outcome.returned (_, some err) =>
          ([Call.Normalize cryptoAsset, Call.Insert normalized.asset],
            database.Outcome.returned (insertFailure err))
        | database.Outcome.returned (id, none) =>
          ([Call.Normalize cryptoAsset, Call.Insert normalized.asset],
            database.Outcome.returned { code := StatusOK, body := [("id", id)] })

/-- Go `splitQueryArray`: every value is split at the commas and every piece is appended in
its normalized form.  The nil slice returned for no piece at all is the empty list. -/
def splitQueryArray (T : unicode.Tables) (queryArray : List String) : List String :=
  queryArray.foldl
    (fun commaSeparatedArray queryValue =>
      (strings.Split queryValue comma).foldl
        (fun commaSeparatedArray commaSeparatedValue =>
          commaSeparatedArray ++ [util.Normalize T commaSeparatedValue])
        commaSeparatedArray)
    []

end server

/-! ## Go standard library: a part of the tables of package unicode -/

namespace unicode

/-- The entries of the tables of Go for the rune U+0131, LATIN SMALL LETTER DOTLESS I: the
case range `{0x0131, 0x0131, d{-232, 0, -232}}` of `unicode.CaseRanges`, whose deltas are
added to the rune (upper and title case are the ASCII letter `I`, the lower case is the rune
itself), and its membership in `unicode.Letter`.  Every other rune above ASCII is left
alone. -/
def dotlessTables : Tables where
  caseTo := fun c r =>
    if r.toNat = 0x131 then
      match c with
      | Case.UpperCase => Char.ofNat (0x131 - 232)
      | Case.LowerCase => r
      | Case.TitleCase => Char.ofNat (0x131 - 232)
    else r
  letter := fun r => r.toNat = 0x131
  digit := fun _ => false

end unicode

/-! ## Properties of the Unicode tables that the proofs rely on -/

namespace unicode

/-- Lower-casing a rune twice gives what lower-casing it once gives. -/
def LowerIdempotent (T : Tables) : Prop :=
  ∀ r, ToLower T (ToLower T r) = ToLower T r

/-- Lower-casing maps no rune onto or off white space. -/
def LowerKeepsSpace (T : Tables) : Prop :=
  ∀ r, IsSpace (ToLower T r) = IsSpace r

/-- Upper-casing a rune twice gives what upper-casing it once gives. -/
def UpperIdempotent (T : Tables) : Prop :=
  ∀ r, ToUpper T (ToUpper T r) = ToUpper T r

/-- Upper-casing maps no rune onto or off white space. -/
def UpperKeepsSpace (T : Tables) : Prop :=
  ∀ r, IsSpace (ToUpper T r) = IsSpace r

/-- Title-casing maps no rune onto or off white space. -/
def TitleKeepsSpace (T : Tables) : Prop :=
  ∀ r, IsSpace (ToTitle T r) = IsSpace r

/-- On a rune that lower-casing leaves alone, title-casing, lower-casing and title-casing
again gives the title case of the rune. -/
def TitleRoundTrip (T : Tables) : Prop :=
  ∀ r, ToLower T r = r → ToTitle T (ToLower T (ToTitle T r)) = ToTitle T r

/-- On a rune that lower-casing leaves alone, title-casing and lower-casing does not change
whether `strings.Title` sees a word separator. -/
def TitleKeepsSeparator (T : Tables) : Prop :=
  ∀ r, ToLower T r = r →
    strings.isSeparator T (ToLower T (ToTitle T r)) = strings.isSeparator T r

end unicode

/-! ## Auxiliary definitions for the proofs -/

namespace models

/-- The record as `Normalize` has rewritten it when it reaches the amount checks: name,
symbol, description and team are done, the other fields are still the input. -/
def beforeAmounts (T : unicode.Tables) (asset : CryptoAsset) : CryptoAsset :=
  { asset with
    Name := asset.Name.map (util.Normalize T)
    Symbol := asset.Symbol.map (util.Normalize T)
    Description := asset.Description.map strings.TrimSpace
    Team := asset.Team.map (List.map strings.TrimSpace) }

/-- The record as `Normalize` has rewritten it when it reaches the founded date: the fields
of `beforeAmounts` and the funding status are done. -/
def beforeDate (T : unicode.Tables) (asset : CryptoAsset) : CryptoAsset :=
  { beforeAmounts T asset with FundingStatus := asset.FundingStatus.map (util.Normalize T) }

end models

namespace database

/-- The clauses written so far, each with its keyword: ` WHERE` before the first when the
flag is set, ` AND` before the others. -/
def renderFrom : Bool → List String → String
  | _, [] => ""
  | isFirst, c :: cs => (if isFirst then " WHERE" else " AND") ++ c ++ renderFrom false cs

end database

/-! ## Sample inputs -/

namespace Sample

/-- The instant 2018-11-01T12:00:00Z. -/
def now : time.Time := { sec := 1541073600, nsec := 0 }

/-- The record of `testSuccess` in `crypto_asset_test.go`. -/
def bitcoin : models.CryptoAsset :=
  { Name := some "   biTcoiN    "
    Symbol := some "   btc    "
    Description := some "   The original cryptocurrency   "
    Team := some ["  Satoshi Nakomoto  ", "  Hal Finney  ", "  Nick Szabo  "]
    FundingStatus := some "no-ico"
    FoundedDate := some "   2009-01-03   "
    CoinType := some "   cuRRency "
    Website := some "   https://bitcoin.org/en/   " }

/-- A record as stored: the canonical form of a record with a two-word name. -/
def stored : models.CryptoAsset :=
  { ID := some "7"
    Name := some "bitcoin cash"
    Symbol := some "bch"
    Description := some "A fork of Bitcoin"
    Team := some ["Roger Ver"]
    ICOAmount := some ⟨0⟩
    BlockReward := some ⟨0⟩
    FundingStatus := some "no-ico"
    FoundedDate := some "2017-08-01"
    CoinType := some "currency"
    Website := some "https://bitcoincash.org" }

/-- A store in which every call succeeds: `Exec` reports one affected row and the generated
identifier 7, queries return no row. -/
def allSucceed : database.Responses :=
  { Begin := none
    Exec := fun _ _ => Except.ok { LastInsertId := Except.ok 7, RowsAffected := Except.ok 1 }
    Prepare := fun _ => none
    StmtExec := fun _ _ => none
    Commit := none
    Query := fun _ _ => Except.ok [] }

/-- A store without the row that an update names: every call succeeds and `Exec` reports
no affected row. -/
def noSuchRow : database.Responses :=
  { allSucceed with
    Exec := fun _ _ => Except.ok { LastInsertId := Except.ok 0, RowsAffected := Except.ok 0 } }

/-- A store whose `Exec` succeeds but whose result cannot report the affected rows. -/
def rowCountFails : database.Responses :=
  { allSucceed with
    Exec := fun _ _ =>
      Except.ok { LastInsertId := Except.ok 0, RowsAffected := Except.error "no row count" } }

/-- A store whose `Exec` fails with the SQLite error `database is locked` (code 5). -/
def execFails : database.Responses :=
  { allSucceed with Exec := fun _ _ => Except.error { ExtendedCode := 5, text := "database is locked" } }

/-- A store whose asset-row insert violates the not-null constraint on name. -/
def nameMissing : database.Responses :=
  { allSucceed with
    Exec := fun _ _ =>
      Except.error
        { ExtendedCode := sqlite3.ErrConstraintNotNull
          text := "NOT NULL constraint failed: crypto_asset.name" } }

/-- A store whose asset-row insert violates the uniqueness constraint on symbol. -/
def symbolTaken : database.Responses :=
  { allSucceed with
    Exec := fun _ _ =>
      Except.error
        { ExtendedCode := sqlite3.ErrConstraintUnique
          text := "UNIQUE constraint failed: crypto_asset.symbol" } }

/-- A store in which every call succeeds except `Commit`. -/
def commitFails : database.Responses :=
  { allSucceed with Commit := some "database is locked" }

/-- A joined row of the asset bitcoin with identifier 1 and the given team member. -/
def bitcoinRow (member : Option String) : database.Row :=
  { id := 1, name := "bitcoin", symbol := "btc", description := "The original cryptocurrency"
    icoAmount := ⟨0⟩, blockReward := ⟨0x4029000000000000⟩, fundingStatus := "no-ico"
    foundedDate := "2009-01-03", coinType := "currency", website := "https://bitcoin.org/en/"
    fkID := member.map fun _ => 1, teamMember := member }

/-- Five joined rows of one asset with five team members. -/
def fiveRows : List database.Row :=
  [bitcoinRow (some "Satoshi Nakomoto"), bitcoinRow (some "Hal Finney"),
    bitcoinRow (some "Nick Szabo"), bitcoinRow (some "Wei Dai"), bitcoinRow (some "Adam Back")]

/-- A store whose query returns the five rows. -/
def fiveRowStore : database.Responses :=
  { allSucceed with Query := fun _ _ => Except.ok (fiveRows.map Except.ok) }

/-- A store whose query returns one row of an asset without team member. -/
def noMemberStore : database.Responses :=
  { allSucceed with Query := fun _ _ => Except.ok [Except.ok (bitcoinRow none)] }

/-- A database whose every method succeeds, `Insert` answering the identifier 7. -/
def mockDatabase : database.Interface :=
  { Insert := fun _ => database.Outcome.returned ("7", none)
    Select := fun _ _ _ _ _ _ => Except.ok []
    Update := fun _ _ => none }

end Sample

/-! ## Specification-side notions -/

namespace Spec

/-- Specification: the digits of an integer string, after its optional sign. -/
def integerBody (s : String) : List Char :=
  match s.data with
  | '+' :: rest => rest
  | '-' :: rest => rest
  | cs => cs

/-- Specification: whether an integer string carries a minus sign. -/
def integerNegative (s : String) : Bool :=
  match s.data with
  | '-' :: _ => true
  | _ => false

/-- Specification: the integer that a decimal integer string denotes, by positional value. -/
def integerValue (s : String) : Int :=
  let magnitude : Nat := Nat.ofDigits 10 ((integerBody s).reverse.map fun c => c.toNat - 48)
  if integerNegative s then -(magnitude : Int) else (magnitude : Int)

/-- Specification: a valid integer string is an optional sign followed by one or more decimal
digits, denoting a value that a 64-bit `int` holds. -/
def IsIntegerString (s : String) : Bool :=
  !(integerBody s).isEmpty && (integerBody s).all Char.isDigit
    && decide (-(2 : Int) ^ 63 ≤ integerValue s) && decide (integerValue s < (2 : Int) ^ 63)

/-- Specification: a text in canonical storage form is trimmed and lower-case. -/
def IsCanonicalText (T : unicode.Tables) (s : String) : Prop :=
  strings.TrimSpace s = s ∧ strings.ToLower T s = s

/-- Specification: a record in canonical storage form has name, symbol, fundingStatus,
coinType and website trimmed and lower-case, and description, team members and foundedDate
trimmed. -/
def IsCanonical (T : unicode.Tables) (asset : models.CryptoAsset) : Prop :=
  (∀ s ∈ asset.Name, IsCanonicalText T s) ∧
    (∀ s ∈ asset.Symbol, IsCanonicalText T s) ∧
    (∀ s ∈ asset.FundingStatus, IsCanonicalText T s) ∧
    (∀ s ∈ asset.CoinType, IsCanonicalText T s) ∧
    (∀ s ∈ asset.Website, IsCanonicalText T s) ∧
    (∀ s ∈ asset.Description, strings.TrimSpace s = s) ∧
    (∀ team ∈ asset.Team, ∀ s ∈ team, strings.TrimSpace s = s) ∧
    (∀ s ∈ asset.FoundedDate, strings.TrimSpace s = s)

/-- Specification: the text every select statement starts with. -/
def selectBase : String :=
  "SELECT * FROM crypto_asset ca LEFT JOIN team_member ON id = cryptoAssetId"

/-- Specification: the clause of a value set, as a list of at most one clause: no clause for
an empty set, otherwise ` (col = ? OR col = ? ...)` with one `col = ?` per value. -/
def setClause (col : String) (values : List String) : List String :=
  if values.isEmpty then []
  else [" (" ++ " OR ".intercalate (values.map fun _ => col ++ " = ?") ++ ")"]

/-- Specification: the clause of a date bound: no clause for an empty date, otherwise
` foundedDate <comparator> ?`. -/
def dateClause (comparator date : String) : List String :=
  if date = "" then [] else [" foundedDate " ++ comparator ++ " ?"]

/-- Specification: the present clauses in the fixed order names, symbols, fundingStatuses,
coinTypes, startDate, endDate. -/
def presentClauses (names symbols fundingStatuses coinTypes : List String)
    (startDate endDate : String) : List String :=
  setClause "ca.name" names ++ setClause "symbol" symbols
    ++ setClause "fundingStatus" fundingStatuses ++ setClause "coinType" coinTypes
    ++ dateClause ">=" startDate ++ dateClause "<=" endDate

/-- Specification: the first clause is preceded by ` WHERE`, every later one by ` AND`. -/
def withKeywords : List String → String
  | [] => ""
  | first :: later => " WHERE" ++ first ++ String.join (later.map fun c => " AND" ++ c)

/-- Specification: the SQL text of the select statement. -/
def selectSQL (names symbols fundingStatuses coinTypes : List String)
    (startDate endDate : String) : String :=
  selectBase
    ++ withKeywords (presentClauses names symbols fundingStatuses coinTypes startDate endDate)
    ++ ";"

/-- Specification: the argument list of the select statement: the four value sets in input
order, then each date that is not empty. -/
def selectArgs (names symbols fundingStatuses coinTypes : List String)
    (startDate endDate : String) : List database.Arg :=
  (names ++ symbols ++ fundingStatuses ++ coinTypes
    ++ (if startDate = "" then [] else [startDate])
    ++ (if endDate = "" then [] else [endDate])).map database.Arg.str

/-- Specification: the text `s` contains the text `part` as a contiguous piece. -/
def containsText (s part : String) : Prop :=
  part.data <:+: s.data

/-- Specification: at least one search filter is present. -/
def anyFilter (names symbols fundingStatuses coinTypes : List String)
    (startDate endDate : String) : Prop :=
  names ≠ [] ∨ symbols ≠ [] ∨ fundingStatuses ≠ [] ∨ coinTypes ≠ [] ∨ startDate ≠ ""
    ∨ endDate ≠ ""

/-- Specification: the present scalar fields of a record in the fixed order name, symbol,
description, icoAmount, blockReward, fundingStatus, foundedDate, coinType, website, each with
its column name and its value. -/
def presentFields (asset : models.CryptoAsset) : List (String × database.Arg) :=
  (asset.Name.map fun v => ("name", database.Arg.str v)).toList
    ++ (asset.Symbol.map fun v => ("symbol", database.Arg.str v)).toList
    ++ (asset.Description.map fun v => ("description", database.Arg.str v)).toList
    ++ (asset.ICOAmount.map fun v => ("icoAmount", database.Arg.float v)).toList
    ++ (asset.BlockReward.map fun v => ("blockReward", database.Arg.float v)).toList
    ++ (asset.FundingStatus.map fun v => ("fundingStatus", database.Arg.str v)).toList
    ++ (asset.FoundedDate.map fun v => ("foundedDate", database.Arg.str v)).toList
    ++ (asset.CoinType.map fun v => ("coinType", database.Arg.str v)).toList
    ++ (asset.Website.map fun v => ("website", database.Arg.str v)).toList

/-- Specification: at least one of the nine scalar fields is present. -/
def anyScalar (asset : models.CryptoAsset) : Prop :=
  asset.Name ≠ none ∨ asset.Symbol ≠ none ∨ asset.Description ≠ none ∨ asset.ICOAmount ≠ none
    ∨ asset.BlockReward ≠ none ∨ asset.FundingStatus ≠ none ∨ asset.FoundedDate ≠ none
    ∨ asset.CoinType ≠ none ∨ asset.Website ≠ none

/-- Specification: the SQL text of the update statement: `col = ?` for the present fields,
joined by `, `, between `UPDATE crypto_asset SET ` and ` WHERE id = ?;`. -/
def updateSQL (asset : models.CryptoAsset) : String :=
  "UPDATE crypto_asset SET "
    ++ ", ".intercalate ((presentFields asset).map fun f => f.1 ++ " = ?")
    ++ " WHERE id = ?;"

/-- Specification: the arguments of the update statement: the values of the present fields
in order, then the identifier. -/
def updateArgs (id : Int) (asset : models.CryptoAsset) : List database.Arg :=
  (presentFields asset).map (fun f => f.2) ++ [database.Arg.int id]

/-- Specification: the calls of a team replacement: delete the team rows of the identifier,
prepare the insert, execute it once per member in input order, close the statement. -/
def teamCalls (id : Int) (team : List String) : List database.Call :=
  database.Call.Exec "DELETE FROM team_member WHERE cryptoAssetId = ?;" [database.Arg.int id]
    :: database.Call.Prepare "INSERT INTO team_member(cryptoAssetId, name) VALUES(?, ?)"
    :: team.map (fun member =>
        database.Call.StmtExec "INSERT INTO team_member(cryptoAssetId, name) VALUES(?, ?)"
          [database.Arg.int id, database.Arg.str member])
    ++ [database.Call.StmtClose]

/-- Specification: the SQL meaning of a successful call for the rows of team_member, kept as
pairs (cryptoAssetId, name) in insertion order: the delete removes the rows of the
identifier, the insert adds a row, no other call of the store touches the relation. -/
def teamMemberEffect (rows : List (Int × String)) (call : database.Call) :
    List (Int × String) :=
  match call with
  | database.Call.Exec query args =>
    if query = "DELETE FROM team_member WHERE cryptoAssetId = ?;" then
      match args with
      | [database.Arg.int id] => rows.filter fun r => r.1 ≠ id
      | _ => rows
    else rows
  | database.Call.StmtExec query args =>
    if query = "INSERT INTO team_member(cryptoAssetId, name) VALUES(?, ?)" then
      match args with
      | [database.Arg.int id, database.Arg.str name] => rows ++ [(id, name)]
      | _ => rows
    else rows
  | _ => rows

/-- Specification: the stored team of an identifier: the names of its rows, in order. -/
def storedTeam (rows : List (Int × String)) (id : Int) : List String :=
  (rows.filter fun r => r.1 = id).map fun r => r.2

/-- Specification: the calls of a scalar update: execute the statement and read the number
of affected rows; none without a statement. -/
def scalarCalls : Option database.statement → List database.Call
  | none => []
  | some st => [database.Call.Exec st.sql st.args, database.Call.RowsAffected]

/-- Specification: `field` is the part of `m` after its last `.` (all of `m` when it has no
`.`). -/
def IsAfterLastDot (m field : String) : Prop :=
  '.' ∉ field.data ∧
    ((∃ before : List Char, m.data = before ++ '.' :: field.data) ∨ ('.' ∉ m.data ∧ field = m))

/-- Specification: the steps of an insert all succeed and generate the identifier `id`: the
asset-row insert, the capture of the generated identifier, and every team-member insert
(preparing the insert statement and executing it for each member). -/
def insertStepsOk (db : database.Responses) (asset : models.CryptoAsset) (id : Int) : Prop :=
  (∃ result,
      db.Exec (database.insertAssetCall asset).1 (database.insertAssetCall asset).2
        = Except.ok result ∧
      result.LastInsertId = Except.ok id) ∧
    db.Prepare "INSERT INTO team_member(cryptoAssetId, name) VALUES(?, ?)" = none ∧
    ∀ (i : Nat) (member : String), (asset.Team.getD [])[i]? = some member →
      db.StmtExec i [database.Arg.int id, database.Arg.str member] = none

/-- Specification: the record of an identifier in a sequence of joined rows: its scalar
fields are those of the first row with the identifier, its team is the sequence of non-null
member names of the rows with the identifier, in row order. -/
def selectRecord (rows : List database.Row) (id : Int) : models.CryptoAsset :=
  match rows.find? (fun row => row.id = id) with
  | none => {}
  | some first =>
    { ID := some (strconv.Itoa id)
      Name := some first.name
      Symbol := some first.symbol
      Description := some first.description
      Team := some ((rows.filter fun row => row.id = id).filterMap fun row => row.teamMember)
      ICOAmount := some first.icoAmount
      BlockReward := some first.blockReward
      FundingStatus := some first.fundingStatus
      FoundedDate := some first.foundedDate
      CoinType := some first.coinType
      Website := some first.website }

/-- Specification: the result of a search over joined rows, up to order: one record per
distinct identifier occurring in the rows. -/
def selectRecords (rows : List database.Row) : List models.CryptoAsset :=
  (rows.map fun row => row.id).dedup.map (selectRecord rows)

/-- Specification: the lower-cased text with only its first rune changed to upper case and
every other rune as in the lower-cased text. -/
def capitalizeFirst (T : unicode.Tables) (s : String) : String :=
  match (strings.ToLower T s).data with
  | [] => ""
  | first :: rest => ⟨unicode.ToUpper T first :: rest⟩

/-- Specification: `pieces` are the comma-separated pieces of the text `value`: there is at
least one piece, no piece holds a comma, and the pieces joined by commas are the text. -/
def IsCommaPieces (value : String) (pieces : List String) : Prop :=
  pieces ≠ [] ∧ (∀ piece ∈ pieces, ',' ∉ piece.data) ∧
    [','].intercalate (pieces.map String.data) = value.data

/-- Specification: the number of `?` placeholders in a SQL text. -/
def placeholders (sql : String) : Nat :=
  sql.data.count '?'

/-- Specification: `v` is a value that the caller supplied to the search: a member of one of
the four sets, or a date bound that is not empty. -/
def IsSearchValue (names symbols fundingStatuses coinTypes : List String)
    (startDate endDate : String) (v : String) : Prop :=
  v ∈ names ∨ v ∈ symbols ∨ v ∈ fundingStatuses ∨ v ∈ coinTypes
    ∨ (v = startDate ∧ startDate ≠ "") ∨ (v = endDate ∧ endDate ≠ "")

/-- Specification: lower-casing maps every rune of the text back from its upper case. -/
def UpperRoundTrips (T : unicode.Tables) (s : String) : Prop :=
  ∀ r ∈ s.data, unicode.ToLower T (unicode.ToUpper T r) = r

/-- Specification: lower-casing maps every rune of the text back from its title case. -/
def TitleRoundTrips (T : unicode.Tables) (s : String) : Prop :=
  ∀ r ∈ s.data, unicode.ToLower T (unicode.ToTitle T r) = r

end Spec

/-! ## Theorems -/

/-! ### strconv.Atoi against the specification of integer strings -/

namespace strconv

theorem isDigit_eq (c : Char) : isDigit c = c.isDigit := by
  simp only [isDigit, Char.isDigit, Char.toNat, ge_iff_le, UInt32.le_def]
  rfl

theorem parseDigits_eq (cs : List Char) (acc : Nat) :
    parseDigits acc cs =
      if cs.all Char.isDigit then
        some (acc * 10 ^ cs.length + Nat.ofDigits 10 (cs.reverse.map fun c => c.toNat - 48))
      else none := by
  induction cs generalizing acc with
  | nil => simp [parseDigits]
  | cons c cs ih =>
    simp only [parseDigits, isDigit_eq, ih, List.all_cons, List.reverse_cons, List.map_append,
      List.map_cons, List.map_nil, Nat.ofDigits_append, List.length_cons, List.length_map,
      List.length_reverse, Nat.ofDigits_singleton]
    cases hc : c.isDigit <;> cases hcs : cs.all Char.isDigit <;> simp
    ring

theorem signed_eq_spec (s : String) :
    (match s.data with
      | '+' :: rest => (false, rest)
      | '-' :: rest => (true, rest)
      | cs => (false, cs)) = (Spec.integerNegative s, Spec.integerBody s) := by
  unfold Spec.integerNegative Spec.integerBody
  split
  · rename_i rest h
    simp [h]
  · rename_i rest h
    simp [h]
  · rename_i h1 h2
    split
    · rename_i h3
      exact absurd h3 (h2 _)
    · rfl

/-- The embedding of `strconv.Atoi` accepts exactly the valid integer strings and returns the
integer they denote. -/
theorem Atoi_eq_spec (s : String) :
    Atoi s = if Spec.IsIntegerString s then some (Spec.integerValue s) else none := by
  unfold Atoi
  rw [signed_eq_spec]
  simp only [parseDigits_eq, Nat.zero_mul, Nat.zero_add, Spec.IsIntegerString, Spec.integerValue]
  by_cases hr : Spec.integerBody s = []
  · simp [hr]
  · by_cases hd : (Spec.integerBody s).all Char.isDigit = true
    · by_cases hn : Spec.integerNegative s = true
      · simp [hr, hd, hn]
        generalize Nat.ofDigits 10 (List.map (fun c => c.toNat - 48) (Spec.integerBody s)).reverse = m
        split_ifs <;> first | rfl | omega
      · simp [hr, hd, hn]
        generalize Nat.ofDigits 10 (List.map (fun c => c.toNat - 48) (Spec.integerBody s)).reverse = m
        split_ifs <;> first | rfl | omega
    · simp [hr, hd]

end strconv

/-! ### Normalize: outcome by cases, field values, identifier, amounts, founded date -/

namespace models

/-- The id block of `Normalize` in specification terms. -/
theorem parseID_eq_spec (asset : CryptoAsset) :
    parseID asset =
      match asset.ID with
      | none => Except.ok 0
      | some s =>
        if Spec.IsIntegerString s then Except.ok (Spec.integerValue s)
        else Except.error ("invalid id: " ++ s) := by
  unfold parseID
  cases asset.ID with
  | none => rfl
  | some s =>
    simp only [strconv.Atoi_eq_spec]
    cases Spec.IsIntegerString s <;> simp

/-- A record whose id is absent or a valid integer string passes the id block. -/
theorem parseID_ok_of_valid (asset : CryptoAsset)
    (hid : ∀ s, asset.ID = some s → Spec.IsIntegerString s = true) :
    ∃ id, parseID asset = Except.ok id := by
  rw [parseID_eq_spec]
  cases h : asset.ID with
  | none => exact ⟨0, rfl⟩
  | some s => exact ⟨Spec.integerValue s, by simp [hid s h]⟩

theorem Normalize_of_id_error (T : unicode.Tables) (now : time.Time) (asset : CryptoAsset)
    (e : String) (h : parseID asset = Except.error e) :
    asset.Normalize T now = { id := -1, err := some e, asset := asset } := by
  unfold CryptoAsset.Normalize
  rw [h]

theorem Normalize_of_ico_negative (T : unicode.Tables) (now : time.Time) (asset : CryptoAsset)
    (id : Int) (h : parseID asset = Except.ok id) (hico : isNegative asset.ICOAmount = true) :
    asset.Normalize T now =
      { id := -1, err := some "ICO amount cannot be negative", asset := beforeAmounts T asset } := by
  unfold CryptoAsset.Normalize
  rw [h]
  simp [hico, beforeAmounts]

theorem Normalize_of_reward_negative (T : unicode.Tables) (now : time.Time)
    (asset : CryptoAsset) (id : Int) (h : parseID asset = Except.ok id)
    (hico : isNegative asset.ICOAmount = false) (hbr : isNegative asset.BlockReward = true) :
    asset.Normalize T now =
      { id := -1, err := some "block reward cannot be negative",
        asset := beforeAmounts T asset } := by
  unfold CryptoAsset.Normalize
  rw [h]
  simp [hico, hbr, beforeAmounts]

/-- What `Normalize` does once the id and amount checks are passed. -/
theorem Normalize_of_amounts_ok (T : unicode.Tables) (now : time.Time) (asset : CryptoAsset)
    (id : Int) (h : parseID asset = Except.ok id)
    (hico : isNegative asset.ICOAmount = false) (hbr : isNegative asset.BlockReward = false) :
    asset.Normalize T now =
      let staged :=
        { beforeAmounts T asset with FundingStatus := asset.FundingStatus.map (util.Normalize T) }
      match asset.FoundedDate with
      | none => normalizeRest T id staged
      | some raw =>
        match time.Parse (strings.TrimSpace raw) with
        | none =>
          { id := -1, err := some "date must be an ISO-8601 date in the past", asset := staged }
        | some date =>
          if date.After now then
            { id := -1, err := some "date must be an ISO-8601 date in the past",
              asset := staged }
          else
            normalizeRest T id { staged with FoundedDate := some (strings.TrimSpace raw) } := by
  unfold CryptoAsset.Normalize
  rw [h]
  simp [hico, hbr, beforeAmounts]

/-- C1: on every record on which Normalize succeeds, name, symbol, fundingStatus, coinType
and website are replaced by their input value trimmed and then lower-cased, description by its
input value trimmed only, and an absent field stays absent (`Option.map` keeps `none`). -/
theorem Normalize_success_fields (T : unicode.Tables) (now : time.Time) (asset : CryptoAsset)
    (h : (asset.Normalize T now).err = none) :
    (asset.Normalize T now).asset.Name
        = asset.Name.map (fun s => strings.ToLower T (strings.TrimSpace s)) ∧
      (asset.Normalize T now).asset.Symbol
        = asset.Symbol.map (fun s => strings.ToLower T (strings.TrimSpace s)) ∧
      (asset.Normalize T now).asset.FundingStatus
        = asset.FundingStatus.map (fun s => strings.ToLower T (strings.TrimSpace s)) ∧
      (asset.Normalize T now).asset.CoinType
        = asset.CoinType.map (fun s => strings.ToLower T (strings.TrimSpace s)) ∧
      (asset.Normalize T now).asset.Website
        = asset.Website.map (fun s => strings.ToLower T (strings.TrimSpace s)) ∧
      (asset.Normalize T now).asset.Description = asset.Description.map strings.TrimSpace := by
  have hN : util.Normalize T = fun s => strings.ToLower T (strings.TrimSpace s) := rfl
  cases hid : parseID asset with
  | error e => rw [Normalize_of_id_error T now asset e hid] at h; simp at h
  | ok id =>
    cases hico : isNegative asset.ICOAmount with
    | true => rw [Normalize_of_ico_negative T now asset id hid hico] at h; simp at h
    | false =>
      cases hbr : isNegative asset.BlockReward with
      | true => rw [Normalize_of_reward_negative T now asset id hid hico hbr] at h; simp at h
      | false =>
        rw [Normalize_of_amounts_ok T now asset id hid hico hbr] at h ⊢
        cases hfd : asset.FoundedDate with
        | none => simp [normalizeRest, beforeAmounts, hN]
        | some raw =>
          simp only [hfd] at h ⊢
          cases hp : time.Parse (strings.TrimSpace raw) with
          | none => simp [hp] at h
          | some date =>
            simp only [hp] at h ⊢
            cases ha : date.After now with
            | true => simp [ha] at h
            | false => simp [ha, normalizeRest, beforeAmounts, hN]

/-- Witness of C1 on the record of `testSuccess`. -/
theorem Normalize_success_fields_witness :
    (Sample.bitcoin.Normalize unicode.asciiTables Sample.now).err = none ∧
      (Sample.bitcoin.Normalize unicode.asciiTables Sample.now).asset.Name = some "bitcoin" ∧
      (Sample.bitcoin.Normalize unicode.asciiTables Sample.now).asset.Symbol = some "btc" ∧
      (Sample.bitcoin.Normalize unicode.asciiTables Sample.now).asset.FundingStatus
        = some "no-ico" ∧
      (Sample.bitcoin.Normalize unicode.asciiTables Sample.now).asset.CoinType
        = some "currency" ∧
      (Sample.bitcoin.Normalize unicode.asciiTables Sample.now).asset.Website
        = some "https://bitcoin.org/en/" ∧
      (Sample.bitcoin.Normalize unicode.asciiTables Sample.now).asset.Description
        = some "The original cryptocurrency" :=
  ⟨by decide, Normalize_success_fields unicode.asciiTables Sample.now Sample.bitcoin (by decide)⟩

/-- C2: a present id that is not a valid integer string makes Normalize fail with the
message `invalid id: <id>` and return -1; and whenever Normalize succeeds, the returned
identifier is the integer value of a present id and 0 for an absent id. -/
theorem Normalize_identifier (T : unicode.Tables) (now : time.Time) (asset : CryptoAsset) :
    (∀ s, asset.ID = some s → Spec.IsIntegerString s = false →
        (asset.Normalize T now).err = some ("invalid id: " ++ s) ∧
          (asset.Normalize T now).id = -1) ∧
      ((asset.Normalize T now).err = none →
        (∀ s, asset.ID = some s →
          Spec.IsIntegerString s = true ∧ (asset.Normalize T now).id = Spec.integerValue s) ∧
        (asset.ID = none → (asset.Normalize T now).id = 0)) := by
  have hspec := parseID_eq_spec asset
  refine ⟨fun s hs hbad => ?_, fun hok => ?_⟩
  · rw [hs] at hspec
    simp only [hbad, Bool.false_eq_true, if_false] at hspec
    rw [Normalize_of_id_error T now asset _ hspec]
    exact ⟨rfl, rfl⟩
  · cases hid : parseID asset with
    | error e => rw [Normalize_of_id_error T now asset e hid] at hok; simp at hok
    | ok id =>
      have hret : (asset.Normalize T now).id = id := by
        cases hico : isNegative asset.ICOAmount with
        | true => rw [Normalize_of_ico_negative T now asset id hid hico] at hok; simp at hok
        | false =>
          cases hbr : isNegative asset.BlockReward with
          | true =>
            rw [Normalize_of_reward_negative T now asset id hid hico hbr] at hok; simp at hok
          | false =>
            rw [Normalize_of_amounts_ok T now asset id hid hico hbr] at hok ⊢
            cases hfd : asset.FoundedDate with
            | none => simp [normalizeRest]
            | some raw =>
              simp only [hfd] at hok ⊢
              cases hp : time.Parse (strings.TrimSpace raw) with
              | none => simp [hp] at hok
              | some date =>
                simp only [hp] at hok ⊢
                cases ha : date.After now with
                | true => simp [ha] at hok
                | false => simp [ha, normalizeRest]
      rw [hret]
      rw [hid] at hspec
      refine ⟨fun s hs => ?_, fun hnone => ?_⟩
      · rw [hs] at hspec
        cases hv : Spec.IsIntegerString s with
        | false => simp [hv] at hspec
        | true =>
          simp only [hv, if_true] at hspec
          exact ⟨rfl, Except.ok.inj hspec⟩
      · rw [hnone] at hspec
        exact Except.ok.inj hspec

/-- Witness of C2: the id `a` of `testNonNumericID` is rejected, the id `42` gives 42 and
an absent id gives 0. -/
theorem Normalize_identifier_witness :
    ((({ ID := some "a" } : CryptoAsset).Normalize unicode.asciiTables Sample.now).err
        = some "invalid id: a" ∧
      (({ ID := some "a" } : CryptoAsset).Normalize unicode.asciiTables Sample.now).id = -1) ∧
      (({ ID := some "42" } : CryptoAsset).Normalize unicode.asciiTables Sample.now).id = 42 ∧
      (Sample.bitcoin.Normalize unicode.asciiTables Sample.now).id = 0 :=
  ⟨(Normalize_identifier unicode.asciiTables Sample.now { ID := some "a" }).1 "a" rfl
      (by decide),
    (((Normalize_identifier unicode.asciiTables Sample.now { ID := some "42" }).2
      (by decide)).1 "42" rfl).2.trans (by decide),
    ((Normalize_identifier unicode.asciiTables Sample.now Sample.bitcoin).2 (by decide)).2 rfl⟩

end models

namespace Float64

/-- A value that compares `>= 0` does not compare `< 0`. -/
theorem ltZero_of_geZero (x : Float64) (h : x.geZero = true) : x.ltZero = false := by
  unfold geZero at h
  unfold ltZero
  cases hn : x.isNaN <;> cases hz : x.isZero <;> simp_all

end Float64

namespace models

/-- The error that `Normalize` returns once the id block is passed, by cases on the amounts:
the ICO message exactly for a negative ICO amount, the block reward message exactly for a
non-negative or absent ICO amount with a negative block reward. -/
theorem Normalize_err_amounts (T : unicode.Tables) (now : time.Time) (asset : CryptoAsset)
    (id : Int) (hid : parseID asset = Except.ok id) :
    ((asset.Normalize T now).err = some "ICO amount cannot be negative"
        ↔ isNegative asset.ICOAmount = true) ∧
      ((asset.Normalize T now).err = some "block reward cannot be negative"
        ↔ isNegative asset.ICOAmount = false ∧ isNegative asset.BlockReward = true) := by
  cases hico : isNegative asset.ICOAmount with
  | true =>
    rw [Normalize_of_ico_negative T now asset id hid hico]
    simp
  | false =>
    cases hbr : isNegative asset.BlockReward with
    | true =>
      rw [Normalize_of_reward_negative T now asset id hid hico hbr]
      simp
    | false =>
      rw [Normalize_of_amounts_ok T now asset id hid hico hbr]
      cases hfd : asset.FoundedDate with
      | none => simp [normalizeRest]
      | some raw =>
        simp only [hfd]
        cases hp : time.Parse (strings.TrimSpace raw) with
        | none => simp
        | some date =>
          cases ha : date.After now with
          | true => simp [ha]
          | false => simp [ha, normalizeRest]

/-- C3: on every record whose id is absent or a valid integer string, a present icoAmount
below 0 makes Normalize fail with `ICO amount cannot be negative` and return -1; otherwise a
present blockReward below 0 makes it fail with `block reward cannot be negative` and return
-1; and a present icoAmount or blockReward that is 0 or any other non-negative value never
produces its failure. -/
theorem Normalize_amounts (T : unicode.Tables) (now : time.Time) (asset : CryptoAsset)
    (hid : ∀ s, asset.ID = some s → Spec.IsIntegerString s = true) :
    (∀ x, asset.ICOAmount = some x → x.ltZero = true →
        (asset.Normalize T now).err = some "ICO amount cannot be negative" ∧
          (asset.Normalize T now).id = -1) ∧
      ((¬∃ x, asset.ICOAmount = some x ∧ x.ltZero = true) →
        ∀ y, asset.BlockReward = some y → y.ltZero = true →
          (asset.Normalize T now).err = some "block reward cannot be negative" ∧
            (asset.Normalize T now).id = -1) ∧
      (∀ x, asset.ICOAmount = some x → x.geZero = true →
        (asset.Normalize T now).err ≠ some "ICO amount cannot be negative") ∧
      (∀ y, asset.BlockReward = some y → y.geZero = true →
        (asset.Normalize T now).err ≠ some "block reward cannot be negative") := by
  obtain ⟨id, hok⟩ := parseID_ok_of_valid asset hid
  have herr := Normalize_err_amounts T now asset id hok
  refine ⟨fun x hx hneg => ?_, fun hno y hy hneg => ?_, fun x hx hge => ?_, fun y hy hge => ?_⟩
  · have hico : isNegative asset.ICOAmount = true := by simp [isNegative, hx, hneg]
    rw [Normalize_of_ico_negative T now asset id hok hico]
    exact ⟨rfl, rfl⟩
  · have hico : isNegative asset.ICOAmount = false := by
      cases hx : asset.ICOAmount with
      | none => rfl
      | some x =>
        cases hlt : x.ltZero with
        | false => simp [isNegative, hlt]
        | true => exact absurd ⟨x, hx, hlt⟩ hno
    have hbr : isNegative asset.BlockReward = true := by simp [isNegative, hy, hneg]
    rw [Normalize_of_reward_negative T now asset id hok hico hbr]
    exact ⟨rfl, rfl⟩
  · intro h
    have hico := herr.1.mp h
    simp [isNegative, hx, Float64.ltZero_of_geZero x hge] at hico
  · intro h
    have hbr := (herr.2.mp h).2
    simp [isNegative, hy, Float64.ltZero_of_geZero y hge] at hbr

/-- Witness of C3: the amounts -1.5 of `testNegativeICOAmount` and `testNegativeBlockReward`
are rejected, an icoAmount of 0 is accepted. -/
theorem Normalize_amounts_witness :
    ((({ ICOAmount := some ⟨0xBFF8000000000000⟩ } : CryptoAsset).Normalize unicode.asciiTables
          Sample.now).err = some "ICO amount cannot be negative" ∧
        (({ ICOAmount := some ⟨0xBFF8000000000000⟩ } : CryptoAsset).Normalize
          unicode.asciiTables Sample.now).id = -1) ∧
      ((({ BlockReward := some ⟨0xBFF8000000000000⟩ } : CryptoAsset).Normalize
          unicode.asciiTables Sample.now).err = some "block reward cannot be negative" ∧
        (({ BlockReward := some ⟨0xBFF8000000000000⟩ } : CryptoAsset).Normalize
          unicode.asciiTables Sample.now).id = -1) ∧
      (({ ICOAmount := some ⟨0⟩ } : CryptoAsset).Normalize unicode.asciiTables Sample.now).err
        ≠ some "ICO amount cannot be negative" :=
  ⟨(Normalize_amounts unicode.asciiTables Sample.now { ICOAmount := some ⟨0xBFF8000000000000⟩ }
      (by simp)).1 ⟨0xBFF8000000000000⟩ rfl (by decide),
    (Normalize_amounts unicode.asciiTables Sample.now
      { BlockReward := some ⟨0xBFF8000000000000⟩ } (by simp)).2.1 (by simp)
      ⟨0xBFF8000000000000⟩ rfl (by decide),
    (Normalize_amounts unicode.asciiTables Sample.now { ICOAmount := some ⟨0⟩ }
      (by simp)).2.2.1 ⟨0⟩ rfl (by decide)⟩

/-- C4: for every current time and every record that passes the id and amount checks and has
a foundedDate, Normalize fails with `date must be an ISO-8601 date in the past` and returns -1
when the trimmed foundedDate does not parse as YYYY-MM-DD or denotes a date after now;
otherwise it succeeds and foundedDate becomes exactly the trimmed input string. -/
theorem Normalize_foundedDate (T : unicode.Tables) (now : time.Time) (asset : CryptoAsset)
    (raw : String) (hid : ∀ s, asset.ID = some s → Spec.IsIntegerString s = true)
    (hico : isNegative asset.ICOAmount = false) (hbr : isNegative asset.BlockReward = false)
    (hfd : asset.FoundedDate = some raw) :
    ((time.Parse (strings.TrimSpace raw) = none ∨
          ∃ date, time.Parse (strings.TrimSpace raw) = some date ∧ date.After now = true) →
        (asset.Normalize T now).err = some "date must be an ISO-8601 date in the past" ∧
          (asset.Normalize T now).id = -1) ∧
      ((∃ date, time.Parse (strings.TrimSpace raw) = some date ∧ date.After now = false) →
        (asset.Normalize T now).err = none ∧
          (asset.Normalize T now).asset.FoundedDate = some (strings.TrimSpace raw)) := by
  obtain ⟨id, hok⟩ := parseID_ok_of_valid asset hid
  rw [Normalize_of_amounts_ok T now asset id hok hico hbr]
  simp only [hfd]
  refine ⟨fun h => ?_, fun h => ?_⟩
  · rcases h with h | ⟨date, hp, ha⟩
    · simp [h]
    · simp [hp, ha]
  · obtain ⟨date, hp, ha⟩ := h
    simp [hp, ha, normalizeRest]

/-- Witness of C4 at 2018-11-01T12:00:00Z: `12/25/2017` (not ISO-8601), `9999-12-31` and
the next day `2018-11-02` are rejected; the date of `testSuccess` is accepted and becomes the
trimmed string `2009-01-03`. -/
theorem Normalize_foundedDate_witness :
    ((({ FoundedDate := some "12/25/2017" } : CryptoAsset).Normalize unicode.asciiTables
          Sample.now).err = some "date must be an ISO-8601 date in the past" ∧
        (({ FoundedDate := some "12/25/2017" } : CryptoAsset).Normalize unicode.asciiTables
          Sample.now).id = -1) ∧
      ((({ FoundedDate := some "9999-12-31" } : CryptoAsset).Normalize unicode.asciiTables
          Sample.now).err = some "date must be an ISO-8601 date in the past" ∧
        (({ FoundedDate := some "9999-12-31" } : CryptoAsset).Normalize unicode.asciiTables
          Sample.now).id = -1) ∧
      ((({ FoundedDate := some "2018-11-02" } : CryptoAsset).Normalize unicode.asciiTables
          Sample.now).err = some "date must be an ISO-8601 date in the past" ∧
        (({ FoundedDate := some "2018-11-02" } : CryptoAsset).Normalize unicode.asciiTables
          Sample.now).id = -1) ∧
      ((Sample.bitcoin.Normalize unicode.asciiTables Sample.now).err = none ∧
        (Sample.bitcoin.Normalize unicode.asciiTables Sample.now).asset.FoundedDate
          = some "2009-01-03") :=
  ⟨(Normalize_foundedDate unicode.asciiTables Sample.now { FoundedDate := some "12/25/2017" }
      "12/25/2017" (by simp) rfl rfl rfl).1 (Or.inl (by decide)),
    (Normalize_foundedDate unicode.asciiTables Sample.now { FoundedDate := some "9999-12-31" }
      "9999-12-31" (by simp) rfl rfl rfl).1
      (Or.inr ⟨time.Date 9999 12 31, by decide, by decide⟩),
    (Normalize_foundedDate unicode.asciiTables Sample.now { FoundedDate := some "2018-11-02" }
      "2018-11-02" (by simp) rfl rfl rfl).1
      (Or.inr ⟨time.Date 2018 11 2, by decide, by decide⟩),
    (Normalize_foundedDate unicode.asciiTables Sample.now Sample.bitcoin "   2009-01-03   "
      (by simp [Sample.bitcoin]) rfl rfl rfl).2 ⟨time.Date 2009 1 3, by decide, by decide⟩⟩

end models

/-! ### Normalize: the team -/

namespace strings

/-- Trimming only removes runes at both ends: the result is a contiguous part of the input,
so the case of what remains is that of the input. -/
theorem TrimSpace_infix (s : String) : (TrimSpace s).data <:+: s.data :=
  (List.rdropWhile_prefix unicode.IsSpace _).isInfix.trans
    (List.dropWhile_suffix unicode.IsSpace).isInfix

end strings

namespace models

/-- The team after `Normalize`: trimmed element-wise once the id block is passed. -/
theorem Normalize_team_of_id_ok (T : unicode.Tables) (now : time.Time) (asset : CryptoAsset)
    (id : Int) (hid : parseID asset = Except.ok id) :
    (asset.Normalize T now).asset.Team = asset.Team.map (List.map strings.TrimSpace) := by
  cases hico : isNegative asset.ICOAmount with
  | true => rw [Normalize_of_ico_negative T now asset id hid hico]; rfl
  | false =>
    cases hbr : isNegative asset.BlockReward with
    | true => rw [Normalize_of_reward_negative T now asset id hid hico hbr]; rfl
    | false =>
      rw [Normalize_of_amounts_ok T now asset id hid hico hbr]
      cases hfd : asset.FoundedDate with
      | none => simp [normalizeRest, beforeAmounts]
      | some raw =>
        simp only [hfd]
        cases hp : time.Parse (strings.TrimSpace raw) with
        | none => simp [beforeAmounts]
        | some date =>
          cases ha : date.After now with
          | true => simp [ha, beforeAmounts]
          | false => simp [ha, normalizeRest, beforeAmounts]

/-- C5 as stated fails on a record with an invalid id: Normalize returns at the id check and
the team keeps its untrimmed members. -/
theorem Normalize_team_counterexample :
    (({ ID := some "a", Team := some ["  Hal Finney  "] } : CryptoAsset).Normalize
        unicode.asciiTables Sample.now).asset.Team = some ["  Hal Finney  "] ∧
      (({ ID := some "a", Team := some ["  Hal Finney  "] } : CryptoAsset).Normalize
        unicode.asciiTables Sample.now).asset.Team
        ≠ Option.map (List.map strings.TrimSpace) (some ["  Hal Finney  "]) := by
  decide

/-- C5 (amended): on every record whose id is absent or a valid integer string, Normalize
maps the team element-wise to the whitespace-trimmed names (each a contiguous part of the
input name, so case is preserved), keeping length and order, also when a later check fails;
on a record with an invalid id the team is left as it is; and on every record an absent team
stays absent and an empty team stays a present empty sequence. -/
theorem Normalize_team (T : unicode.Tables) (now : time.Time) (asset : CryptoAsset) :
    ((∀ s, asset.ID = some s → Spec.IsIntegerString s = true) →
        (asset.Normalize T now).asset.Team = asset.Team.map (List.map strings.TrimSpace)) ∧
      ((∃ s, asset.ID = some s ∧ Spec.IsIntegerString s = false) →
        (asset.Normalize T now).asset.Team = asset.Team) ∧
      (∀ s, (strings.TrimSpace s).data <:+: s.data) ∧
      ((asset.Normalize T now).asset.Team = none ↔ asset.Team = none) ∧
      ((asset.Normalize T now).asset.Team = some [] ↔ asset.Team = some []) ∧
      (asset.Normalize T now).asset.Team.map List.length = asset.Team.map List.length := by
  have hvalid : (∀ s, asset.ID = some s → Spec.IsIntegerString s = true) →
      (asset.Normalize T now).asset.Team = asset.Team.map (List.map strings.TrimSpace) := by
    intro hid
    obtain ⟨id, hok⟩ := parseID_ok_of_valid asset hid
    exact Normalize_team_of_id_ok T now asset id hok
  have hinvalid : (∃ s, asset.ID = some s ∧ Spec.IsIntegerString s = false) →
      (asset.Normalize T now).asset.Team = asset.Team := by
    rintro ⟨s, hs, hbad⟩
    have hspec := parseID_eq_spec asset
    rw [hs] at hspec
    simp only [hbad, Bool.false_eq_true, if_false] at hspec
    rw [Normalize_of_id_error T now asset _ hspec]
  refine ⟨hvalid, hinvalid, strings.TrimSpace_infix, ?_⟩
  by_cases hid : ∀ s, asset.ID = some s → Spec.IsIntegerString s = true
  · rw [hvalid hid]
    cases asset.Team with
    | none => simp
    | some team => cases team <;> simp
  · have hex : ∃ s, asset.ID = some s ∧ Spec.IsIntegerString s = false := by
      simpa using hid
    rw [hinvalid hex]
    simp

/-- Witness of C5 (amended) on the record of `testSuccess` and on an empty team. -/
theorem Normalize_team_witness :
    (Sample.bitcoin.Normalize unicode.asciiTables Sample.now).asset.Team
        = some ["Satoshi Nakomoto", "Hal Finney", "Nick Szabo"] ∧
      (({ Team := some [] } : CryptoAsset).Normalize unicode.asciiTables Sample.now).asset.Team
        = some [] :=
  ⟨(Normalize_team unicode.asciiTables Sample.now Sample.bitcoin).1 (by simp [Sample.bitcoin]),
    (Normalize_team unicode.asciiTables Sample.now { Team := some [] }).2.2.2.2.1.mpr rfl⟩

end models

/-! ### Trimming and case mapping -/

namespace strings

theorem dropWhile_rdropWhile_dropWhile {α : Type} (p : α → Bool) (l : List α) :
    ((l.dropWhile p).rdropWhile p).dropWhile p = (l.dropWhile p).rdropWhile p := by
  rw [List.dropWhile_eq_self_iff]
  intro hl
  have hpre : (l.dropWhile p).rdropWhile p <+: l.dropWhile p := List.rdropWhile_prefix p _
  have hlen : 0 < (l.dropWhile p).length := lt_of_lt_of_le hl hpre.length_le
  have hget : ((l.dropWhile p).rdropWhile p).get ⟨0, hl⟩ = (l.dropWhile p).get ⟨0, hlen⟩ := by
    simp only [List.get_eq_getElem]
    exact hpre.getElem hl
  rw [hget]
  exact List.dropWhile_get_zero_not p l hlen

/-- Trimming is idempotent. -/
theorem TrimSpace_TrimSpace (s : String) : TrimSpace (TrimSpace s) = TrimSpace s := by
  unfold TrimSpace
  simp only [dropWhile_rdropWhile_dropWhile, List.rdropWhile_idempotent]

theorem trim_map {α : Type} (p : α → Bool) (f : α → α) (hf : ∀ a, p (f a) = p a)
    (l : List α) :
    ((l.map f).dropWhile p).rdropWhile p = ((l.dropWhile p).rdropWhile p).map f := by
  have hpf : p ∘ f = p := funext hf
  simp only [List.rdropWhile, List.dropWhile_map, hpf, ← List.map_reverse]

/-- Trimming commutes with lower-casing when lower-casing keeps white space. -/
theorem TrimSpace_ToLower (T : unicode.Tables) (hT : unicode.LowerKeepsSpace T) (s : String) :
    TrimSpace (ToLower T s) = ToLower T (TrimSpace s) := by
  unfold TrimSpace ToLower
  simp only [trim_map unicode.IsSpace (unicode.ToLower T) hT]

/-- Lower-casing a string is idempotent when lower-casing a rune is. -/
theorem ToLower_ToLower (T : unicode.Tables) (hT : unicode.LowerIdempotent T) (s : String) :
    ToLower T (ToLower T s) = ToLower T s := by
  unfold ToLower
  simp only [List.map_map]
  congr 1
  exact List.map_congr_left fun r _ => hT r

end strings

namespace util

/-- `util.Normalize` is idempotent. -/
theorem Normalize_Normalize (T : unicode.Tables) (h1 : unicode.LowerIdempotent T)
    (h2 : unicode.LowerKeepsSpace T) (s : String) :
    Normalize T (Normalize T s) = Normalize T s := by
  unfold Normalize
  rw [strings.TrimSpace_ToLower T h2, strings.TrimSpace_TrimSpace, strings.ToLower_ToLower T h1]

end util

/-! ### Normalize is idempotent -/

namespace models

theorem Normalize_of_no_date (T : unicode.Tables) (now : time.Time) (asset : CryptoAsset)
    (id : Int) (h : parseID asset = Except.ok id)
    (hico : isNegative asset.ICOAmount = false) (hbr : isNegative asset.BlockReward = false)
    (hfd : asset.FoundedDate = none) :
    asset.Normalize T now = normalizeRest T id (beforeDate T asset) := by
  rw [Normalize_of_amounts_ok T now asset id h hico hbr]
  simp [hfd, beforeDate]

theorem Normalize_of_bad_date (T : unicode.Tables) (now : time.Time) (asset : CryptoAsset)
    (id : Int) (raw : String) (h : parseID asset = Except.ok id)
    (hico : isNegative asset.ICOAmount = false) (hbr : isNegative asset.BlockReward = false)
    (hfd : asset.FoundedDate = some raw)
    (hbad : time.Parse (strings.TrimSpace raw) = none ∨
      ∃ date, time.Parse (strings.TrimSpace raw) = some date ∧ date.After now = true) :
    asset.Normalize T now =
      { id := -1, err := some "date must be an ISO-8601 date in the past",
        asset := beforeDate T asset } := by
  rw [Normalize_of_amounts_ok T now asset id h hico hbr]
  rcases hbad with hp | ⟨date, hp, ha⟩
  · simp [hfd, hp, beforeDate]
  · simp [hfd, hp, ha, beforeDate]

theorem Normalize_of_good_date (T : unicode.Tables) (now : time.Time) (asset : CryptoAsset)
    (id : Int) (raw : String) (date : time.Time) (h : parseID asset = Except.ok id)
    (hico : isNegative asset.ICOAmount = false) (hbr : isNegative asset.BlockReward = false)
    (hfd : asset.FoundedDate = some raw)
    (hp : time.Parse (strings.TrimSpace raw) = some date) (ha : date.After now = false) :
    asset.Normalize T now =
      normalizeRest T id
        { beforeDate T asset with FoundedDate := some (strings.TrimSpace raw) } := by
  rw [Normalize_of_amounts_ok T now asset id h hico hbr]
  simp [hfd, hp, ha, beforeDate]

theorem parseID_congr (a b : CryptoAsset) (h : a.ID = b.ID) : parseID a = parseID b := by
  unfold parseID
  rw [h]

/-- C6: Normalize is idempotent.  For every record and a fixed current time, a second
application to the record left by the first returns the same identifier, the same error
outcome and leaves the same record, whether the first application succeeded or failed. -/
theorem Normalize_idempotent (T : unicode.Tables) (hidem : unicode.LowerIdempotent T)
    (hspace : unicode.LowerKeepsSpace T) (now : time.Time) (asset : CryptoAsset) :
    (asset.Normalize T now).asset.Normalize T now = asset.Normalize T now := by
  have hN : ∀ o : Option String,
      (o.map (util.Normalize T)).map (util.Normalize T) = o.map (util.Normalize T) := by
    intro o
    cases o <;> simp [util.Normalize_Normalize T hidem hspace]
  have hS : ∀ o : Option String,
      (o.map strings.TrimSpace).map strings.TrimSpace = o.map strings.TrimSpace := by
    intro o
    cases o <;> simp [strings.TrimSpace_TrimSpace]
  have hL : ∀ o : Option (List String),
      (o.map (List.map strings.TrimSpace)).map (List.map strings.TrimSpace)
        = o.map (List.map strings.TrimSpace) := by
    intro o
    cases o <;> simp [strings.TrimSpace_TrimSpace]
  have hB : beforeAmounts T (beforeAmounts T asset) = beforeAmounts T asset := by
    simp [beforeAmounts, hN, hS, hL]
  have hD : beforeAmounts T (beforeDate T asset) = beforeDate T asset := by
    simp [beforeDate, beforeAmounts, hN, hS, hL]
  have hDD : beforeDate T (beforeDate T asset) = beforeDate T asset := by
    simp [beforeDate, beforeAmounts, hN, hS, hL]
  cases hid : parseID asset with
  | error e =>
    rw [Normalize_of_id_error T now asset e hid]
    exact Normalize_of_id_error T now asset e hid
  | ok id =>
    cases hico : isNegative asset.ICOAmount with
    | true =>
      rw [Normalize_of_ico_negative T now asset id hid hico]
      rw [Normalize_of_ico_negative T now (beforeAmounts T asset) id
        ((parseID_congr _ _ rfl).trans hid) hico, hB]
    | false =>
      cases hbr : isNegative asset.BlockReward with
      | true =>
        rw [Normalize_of_reward_negative T now asset id hid hico hbr]
        rw [Normalize_of_reward_negative T now (beforeAmounts T asset) id
          ((parseID_congr _ _ rfl).trans hid) hico hbr, hB]
      | false =>
        cases hfd : asset.FoundedDate with
        | none =>
          rw [Normalize_of_no_date T now asset id hid hico hbr hfd]
          refine (Normalize_of_no_date T now (normalizeRest T id (beforeDate T asset)).asset id
            ((parseID_congr _ _ rfl).trans hid) hico hbr hfd).trans ?_
          simp [normalizeRest, beforeDate, beforeAmounts, hN, hS, hL]
        | some raw =>
          cases hp : time.Parse (strings.TrimSpace raw) with
          | none =>
            rw [Normalize_of_bad_date T now asset id raw hid hico hbr hfd (Or.inl hp)]
            rw [Normalize_of_bad_date T now (beforeDate T asset) id raw
              ((parseID_congr _ _ rfl).trans hid) hico hbr hfd (Or.inl hp), hDD]
          | some date =>
            cases ha : date.After now with
            | true =>
              rw [Normalize_of_bad_date T now asset id raw hid hico hbr hfd
                (Or.inr ⟨date, hp, ha⟩)]
              rw [Normalize_of_bad_date T now (beforeDate T asset) id raw
                ((parseID_congr _ _ rfl).trans hid) hico hbr hfd (Or.inr ⟨date, hp, ha⟩), hDD]
            | false =>
              rw [Normalize_of_good_date T now asset id raw date hid hico hbr hfd hp ha]
              refine (Normalize_of_good_date T now
                (normalizeRest T id
                  { beforeDate T asset with FoundedDate := some (strings.TrimSpace raw) }).asset
                id (strings.TrimSpace raw) date
                ((parseID_congr _ _ rfl).trans hid) hico hbr rfl
                (by rw [strings.TrimSpace_TrimSpace]; exact hp) ha).trans ?_
              simp [normalizeRest, beforeDate, beforeAmounts, hN, hS, hL,
                strings.TrimSpace_TrimSpace]

end models

/-! ### The ASCII tables satisfy the table properties -/

namespace unicode

theorem toNat_ofNat_small (n : Nat) (h : n < 0xD800) : (Char.ofNat n).toNat = n := by
  have hv : n.isValidChar := Or.inl h
  unfold Char.ofNat
  rw [dif_pos hv]
  simp [Char.ofNatAux, Char.toNat, UInt32.toNat]

theorem ToLower_asciiTables (r : Char) :
    ToLower asciiTables r =
      if 65 ≤ r.toNat ∧ r.toNat ≤ 90 then Char.ofNat (r.toNat + 32) else r := by
  have hA : 'A'.toNat = 65 := rfl
  have hZ : 'Z'.toNat = 90 := rfl
  have ha : 'a'.toNat = 97 := rfl
  unfold ToLower asciiTables MaxASCII
  simp only [hA, hZ, ha]
  by_cases h1 : r.toNat ≤ 0x7F
  · simp [h1]
  · have h2 : ¬(65 ≤ r.toNat ∧ r.toNat ≤ 90) := by omega
    simp [h1, h2]

theorem asciiTables_lowerIdempotent : LowerIdempotent asciiTables := by
  intro r
  rw [ToLower_asciiTables r]
  by_cases h : 65 ≤ r.toNat ∧ r.toNat ≤ 90
  · have hn : (Char.ofNat (r.toNat + 32)).toNat = r.toNat + 32 :=
      toNat_ofNat_small _ (by omega)
    rw [if_pos h, ToLower_asciiTables, hn, if_neg (by omega)]
  · rw [if_neg h, ToLower_asciiTables, if_neg h]

theorem asciiTables_lowerKeepsSpace : LowerKeepsSpace asciiTables := by
  intro r
  rw [ToLower_asciiTables r]
  by_cases h : 65 ≤ r.toNat ∧ r.toNat ≤ 90
  · have hn : (Char.ofNat (r.toNat + 32)).toNat = r.toNat + 32 :=
      toNat_ofNat_small _ (by omega)
    rw [if_pos h]
    unfold IsSpace MaxLatin1
    simp only [hn]
    have h1 : r.toNat + 32 ≤ 0xFF := by omega
    have h2 : r.toNat ≤ 0xFF := by omega
    simp only [h1, h2, if_true]
    have e1 : ∀ k : Nat, k < 65 ∨ 122 < k → decide (r.toNat + 32 = k) = false := by
      intro k hk
      simp only [decide_eq_false_iff_not]
      omega
    have e2 : ∀ k : Nat, k < 65 ∨ 90 < k → decide (r.toNat = k) = false := by
      intro k hk
      simp only [decide_eq_false_iff_not]
      omega
    simp [e1, e2]
  · rw [if_neg h]

end unicode

namespace models

/-- Witness of C6 on the record of `testSuccess` and the ASCII tables. -/
theorem Normalize_idempotent_witness :
    (Sample.bitcoin.Normalize unicode.asciiTables Sample.now).asset.Normalize
        unicode.asciiTables Sample.now
      = Sample.bitcoin.Normalize unicode.asciiTables Sample.now :=
  Normalize_idempotent unicode.asciiTables unicode.asciiTables_lowerIdempotent
    unicode.asciiTables_lowerKeepsSpace Sample.now Sample.bitcoin

end models

/-! ### Format: field values and the capitalized form -/

namespace models

/-- C7: Format does not replace every present name and coinType by its capitalized form.  On
the stored record with the two-word name `bitcoin cash` it gives the name `Bitcoin Cash`,
where the capitalized form, the lower-cased text with its first letter in upper case, is
`Bitcoin cash`; a coinType of several words fares alike.  On the one-word values of the
claim (`bitcoin`, `currency`) Format gives the capitalized form, `btc` becomes `BTC` and
`no-ico` becomes `NO-ICO`.  On every record a present symbol and a present fundingStatus
become their trimmed upper-cased form, id, description, team, icoAmount, blockReward,
foundedDate and website are unchanged, and absent fields stay absent. -/
theorem Format_capitalized_form (T : unicode.Tables) :
    ((Sample.stored.Format T).Name = some "Bitcoin Cash" ∧
        Sample.stored.Name.map (fun s => Spec.capitalizeFirst T (strings.TrimSpace s))
          = some "Bitcoin cash" ∧
        (Sample.stored.Format T).Name
          ≠ Sample.stored.Name.map (fun s => Spec.capitalizeFirst T (strings.TrimSpace s))) ∧
      ((({ CoinType := some "smart contract platform" } : CryptoAsset).Format T).CoinType
          = some "Smart Contract Platform" ∧
        Spec.capitalizeFirst T (strings.TrimSpace "smart contract platform")
          = "Smart contract platform") ∧
      (CryptoAsset.Format T
          { Name := some "bitcoin", Symbol := some "btc", FundingStatus := some "no-ico",
            CoinType := some "currency" }
          = { Name := some "Bitcoin", Symbol := some "BTC", FundingStatus := some "NO-ICO",
              CoinType := some "Currency" } ∧
        Spec.capitalizeFirst T (strings.TrimSpace "bitcoin") = "Bitcoin" ∧
        Spec.capitalizeFirst T (strings.TrimSpace "currency") = "Currency") ∧
      ∀ asset : CryptoAsset,
        (asset.Format T).Symbol
            = asset.Symbol.map (fun s => strings.ToUpper T (strings.TrimSpace s)) ∧
          (asset.Format T).FundingStatus
            = asset.FundingStatus.map (fun s => strings.ToUpper T (strings.TrimSpace s)) ∧
          ((asset.Format T).Name = none ↔ asset.Name = none) ∧
          ((asset.Format T).CoinType = none ↔ asset.CoinType = none) ∧
          (asset.Format T).ID = asset.ID ∧
          (asset.Format T).Description = asset.Description ∧
          (asset.Format T).Team = asset.Team ∧
          (asset.Format T).ICOAmount = asset.ICOAmount ∧
          (asset.Format T).BlockReward = asset.BlockReward ∧
          (asset.Format T).FoundedDate = asset.FoundedDate ∧
          (asset.Format T).Website = asset.Website := by
  have h1 : (Sample.stored.Format T).Name = some "Bitcoin Cash" := rfl
  have h2 : Sample.stored.Name.map (fun s => Spec.capitalizeFirst T (strings.TrimSpace s))
      = some "Bitcoin cash" := rfl
  refine ⟨⟨h1, h2, ?_⟩, ⟨rfl, rfl⟩, ⟨rfl, rfl, rfl⟩, fun asset => ?_⟩
  · rw [h1, h2]
    decide
  · refine ⟨rfl, rfl, ?_, ?_, rfl, rfl, rfl, rfl, rfl, rfl, rfl⟩
    · cases h : asset.Name <;> simp [CryptoAsset.Format, h]
    · cases h : asset.CoinType <;> simp [CryptoAsset.Format, h]

end models

/-! ### Format on canonical text -/

namespace strings

/-- The number of runes that `dropWhile` keeps depends only on the tests of the runes. -/
theorem length_dropWhile_eq {α : Type} (p : α → Bool) (l m : List α)
    (h : l.map p = m.map p) : (l.dropWhile p).length = (m.dropWhile p).length := by
  induction l generalizing m with
  | nil =>
    cases m with
    | nil => rfl
    | cons b m => simp at h
  | cons a l ih =>
    cases m with
    | nil => simp at h
    | cons b m =>
      simp only [List.map_cons, List.cons.injEq] at h
      simp only [List.dropWhile_cons, h.1]
      cases hb : p b with
      | true => simpa using ih m h.2
      | false =>
        have hlen : l.length = m.length := by simpa using congrArg List.length h.2
        simp [hlen]

theorem dropWhile_eq_self_of_length {α : Type} (p : α → Bool) (l : List α)
    (h : (l.dropWhile p).length = l.length) : l.dropWhile p = l :=
  (List.dropWhile_suffix p).eq_of_length h

/-- A list that trimming leaves alone is left alone by each of the two trimming steps. -/
theorem trimmed_parts {α : Type} (p : α → Bool) (l : List α)
    (h : (l.dropWhile p).rdropWhile p = l) :
    l.dropWhile p = l ∧ l.reverse.dropWhile p = l.reverse := by
  have h1 : ((l.dropWhile p).rdropWhile p).length ≤ (l.dropWhile p).length :=
    (List.rdropWhile_prefix p _).length_le
  have h2 : (l.dropWhile p).length ≤ l.length := (List.dropWhile_suffix p).length_le
  rw [h] at h1
  have hd : l.dropWhile p = l := dropWhile_eq_self_of_length p l (le_antisymm h2 h1)
  refine ⟨hd, ?_⟩
  rw [hd] at h
  unfold List.rdropWhile at h
  rw [List.reverse_eq_iff] at h
  exact h

/-- Being left alone by trimming depends only on the tests of the runes. -/
theorem trimmed_of_map_eq {α : Type} (p : α → Bool) (l m : List α) (h : l.map p = m.map p)
    (hm : (m.dropWhile p).rdropWhile p = m) : (l.dropWhile p).rdropWhile p = l := by
  obtain ⟨hm1, hm2⟩ := trimmed_parts p m hm
  have hlen : l.length = m.length := by simpa using congrArg List.length h
  have hl1 : l.dropWhile p = l := by
    apply dropWhile_eq_self_of_length
    rw [length_dropWhile_eq p l m h, hm1, hlen]
  have hrev : l.reverse.map p = m.reverse.map p := by
    rw [List.map_reverse, List.map_reverse, h]
  have hl2 : l.reverse.dropWhile p = l.reverse := by
    apply dropWhile_eq_self_of_length
    rw [length_dropWhile_eq p l.reverse m.reverse hrev, hm2]
    simp [hlen]
  rw [hl1]
  unfold List.rdropWhile
  rw [hl2, List.reverse_reverse]

theorem titleRunes_map_IsSpace (T : unicode.Tables) (hT : unicode.TitleKeepsSpace T)
    (prev : Char) (l : List Char) :
    (titleRunes T prev l).map unicode.IsSpace = l.map unicode.IsSpace := by
  induction l generalizing prev with
  | nil => rfl
  | cons r rs ih =>
    simp only [titleRunes, List.map_cons, ih]
    split <;> simp [hT r]

/-- Title-casing a trimmed string gives a trimmed string. -/
theorem TrimSpace_Title (T : unicode.Tables) (hT : unicode.TitleKeepsSpace T) (s : String)
    (hs : TrimSpace s = s) : TrimSpace (Title T s) = Title T s := by
  unfold TrimSpace Title
  have hs1 : (s.data.dropWhile unicode.IsSpace).rdropWhile unicode.IsSpace = s.data := by
    have := congrArg String.data hs
    simpa [TrimSpace] using this
  simp only [trimmed_of_map_eq unicode.IsSpace _ _ (titleRunes_map_IsSpace T hT ' ' s.data) hs1]

theorem titleRunes_lower_titleRunes (T : unicode.Tables) (h1 : unicode.TitleRoundTrip T)
    (h2 : unicode.TitleKeepsSeparator T) (l : List Char)
    (hl : ∀ r ∈ l, unicode.ToLower T r = r) (prev prev2 : Char)
    (hprev : isSeparator T prev2 = isSeparator T prev) :
    titleRunes T prev2 ((titleRunes T prev l).map (unicode.ToLower T)) = titleRunes T prev l := by
  induction l generalizing prev prev2 with
  | nil => rfl
  | cons r rs ih =>
    have hr : unicode.ToLower T r = r := hl r (List.mem_cons_self r rs)
    have hrs : ∀ c ∈ rs, unicode.ToLower T c = c := fun c hc => hl c (List.mem_cons_of_mem r hc)
    simp only [titleRunes, List.map_cons, hprev]
    cases hsep : isSeparator T prev with
    | true =>
      simp only [if_true]
      rw [h1 r hr, ih hrs r _ (h2 r hr)]
    | false =>
      simp only [Bool.false_eq_true, if_false]
      rw [hr, ih hrs r r rfl]

theorem forall_fixed_of_map_eq {α : Type} (f : α → α) (l : List α) (h : l.map f = l) :
    ∀ a ∈ l, f a = a := by
  induction l with
  | nil => simp
  | cons a l ih =>
    simp only [List.map_cons, List.cons.injEq] at h
    intro b hb
    rcases List.mem_cons.mp hb with rfl | hb
    · exact h.1
    · exact ih h.2 b hb

/-- On canonical text, `capitalize` of the trimmed value is a fixed point of itself. -/
theorem Title_ToLower_Title (T : unicode.Tables) (h1 : unicode.TitleRoundTrip T)
    (h2 : unicode.TitleKeepsSeparator T) (s : String) (hs : ToLower T s = s) :
    Title T (ToLower T (Title T s)) = Title T s := by
  have hfix : ∀ r ∈ s.data, unicode.ToLower T r = r := by
    apply forall_fixed_of_map_eq
    have := congrArg String.data hs
    simpa [ToLower] using this
  unfold Title ToLower
  simp only [titleRunes_lower_titleRunes T h1 h2 s.data hfix ' ' ' ' rfl]

/-- Trimming commutes with upper-casing when upper-casing keeps white space. -/
theorem TrimSpace_ToUpper (T : unicode.Tables) (hT : unicode.UpperKeepsSpace T) (s : String) :
    TrimSpace (ToUpper T s) = ToUpper T (TrimSpace s) := by
  unfold TrimSpace ToUpper
  simp only [trim_map unicode.IsSpace (unicode.ToUpper T) hT]

/-- Upper-casing a string is idempotent when upper-casing a rune is. -/
theorem ToUpper_ToUpper (T : unicode.Tables) (hT : unicode.UpperIdempotent T) (s : String) :
    ToUpper T (ToUpper T s) = ToUpper T s := by
  unfold ToUpper
  simp only [List.map_map]
  congr 1
  exact List.map_congr_left fun r _ => hT r

end strings

/-! ### Format is idempotent on canonical records -/

namespace models

/-- The name and coinType step of Format is idempotent on canonical text. -/
theorem capitalize_idempotent (T : unicode.Tables) (h1 : unicode.TitleKeepsSpace T)
    (h2 : unicode.TitleRoundTrip T) (h3 : unicode.TitleKeepsSeparator T) (s : String)
    (hs : Spec.IsCanonicalText T s) :
    capitalize T (strings.TrimSpace (capitalize T (strings.TrimSpace s)))
      = capitalize T (strings.TrimSpace s) := by
  obtain ⟨htrim, hlower⟩ := hs
  unfold capitalize
  rw [htrim, hlower, strings.TrimSpace_Title T h1 s htrim,
    strings.Title_ToLower_Title T h2 h3 s hlower]

/-- The symbol and fundingStatus step of Format is idempotent. -/
theorem upper_idempotent (T : unicode.Tables) (h1 : unicode.UpperIdempotent T)
    (h2 : unicode.UpperKeepsSpace T) (s : String) :
    strings.ToUpper T (strings.TrimSpace (strings.ToUpper T (strings.TrimSpace s)))
      = strings.ToUpper T (strings.TrimSpace s) := by
  rw [strings.TrimSpace_ToUpper T h2, strings.TrimSpace_TrimSpace, strings.ToUpper_ToUpper T h1]

/-- C8: Format is idempotent on canonical records: for every record in canonical (trimmed,
lower-case) storage form, applying Format twice gives the same record as applying it once. -/
theorem Format_idempotent (T : unicode.Tables) (hU1 : unicode.UpperIdempotent T)
    (hU2 : unicode.UpperKeepsSpace T) (hT1 : unicode.TitleKeepsSpace T)
    (hT2 : unicode.TitleRoundTrip T) (hT3 : unicode.TitleKeepsSeparator T)
    (asset : CryptoAsset) (hc : Spec.IsCanonical T asset) :
    (asset.Format T).Format T = asset.Format T := by
  obtain ⟨hname, -, -, hcoin, -⟩ := hc
  have hcap : ∀ o : Option String, (∀ s ∈ o, Spec.IsCanonicalText T s) →
      (o.map fun s => capitalize T (strings.TrimSpace s)).map
          (fun s => capitalize T (strings.TrimSpace s))
        = o.map fun s => capitalize T (strings.TrimSpace s) := by
    intro o ho
    cases o with
    | none => rfl
    | some s => simp [capitalize_idempotent T hT1 hT2 hT3 s (ho s rfl)]
  have hup : ∀ o : Option String,
      (o.map fun s => strings.ToUpper T (strings.TrimSpace s)).map
          (fun s => strings.ToUpper T (strings.TrimSpace s))
        = o.map fun s => strings.ToUpper T (strings.TrimSpace s) := by
    intro o
    cases o with
    | none => rfl
    | some s => simp [upper_idempotent T hU1 hU2 s]
  simp only [CryptoAsset.Format, hcap asset.Name hname, hcap asset.CoinType hcoin, hup]

end models

namespace unicode

theorem ToUpper_asciiTables (r : Char) :
    ToUpper asciiTables r =
      if 97 ≤ r.toNat ∧ r.toNat ≤ 122 then Char.ofNat (r.toNat - 32) else r := by
  have hA : 'A'.toNat = 65 := rfl
  have ha : 'a'.toNat = 97 := rfl
  have hz : 'z'.toNat = 122 := rfl
  unfold ToUpper asciiTables MaxASCII
  simp only [hA, ha, hz]
  by_cases h1 : r.toNat ≤ 0x7F
  · simp [h1]
  · have h2 : ¬(97 ≤ r.toNat ∧ r.toNat ≤ 122) := by omega
    simp [h1, h2]

theorem ToTitle_asciiTables (r : Char) : ToTitle asciiTables r = ToUpper asciiTables r := rfl

theorem asciiTables_upperIdempotent : UpperIdempotent asciiTables := by
  intro r
  rw [ToUpper_asciiTables r]
  by_cases h : 97 ≤ r.toNat ∧ r.toNat ≤ 122
  · have hn : (Char.ofNat (r.toNat - 32)).toNat = r.toNat - 32 :=
      toNat_ofNat_small _ (by omega)
    rw [if_pos h, ToUpper_asciiTables, hn, if_neg (by omega)]
  · rw [if_neg h, ToUpper_asciiTables, if_neg h]

theorem asciiTables_upperKeepsSpace : UpperKeepsSpace asciiTables := by
  intro r
  rw [ToUpper_asciiTables r]
  by_cases h : 97 ≤ r.toNat ∧ r.toNat ≤ 122
  · have hn : (Char.ofNat (r.toNat - 32)).toNat = r.toNat - 32 :=
      toNat_ofNat_small _ (by omega)
    rw [if_pos h]
    unfold IsSpace MaxLatin1
    simp only [hn]
    have h1 : r.toNat - 32 ≤ 0xFF := by omega
    have h2 : r.toNat ≤ 0xFF := by omega
    simp only [h1, h2, if_true]
    have e1 : ∀ k : Nat, k < 65 ∨ 90 < k → decide (r.toNat - 32 = k) = false := by
      intro k hk
      simp only [decide_eq_false_iff_not]
      omega
    have e2 : ∀ k : Nat, k < 97 ∨ 122 < k → decide (r.toNat = k) = false := by
      intro k hk
      simp only [decide_eq_false_iff_not]
      omega
    simp [e1, e2]
  · rw [if_neg h]

theorem asciiTables_titleKeepsSpace : TitleKeepsSpace asciiTables :=
  asciiTables_upperKeepsSpace

theorem ToLower_ToUpper_asciiTables (r : Char) (hr : ToLower asciiTables r = r) :
    ToLower asciiTables (ToUpper asciiTables r) = r := by
  rw [ToUpper_asciiTables r]
  by_cases h : 97 ≤ r.toNat ∧ r.toNat ≤ 122
  · have hn : (Char.ofNat (r.toNat - 32)).toNat = r.toNat - 32 :=
      toNat_ofNat_small _ (by omega)
    rw [if_pos h, ToLower_asciiTables, hn, if_pos (by omega)]
    have : r.toNat - 32 + 32 = r.toNat := by omega
    rw [this, Char.ofNat_toNat]
  · rw [if_neg h, hr]

theorem asciiTables_titleRoundTrip : TitleRoundTrip asciiTables := by
  intro r hr
  rw [ToTitle_asciiTables, ToTitle_asciiTables, ToLower_ToUpper_asciiTables r hr]

theorem asciiTables_titleKeepsSeparator : TitleKeepsSeparator asciiTables := by
  intro r hr
  rw [ToTitle_asciiTables, ToLower_ToUpper_asciiTables r hr]

end unicode

namespace models

theorem stored_isCanonical : Spec.IsCanonical unicode.asciiTables Sample.stored := by
  simp only [Spec.IsCanonical, Spec.IsCanonicalText, Sample.stored, Option.mem_def,
    Option.some.injEq, forall_eq']
  decide

/-- Witness of C8 on a stored record with a two-word name and the ASCII tables. -/
theorem Format_idempotent_witness :
    (Sample.stored.Format unicode.asciiTables).Format unicode.asciiTables
        = Sample.stored.Format unicode.asciiTables ∧
      (Sample.stored.Format unicode.asciiTables).Name = some "Bitcoin Cash" :=
  ⟨Format_idempotent unicode.asciiTables unicode.asciiTables_upperIdempotent
      unicode.asciiTables_upperKeepsSpace unicode.asciiTables_titleKeepsSpace
      unicode.asciiTables_titleRoundTrip unicode.asciiTables_titleKeepsSeparator
      Sample.stored stored_isCanonical,
    by decide⟩

end models

/-! ### The select statement builder -/

namespace database

theorem intercalate_go_concat (sep a : String) (l : List String) (acc : String) :
    String.intercalate.go acc sep (l ++ [a]) = String.intercalate.go acc sep l ++ sep ++ a := by
  induction l generalizing acc with
  | nil => simp [String.intercalate.go]
  | cons b l ih => simp [String.intercalate.go, ih]

theorem intercalate_replicate_succ (sep c : String) (n : Nat) :
    sep.intercalate (List.replicate (n + 1) c)
      = if n = 0 then c else sep.intercalate (List.replicate n c) ++ sep ++ c := by
  cases n with
  | zero => simp [String.intercalate, String.intercalate.go]
  | succ k =>
    rw [List.replicate_succ' (k + 1) c]
    simp only [List.replicate_succ, List.cons_append, String.intercalate, Nat.succ_ne_zero,
      if_false]
    exact intercalate_go_concat sep c (List.replicate k c) c

/-- The loop of `createConditionalClause` writes the conditions joined by ` OR `. -/
theorem conditions_loop (condition buf : String) (n : Nat) :
    (List.range n).foldl (fun b i => (if i ≠ 0 then b ++ " OR " else b) ++ condition) buf
      = buf ++ " OR ".intercalate (List.replicate n condition) := by
  induction n with
  | zero => simp [String.intercalate]
  | succ n ih =>
    rw [List.range_succ, List.foldl_append, ih, intercalate_replicate_succ]
    by_cases hn : n = 0
    · subst hn
      simp [String.intercalate]
    · simp [hn, String.append_assoc]

theorem renderFrom_concat (c : String) (done : List String) (isFirst : Bool) :
    renderFrom isFirst (done ++ [c])
      = renderFrom isFirst done
        ++ ((if done.isEmpty && isFirst then " WHERE" else " AND") ++ c) := by
  induction done generalizing isFirst with
  | nil => cases isFirst <;> simp [renderFrom]
  | cons d done ih => simp [renderFrom, ih, String.append_assoc]

theorem join_cons (a : String) (l : List String) :
    String.join (a :: l) = a ++ String.join l := by
  have h : ∀ (m : List String) (acc : String),
      m.foldl (fun r s => r ++ s) acc = acc ++ m.foldl (fun r s => r ++ s) "" := by
    intro m
    induction m with
    | nil => simp
    | cons b m ih =>
      intro acc
      simp only [List.foldl_cons, String.empty_append]
      rw [ih (acc ++ b), ih b, String.append_assoc]
  simp only [String.join, List.foldl_cons, String.empty_append]
  exact h l a

theorem renderFrom_true_eq (clauses : List String) :
    renderFrom true clauses = Spec.withKeywords clauses := by
  have hfalse : ∀ cs : List String,
      renderFrom false cs = String.join (cs.map fun c => " AND" ++ c) := by
    intro cs
    induction cs with
    | nil => rfl
    | cons c cs ih => simp [renderFrom, ih, join_cons, String.append_assoc]
  cases clauses with
  | nil => rfl
  | cons c cs => simp [renderFrom, Spec.withKeywords, hfalse]

theorem createClauseKeyword_eq (buf : String) (isFirst : Bool) :
    createClauseKeyword buf isFirst
      = (buf ++ (if isFirst then " WHERE" else " AND"), false) := by
  cases isFirst <;> rfl

/-- One call of `createConditionalClause` after the clauses `done` appends the clause of the
value set with its keyword, and reports whether the set was non-empty. -/
theorem createConditionalClause_step (base col : String) (done : List String)
    (values : List String) :
    createConditionalClause (base ++ renderFrom true done) done.isEmpty values.length col
      = (base ++ renderFrom true (done ++ Spec.setClause col values),
          (done ++ Spec.setClause col values).isEmpty, !values.isEmpty) := by
  unfold createConditionalClause Spec.setClause
  cases values with
  | nil => simp
  | cons v vs =>
    simp only [List.length_cons, Nat.succ_pos, if_true, gt_iff_lt, List.isEmpty_cons,
      Bool.false_eq_true, if_false, createClauseKeyword_eq, conditions_loop, renderFrom_concat,
      Bool.and_true, List.map_const', Bool.not_false]
    simp [String.append_assoc]

/-- One call of `createDateClause` after the clauses `done`. -/
theorem createDateClause_step (base comparator date : String) (done : List String) :
    createDateClause (base ++ renderFrom true done) done.isEmpty date comparator
      = (base ++ renderFrom true (done ++ Spec.dateClause comparator date),
          (done ++ Spec.dateClause comparator date).isEmpty, !decide (date = "")) := by
  unfold createDateClause Spec.dateClause
  by_cases hd : date = ""
  · subst hd
    simp
  · have hlen : date.length > 0 := by
      rcases date with ⟨cs⟩
      cases cs with
      | nil => exact absurd rfl hd
      | cons c cs => simp [String.length]
    simp only [hlen, if_true, hd, if_false, createClauseKeyword_eq, renderFrom_concat,
      Bool.and_true, decide_False, Bool.not_false]
    simp [String.append_assoc]

theorem appendStrings_eq (args : List Arg) (values : List String) :
    appendStrings args values = args ++ values.map Arg.str := by
  unfold appendStrings
  induction values generalizing args with
  | nil => simp
  | cons v vs ih => simp [ih]

theorem appendStrings_guarded (args : List Arg) (values : List String) :
    (if (!values.isEmpty) = true then appendStrings args values else args)
      = args ++ values.map Arg.str := by
  cases values with
  | nil => simp
  | cons v vs => simp [appendStrings_eq]

/-- The select statement builder computes the specified SQL text and argument list. -/
theorem createSelectStatement_eq (names symbols fundingStatuses coinTypes : List String)
    (startDate endDate : String) :
    _createSelectStatement names symbols fundingStatuses coinTypes startDate endDate
      = { sql := Spec.selectSQL names symbols fundingStatuses coinTypes startDate endDate,
          args := Spec.selectArgs names symbols fundingStatuses coinTypes startDate endDate } := by
  have s1 := createConditionalClause_step Spec.selectBase "ca.name" [] names
  have s2 := createConditionalClause_step Spec.selectBase "symbol"
    ([] ++ Spec.setClause "ca.name" names) symbols
  have s3 := createConditionalClause_step Spec.selectBase "fundingStatus"
    ([] ++ Spec.setClause "ca.name" names ++ Spec.setClause "symbol" symbols) fundingStatuses
  have s4 := createConditionalClause_step Spec.selectBase "coinType"
    ([] ++ Spec.setClause "ca.name" names ++ Spec.setClause "symbol" symbols
      ++ Spec.setClause "fundingStatus" fundingStatuses) coinTypes
  have s5 := createDateClause_step Spec.selectBase ">=" startDate
    ([] ++ Spec.setClause "ca.name" names ++ Spec.setClause "symbol" symbols
      ++ Spec.setClause "fundingStatus" fundingStatuses
      ++ Spec.setClause "coinType" coinTypes)
  have s6 := createDateClause_step Spec.selectBase "<=" endDate
    ([] ++ Spec.setClause "ca.name" names ++ Spec.setClause "symbol" symbols
      ++ Spec.setClause "fundingStatus" fundingStatuses
      ++ Spec.setClause "coinType" coinTypes ++ Spec.dateClause ">=" startDate)
  have hbase : Spec.selectBase ++ renderFrom true [] = Spec.selectBase := by
    simp [renderFrom]
  rw [hbase] at s1
  simp only [List.isEmpty_nil] at s1
  unfold _createSelectStatement
  have hb : "SELECT * FROM crypto_asset ca LEFT JOIN team_member ON id = cryptoAssetId"
      = Spec.selectBase := rfl
  simp only [hb, s1, s2, s3, s4, s5, s6, appendStrings_guarded]
  simp only [Spec.selectSQL, Spec.selectArgs, Spec.presentClauses, renderFrom_true_eq,
    List.nil_append, statement.mk.injEq, true_and]
  by_cases h1 : startDate = "" <;> by_cases h2 : endDate = "" <;> simp [h1, h2]

/-- C9: for every input of `_createSelectStatement`, the SQL text is the base text followed,
in the fixed order names, symbols, fundingStatuses, coinTypes, startDate, endDate, by one
clause per non-empty set (` (col = ? OR col = ? ...)`, one `col = ?` per value) and one
clause per non-empty date (` foundedDate >= ?`, ` foundedDate <= ?`), the first present
clause preceded by ` WHERE` and every later one by ` AND`, and terminated by `;`; empty sets
and empty dates contribute no clause.  The second part is the search of the specification. -/
theorem createSelectStatement_sql (names symbols fundingStatuses coinTypes : List String)
    (startDate endDate : String) :
    (_createSelectStatement names symbols fundingStatuses coinTypes startDate endDate).sql
        = "SELECT * FROM crypto_asset ca LEFT JOIN team_member ON id = cryptoAssetId"
          ++ Spec.withKeywords
            (Spec.setClause "ca.name" names ++ Spec.setClause "symbol" symbols
              ++ Spec.setClause "fundingStatus" fundingStatuses
              ++ Spec.setClause "coinType" coinTypes
              ++ Spec.dateClause ">=" startDate ++ Spec.dateClause "<=" endDate)
          ++ ";" ∧
      (_createSelectStatement ["Bitcoin", "Ethereum"] ["BTC"] [] [] "2009-01-03"
          "2018-01-18").sql
        = "SELECT * FROM crypto_asset ca LEFT JOIN team_member ON id = cryptoAssetId"
          ++ " WHERE (ca.name = ? OR ca.name = ?) AND (symbol = ?)"
          ++ " AND foundedDate >= ? AND foundedDate <= ?;" := by
  refine ⟨?_, rfl⟩
  rw [createSelectStatement_eq]
  rfl

/-- C10: for every input of `_createSelectStatement`, the argument list is the concatenation
names ++ symbols ++ fundingStatuses ++ coinTypes, each in input order, followed by startDate
if it is non-empty and then endDate if it is non-empty. -/
theorem createSelectStatement_args (names symbols fundingStatuses coinTypes : List String)
    (startDate endDate : String) :
    (_createSelectStatement names symbols fundingStatuses coinTypes startDate endDate).args
        = (names ++ symbols ++ fundingStatuses ++ coinTypes).map Arg.str
          ++ (if startDate = "" then [] else [Arg.str startDate])
          ++ (if endDate = "" then [] else [Arg.str endDate]) ∧
      (_createSelectStatement ["Bitcoin", "Ethereum"] ["BTC"] [] [] "2009-01-03"
          "2018-01-18").args
        = [Arg.str "Bitcoin", Arg.str "Ethereum", Arg.str "BTC", Arg.str "2009-01-03",
            Arg.str "2018-01-18"] := by
  refine ⟨?_, rfl⟩
  rw [createSelectStatement_eq]
  simp only [Spec.selectArgs, List.map_append]
  by_cases h1 : startDate = "" <;> by_cases h2 : endDate = "" <;> simp [h1, h2]

end database

/-! ### The select statement without filters -/

namespace database

theorem presentClauses_eq_nil_iff (names symbols fundingStatuses coinTypes : List String)
    (startDate endDate : String) :
    Spec.presentClauses names symbols fundingStatuses coinTypes startDate endDate = []
      ↔ ¬Spec.anyFilter names symbols fundingStatuses coinTypes startDate endDate := by
  unfold Spec.presentClauses Spec.anyFilter Spec.setClause Spec.dateClause
  cases names <;> cases symbols <;> cases fundingStatuses <;> cases coinTypes <;>
    by_cases h1 : startDate = "" <;> by_cases h2 : endDate = "" <;> simp [h1, h2]

theorem base_not_contains_where :
    ¬Spec.containsText (Spec.selectBase ++ ";") " WHERE" := by
  intro h
  have hW : 'W' ∈ (Spec.selectBase ++ ";").data := h.subset (by decide)
  revert hW
  decide

/-- C11: when all four value sets are empty and both dates are empty strings,
`_createSelectStatement` returns exactly the base text closed by `;` with an empty argument
list; and for every input the SQL contains ` WHERE` exactly when at least one filter is
present. -/
theorem createSelectStatement_where (names symbols fundingStatuses coinTypes : List String)
    (startDate endDate : String) :
    (¬Spec.anyFilter names symbols fundingStatuses coinTypes startDate endDate →
        _createSelectStatement names symbols fundingStatuses coinTypes startDate endDate
          = { sql := "SELECT * FROM crypto_asset ca LEFT JOIN team_member ON id = cryptoAssetId;"
              args := [] }) ∧
      (Spec.containsText
          (_createSelectStatement names symbols fundingStatuses coinTypes startDate endDate).sql
          " WHERE"
        ↔ Spec.anyFilter names symbols fundingStatuses coinTypes startDate endDate) := by
  rw [createSelectStatement_eq]
  have hnone : ¬Spec.anyFilter names symbols fundingStatuses coinTypes startDate endDate →
      Spec.selectSQL names symbols fundingStatuses coinTypes startDate endDate
        = Spec.selectBase ++ ";" := by
    intro h
    unfold Spec.selectSQL
    rw [(presentClauses_eq_nil_iff _ _ _ _ _ _).mpr h]
    rfl
  refine ⟨fun h => ?_, ?_, ?_⟩
  · rw [hnone h]
    unfold Spec.anyFilter at h
    simp only [not_or, not_not] at h
    obtain ⟨h1, h2, h3, h4, h5, h6⟩ := h
    subst h1 h2 h3 h4 h5 h6
    rfl
  · intro hc
    by_contra h
    simp only [hnone h] at hc
    exact base_not_contains_where hc
  · intro h
    have hne : Spec.presentClauses names symbols fundingStatuses coinTypes startDate endDate
        ≠ [] := fun hnil => (presentClauses_eq_nil_iff _ _ _ _ _ _).mp hnil h
    unfold Spec.selectSQL Spec.containsText
    cases hp : Spec.presentClauses names symbols fundingStatuses coinTypes startDate endDate with
    | nil => exact absurd hp hne
    | cons c cs =>
      simp only [Spec.withKeywords, String.data_append]
      exact ⟨Spec.selectBase.data,
        c.data ++ (String.join (cs.map fun d => " AND" ++ d)).data ++ ";".data, by simp⟩

/-- Witness of C11: the call of `testSearchDatabaseError`, without any filter. -/
theorem createSelectStatement_where_witness :
    _createSelectStatement [] [] [] [] "" ""
        = { sql := "SELECT * FROM crypto_asset ca LEFT JOIN team_member ON id = cryptoAssetId;"
            args := [] } ∧
      ¬Spec.containsText (_createSelectStatement [] [] [] [] "" "").sql " WHERE" :=
  ⟨(createSelectStatement_where [] [] [] [] "" "").1 (by simp [Spec.anyFilter]),
    fun h => absurd ((createSelectStatement_where [] [] [] [] "" "").2.mp h)
      (by simp [Spec.anyFilter])⟩

end database

/-! ### The update statement builder -/

namespace database

theorem intercalate_concat (sep a : String) (l : List String) :
    sep.intercalate (l ++ [a]) = if l.isEmpty then a else sep.intercalate l ++ sep ++ a := by
  cases l with
  | nil => simp [String.intercalate, String.intercalate.go]
  | cons b l =>
    simp only [List.cons_append, String.intercalate, List.isEmpty_cons, Bool.false_eq_true,
      if_false]
    exact intercalate_go_concat sep a l b

/-- One call of `createSetClause` after the columns `done` have been written. -/
theorem createSetClause_step {α : Type} (base col : String) (done : List String)
    (p : Option α) :
    createSetClause (base ++ ", ".intercalate (done.map fun c => c ++ " = ?")) (!done.isEmpty)
        p.isNone col
      = (base ++ ", ".intercalate
            ((done ++ (p.map fun _ => col).toList).map fun c => c ++ " = ?"),
          !(done ++ (p.map fun _ => col).toList).isEmpty, !p.isNone) := by
  unfold createSetClause
  cases p with
  | none => simp
  | some v =>
    simp only [Option.isNone_some, Bool.not_false, if_true, Option.map_some', Option.toList_some,
      List.map_append, List.map_cons, List.map_nil, intercalate_concat, List.isEmpty_eq_true,
      List.map_eq_nil_iff, List.append_eq_nil, List.cons_ne_self, and_false, decide_False]
    cases done with
    | nil => simp [String.intercalate]
    | cons d ds => simp [String.append_assoc]

theorem appendDeref_eq {α : Type} (args : List Arg) (p : Option α) (toArg : α → Arg) :
    appendDeref args (!p.isNone) p toArg = args ++ (p.map toArg).toList := by
  unfold appendDeref
  cases p <;> simp

theorem toList_map_fst {α : Type} (p : Option α) (col : String) (toArg : α → Arg) :
    (p.map fun v => (col, toArg v)).toList.map (fun f => f.1) = (p.map fun _ => col).toList := by
  cases p <;> rfl

theorem toList_map_snd {α : Type} (p : Option α) (col : String) (toArg : α → Arg) :
    (p.map fun v => (col, toArg v)).toList.map (fun f => f.2) = (p.map toArg).toList := by
  cases p <;> rfl

/-- The update statement builder computes the specified statement, or none when no scalar
field is present. -/
theorem createUpdateStatement_eq (id : Int) (asset : models.CryptoAsset) :
    _createUpdateStatement id asset =
      if (Spec.presentFields asset).isEmpty then none
      else some { sql := Spec.updateSQL asset, args := Spec.updateArgs id asset } := by
  have s1 := createSetClause_step "UPDATE crypto_asset SET " "name" [] asset.Name
  have s2 := createSetClause_step "UPDATE crypto_asset SET " "symbol"
    ([] ++ (asset.Name.map fun _ => "name").toList) asset.Symbol
  have s3 := createSetClause_step "UPDATE crypto_asset SET " "description"
    ([] ++ (asset.Name.map fun _ => "name").toList
      ++ (asset.Symbol.map fun _ => "symbol").toList) asset.Description
  have s4 := createSetClause_step "UPDATE crypto_asset SET " "icoAmount"
    ([] ++ (asset.Name.map fun _ => "name").toList
      ++ (asset.Symbol.map fun _ => "symbol").toList
      ++ (asset.Description.map fun _ => "description").toList) asset.ICOAmount
  have s5 := createSetClause_step "UPDATE crypto_asset SET " "blockReward"
    ([] ++ (asset.Name.map fun _ => "name").toList
      ++ (asset.Symbol.map fun _ => "symbol").toList
      ++ (asset.Description.map fun _ => "description").toList
      ++ (asset.ICOAmount.map fun _ => "icoAmount").toList) asset.BlockReward
  have s6 := createSetClause_step "UPDATE crypto_asset SET " "fundingStatus"
    ([] ++ (asset.Name.map fun _ => "name").toList
      ++ (asset.Symbol.map fun _ => "symbol").toList
      ++ (asset.Description.map fun _ => "description").toList
      ++ (asset.ICOAmount.map fun _ => "icoAmount").toList
      ++ (asset.BlockReward.map fun _ => "blockReward").toList) asset.FundingStatus
  have s7 := createSetClause_step "UPDATE crypto_asset SET " "foundedDate"
    ([] ++ (asset.Name.map fun _ => "name").toList
      ++ (asset.Symbol.map fun _ => "symbol").toList
      ++ (asset.Description.map fun _ => "description").toList
      ++ (asset.ICOAmount.map fun _ => "icoAmount").toList
      ++ (asset.BlockReward.map fun _ => "blockReward").toList
      ++ (asset.FundingStatus.map fun _ => "fundingStatus").toList) asset.FoundedDate
  have s8 := createSetClause_step "UPDATE crypto_asset SET " "coinType"
    ([] ++ (asset.Name.map fun _ => "name").toList
      ++ (asset.Symbol.map fun _ => "symbol").toList
      ++ (asset.Description.map fun _ => "description").toList
      ++ (asset.ICOAmount.map fun _ => "icoAmount").toList
      ++ (asset.BlockReward.map fun _ => "blockReward").toList
      ++ (asset.FundingStatus.map fun _ => "fundingStatus").toList
      ++ (asset.FoundedDate.map fun _ => "foundedDate").toList) asset.CoinType
  have s9 := createSetClause_step "UPDATE crypto_asset SET " "website"
    ([] ++ (asset.Name.map fun _ => "name").toList
      ++ (asset.Symbol.map fun _ => "symbol").toList
      ++ (asset.Description.map fun _ => "description").toList
      ++ (asset.ICOAmount.map fun _ => "icoAmount").toList
      ++ (asset.BlockReward.map fun _ => "blockReward").toList
      ++ (asset.FundingStatus.map fun _ => "fundingStatus").toList
      ++ (asset.FoundedDate.map fun _ => "foundedDate").toList
      ++ (asset.CoinType.map fun _ => "coinType").toList) asset.Website
  have hbase : "UPDATE crypto_asset SET "
      ++ ", ".intercalate (([] : List String).map fun c => c ++ " = ?")
      = "UPDATE crypto_asset SET " := by
    simp [String.intercalate]
  rw [hbase] at s1
  simp only [List.isEmpty_nil, Bool.not_true] at s1
  unfold _createUpdateStatement
  simp only [s1, s2, s3, s4, s5, s6, s7, s8, s9, appendDeref_eq]
  have hcols : (Spec.presentFields asset).map (fun f => f.1)
      = [] ++ (asset.Name.map fun _ => "name").toList
        ++ (asset.Symbol.map fun _ => "symbol").toList
        ++ (asset.Description.map fun _ => "description").toList
        ++ (asset.ICOAmount.map fun _ => "icoAmount").toList
        ++ (asset.BlockReward.map fun _ => "blockReward").toList
        ++ (asset.FundingStatus.map fun _ => "fundingStatus").toList
        ++ (asset.FoundedDate.map fun _ => "foundedDate").toList
        ++ (asset.CoinType.map fun _ => "coinType").toList
        ++ (asset.Website.map fun _ => "website").toList := by
    simp only [Spec.presentFields, List.map_append, toList_map_fst, List.nil_append]
  have hargs : (Spec.presentFields asset).map (fun f => f.2)
      = [] ++ (asset.Name.map Arg.str).toList ++ (asset.Symbol.map Arg.str).toList
        ++ (asset.Description.map Arg.str).toList ++ (asset.ICOAmount.map Arg.float).toList
        ++ (asset.BlockReward.map Arg.float).toList ++ (asset.FundingStatus.map Arg.str).toList
        ++ (asset.FoundedDate.map Arg.str).toList ++ (asset.CoinType.map Arg.str).toList
        ++ (asset.Website.map Arg.str).toList := by
    simp only [Spec.presentFields, List.map_append, toList_map_snd, List.nil_append]
  have hempty : (Spec.presentFields asset).isEmpty
      = ((Spec.presentFields asset).map (fun f => f.1)).isEmpty := by
    cases Spec.presentFields asset <;> rfl
  have hsql : (Spec.presentFields asset).map (fun f => f.1 ++ " = ?")
      = ((Spec.presentFields asset).map (fun f => f.1)).map (fun c => c ++ " = ?") := by
    rw [List.map_map]
    rfl
  unfold Spec.updateSQL Spec.updateArgs
  rw [hempty, hsql, hargs, hcols]
  split <;> simp_all

theorem presentFields_isEmpty_iff (asset : models.CryptoAsset) :
    (Spec.presentFields asset).isEmpty = true ↔ ¬Spec.anyScalar asset := by
  have hopt : ∀ {α β : Type} (p : Option α) (f : α → β), (p.map f).toList = [] ↔ p = none := by
    intro α β p f
    cases p <;> simp
  simp only [Spec.presentFields, Spec.anyScalar, List.isEmpty_eq_true, List.append_eq_nil, hopt,
    not_or, ne_eq, not_not, and_assoc]

/-- C12: for every identifier and every record with at least one of the nine scalar fields
present, `_createUpdateStatement` returns the SQL `UPDATE crypto_asset SET ` followed by
`col = ?` for exactly the present fields in the fixed order name, symbol, description,
icoAmount, blockReward, fundingStatus, foundedDate, coinType, website, joined by `, `,
followed by ` WHERE id = ?;`, and the argument list of the present values in that order
with the identifier appended last. -/
theorem createUpdateStatement_present (id : Int) (asset : models.CryptoAsset)
    (h : Spec.anyScalar asset) :
    _createUpdateStatement id asset =
      some
        { sql := "UPDATE crypto_asset SET "
            ++ ", ".intercalate ((Spec.presentFields asset).map fun f => f.1 ++ " = ?")
            ++ " WHERE id = ?;"
          args := (Spec.presentFields asset).map (fun f => f.2) ++ [Arg.int id] } := by
  rw [createUpdateStatement_eq]
  have hne : ¬(Spec.presentFields asset).isEmpty = true :=
    fun he => (presentFields_isEmpty_iff asset).mp he h
  rw [if_neg hne]
  rfl

/-- Witness of C12: only symbol `ant` with id 3, and the record of
`Test_createUpdateStatement` with all nine fields and id 1. -/
theorem createUpdateStatement_present_witness :
    _createUpdateStatement 3 { Symbol := some "ant" }
        = some { sql := "UPDATE crypto_asset SET symbol = ? WHERE id = ?;"
                 args := [Arg.str "ant", Arg.int 3] } ∧
      _createUpdateStatement 1
          { Name := some "Bitcoin", Symbol := some "BTC",
            Description := some "The original cryptocurrency", ICOAmount := some ⟨0⟩,
            BlockReward := some ⟨0x4029000000000000⟩, FundingStatus := some "NO-ICO",
            FoundedDate := some "2009-01-03", CoinType := some "Currency",
            Website := some "https://bitcoin.org/en/" }
        = some
          { sql := "UPDATE crypto_asset SET name = ?, symbol = ?, description = ?, "
              ++ "icoAmount = ?, blockReward = ?, fundingStatus = ?, foundedDate = ?, "
              ++ "coinType = ?, website = ? WHERE id = ?;"
            args := [Arg.str "Bitcoin", Arg.str "BTC", Arg.str "The original cryptocurrency",
              Arg.float ⟨0⟩, Arg.float ⟨0x4029000000000000⟩, Arg.str "NO-ICO",
              Arg.str "2009-01-03", Arg.str "Currency", Arg.str "https://bitcoin.org/en/",
              Arg.int 1] } :=
  ⟨createUpdateStatement_present 3 { Symbol := some "ant" } (by simp [Spec.anyScalar]),
    createUpdateStatement_present 1 _ (by simp [Spec.anyScalar])⟩

/-- C13: `_createUpdateStatement` returns no statement if and only if none of the nine scalar
fields is present, and the record's id and team fields never change the result. -/
theorem createUpdateStatement_none_iff (id : Int) (asset : models.CryptoAsset) :
    (_createUpdateStatement id asset = none ↔ ¬Spec.anyScalar asset) ∧
      ∀ (recordID : Option String) (team : Option (List String)),
        _createUpdateStatement id { asset with ID := recordID, Team := team }
          = _createUpdateStatement id asset := by
  refine ⟨?_, fun recordID team => rfl⟩
  rw [createUpdateStatement_eq, ← presentFields_isEmpty_iff]
  cases (Spec.presentFields asset).isEmpty <;> simp

/-- Witness of C13: a record with only an id and a team gives no statement, with or without
them. -/
theorem createUpdateStatement_none_iff_witness :
    _createUpdateStatement 3 { ID := some "3", Team := some ["Hal Finney"] } = none ∧
      _createUpdateStatement 3 {} = none :=
  ⟨(createUpdateStatement_none_iff 3 { ID := some "3", Team := some ["Hal Finney"] }).1.mpr
      (by simp [Spec.anyScalar]),
    (createUpdateStatement_none_iff 3 {}).1.mpr (by simp [Spec.anyScalar])⟩

end database

/-! ### Update: the empty update -/

namespace database

theorem insertLoop_err_ne_empty (db : Responses) (id : Int) (team : List String) (n : Nat)
    (e : Error) (h : (insertLoop db id n team).2 = some e) : e ≠ Error.EmptyUpdateError := by
  induction team generalizing n with
  | nil => simp [insertLoop] at h
  | cons m rest ih =>
    unfold insertLoop at h
    cases hexec : db.StmtExec n [Arg.int id, Arg.str m] with
    | some sqliteError =>
      simp only [hexec] at h
      split at h <;> simp at h <;> subst h <;> simp
    | none =>
      simp only [hexec] at h
      exact ih (n + 1) h

theorem insertTeamMembers_err_ne_empty (db : Responses) (id : Int) (team : List String)
    (e : Error) (h : (insertTeamMembers db id team).2 = some e) :
    e ≠ Error.EmptyUpdateError := by
  unfold insertTeamMembers at h
  cases hp : db.Prepare "INSERT INTO team_member(cryptoAssetId, name) VALUES(?, ?)" with
  | some text =>
    simp only [hp] at h
    simp at h
    subst h
    simp
  | none =>
    simp only [hp] at h
    exact insertLoop_err_ne_empty db id team 0 e h

theorem updateScalars_err_ne_empty (db : Responses) (id : Int) (st : Option statement)
    (e : Error) (h : (updateScalars db id st).2 = some e) : e ≠ Error.EmptyUpdateError := by
  cases st with
  | none => simp [updateScalars] at h
  | some s =>
    unfold updateScalars at h
    cases hexec : db.Exec s.sql s.args with
    | error err =>
      simp only [hexec] at h
      simp at h
      subst h
      simp
    | ok result =>
      simp only [hexec] at h
      cases hra : result.RowsAffected with
      | error text =>
        simp only [hra] at h
        simp at h
        subst h
        simp
      | ok rowsAffected =>
        simp only [hra] at h
        split at h <;> simp at h
        subst h
        simp

theorem updateTeam_err_ne_empty (db : Responses) (id : Int) (team : Option (List String))
    (e : Error) (h : (updateTeam db id team).2 = some e) : e ≠ Error.EmptyUpdateError := by
  cases team with
  | none => simp [updateTeam] at h
  | some members =>
    unfold updateTeam at h
    cases hexec : db.Exec "DELETE FROM team_member WHERE cryptoAssetId = ?;" [Arg.int id] with
    | error err =>
      simp only [hexec] at h
      simp at h
      subst h
      simp
    | ok result =>
      simp only [hexec] at h
      cases hins : (insertTeamMembers db id members).2 with
      | some err =>
        simp only [hins] at h
        simp at h
        subst h
        exact insertTeamMembers_err_ne_empty db id members err hins
      | none =>
        simp only [hins] at h
        simp at h

/-- `Update` after the empty-update check, in terms of its two blocks. -/
theorem Update_of_not_empty (db : Responses) (id : Int) (asset : models.CryptoAsset)
    (h : ¬((_createUpdateStatement id asset).isNone = true ∧ asset.Team.isNone = true)) :
    Update db id asset =
      match db.Begin with
      | some text => ([Call.Begin], some (Error.sql text))
      | none =>
        match (updateScalars db id (_createUpdateStatement id asset)).2 with
        | some err =>
          (Call.Begin :: (updateScalars db id (_createUpdateStatement id asset)).1, some err)
        | none =>
          match (updateTeam db id asset.Team).2 with
          | some err =>
            (Call.Begin :: (updateScalars db id (_createUpdateStatement id asset)).1
              ++ (updateTeam db id asset.Team).1, some err)
          | none =>
            match db.Commit with
            | some text =>
              (Call.Begin :: (updateScalars db id (_createUpdateStatement id asset)).1
                ++ (updateTeam db id asset.Team).1 ++ [Call.Commit], some (Error.sql text))
            | none =>
              (Call.Begin :: (updateScalars db id (_createUpdateStatement id asset)).1
                ++ (updateTeam db id asset.Team).1 ++ [Call.Commit], none) := by
  unfold Update
  simp only [Bool.and_eq_true, h, if_false]

theorem Update_err_ne_empty (db : Responses) (id : Int) (asset : models.CryptoAsset)
    (h : ¬((_createUpdateStatement id asset).isNone = true ∧ asset.Team.isNone = true)) :
    (Update db id asset).2 ≠ some Error.EmptyUpdateError := by
  rw [Update_of_not_empty db id asset h]
  cases db.Begin with
  | some text => simp
  | none =>
    cases hs : (updateScalars db id (_createUpdateStatement id asset)).2 with
    | some err =>
      simp only
      intro hc
      exact updateScalars_err_ne_empty db id _ err hs (Option.some.inj hc)
    | none =>
      cases ht : (updateTeam db id asset.Team).2 with
      | some err =>
        simp only
        intro hc
        exact updateTeam_err_ne_empty db id _ err ht (Option.some.inj hc)
      | none => cases db.Commit <;> simp

/-- C14: `Update` fails with `EmptyUpdateError` if and only if the record has no scalar field
present and its team is absent, and it does so before any call on the store; in particular
a record with no scalar field and a present team, also an empty one, is not rejected as an
empty update. -/
theorem Update_empty_iff (db : Responses) (id : Int) (asset : models.CryptoAsset) :
    ((Update db id asset).2 = some Error.EmptyUpdateError
        ↔ ¬Spec.anyScalar asset ∧ asset.Team = none) ∧
      ((Update db id asset).2 = some Error.EmptyUpdateError → (Update db id asset).1 = []) ∧
      (∀ team, asset.Team = some team →
        (Update db id asset).2 ≠ some Error.EmptyUpdateError) := by
  have hcond : ((_createUpdateStatement id asset).isNone = true ∧ asset.Team.isNone = true)
      ↔ ¬Spec.anyScalar asset ∧ asset.Team = none := by
    rw [createUpdateStatement_eq, ← presentFields_isEmpty_iff]
    cases (Spec.presentFields asset).isEmpty <;> cases asset.Team <;> simp
  have hempty : ((_createUpdateStatement id asset).isNone = true ∧ asset.Team.isNone = true) →
      Update db id asset = ([], some Error.EmptyUpdateError) := by
    intro h
    unfold Update
    simp only [Bool.and_eq_true, h, and_self, if_true]
  refine ⟨⟨fun h => ?_, fun h => ?_⟩, fun h => ?_, fun team hteam h => ?_⟩
  · by_contra hne
    exact Update_err_ne_empty db id asset (fun hc => hne (hcond.mp hc)) h
  · rw [hempty (hcond.mpr h)]
  · by_cases hc : (_createUpdateStatement id asset).isNone = true ∧ asset.Team.isNone = true
    · rw [hempty hc]
    · exact absurd h (Update_err_ne_empty db id asset hc)
  · exact Update_err_ne_empty db id asset (fun hc => by simp [hteam] at hc) h

/-- Witness of C14: the empty record is rejected before any call; a record with only an
empty team is not rejected and clears the team. -/
theorem Update_empty_iff_witness :
    Update Sample.allSucceed 1 {} = ([], some Error.EmptyUpdateError) ∧
      (Update Sample.allSucceed 1 { Team := some [] }).2 ≠ some Error.EmptyUpdateError :=
  ⟨Prod.ext ((Update_empty_iff Sample.allSucceed 1 {}).2.1
      ((Update_empty_iff Sample.allSucceed 1 {}).1.mpr ⟨by simp [Spec.anyScalar], rfl⟩))
      ((Update_empty_iff Sample.allSucceed 1 {}).1.mpr ⟨by simp [Spec.anyScalar], rfl⟩),
    (Update_empty_iff Sample.allSucceed 1 { Team := some [] }).2.2 [] rfl⟩

end database

/-! ### Update: the error paths after Begin -/

namespace database

/-- C15: the code misses the rollback on two of the five error paths.  For an identifier
without a row (`Exec` succeeds and reports 0 affected rows) `Update` returns `UnknownIDError`
after `Begin`, `Exec` and `RowsAffected` without calling `Rollback`; likewise when
`RowsAffected` fails.  On the sibling path, a failing `Exec`, `Rollback` is called. -/
theorem Update_missing_rollback :
    (Update Sample.noSuchRow 99 { Name := some "x" }
        = ([Call.Begin,
            Call.Exec "UPDATE crypto_asset SET name = ? WHERE id = ?;" [Arg.str "x", Arg.int 99],
            Call.RowsAffected],
          some (Error.UnknownIDError 99)) ∧
      Call.Rollback ∉ (Update Sample.noSuchRow 99 { Name := some "x" }).1) ∧
      (Update Sample.rowCountFails 99 { Name := some "x" }
        = ([Call.Begin,
            Call.Exec "UPDATE crypto_asset SET name = ? WHERE id = ?;" [Arg.str "x", Arg.int 99],
            Call.RowsAffected],
          some (Error.sql "no row count")) ∧
      Call.Rollback ∉ (Update Sample.rowCountFails 99 { Name := some "x" }).1) ∧
      Update Sample.execFails 99 { Name := some "x" }
        = ([Call.Begin,
            Call.Exec "UPDATE crypto_asset SET name = ? WHERE id = ?;" [Arg.str "x", Arg.int 99],
            Call.Rollback],
          some (Error.sqlite { ExtendedCode := 5, text := "database is locked" })) := by
  refine ⟨⟨rfl, ?_⟩, ⟨rfl, ?_⟩, rfl⟩ <;> decide

/-- The statement of the update builder is not the team delete: it starts with `U`. -/
theorem createUpdateStatement_sql_ne_delete (id : Int) (asset : models.CryptoAsset)
    (st : statement) (hst : _createUpdateStatement id asset = some st) :
    st.sql ≠ "DELETE FROM team_member WHERE cryptoAssetId = ?;" := by
  rw [createUpdateStatement_eq] at hst
  split at hst
  · simp at hst
  · have hsql : st.sql = Spec.updateSQL asset := by
      have := Option.some.inj hst
      rw [← this]
    intro hc
    rw [hsql] at hc
    have hhead := congrArg (fun t : String => t.data.head?) hc
    simp [Spec.updateSQL] at hhead

/-- C16: when the scalar update statement exists and executes without error but the number
of affected rows is not exactly 1, `Update` returns `UnknownIDError` carrying the given
identifier, and the calls it has issued are `Begin`, the `Exec` of the statement and
`RowsAffected`: neither the team delete or inserts nor the commit. -/
theorem Update_unknown_id (db : Responses) (id : Int) (asset : models.CryptoAsset)
    (st : statement) (result : Result) (rowsAffected : Int)
    (hst : _createUpdateStatement id asset = some st) (hbegin : db.Begin = none)
    (hexec : db.Exec st.sql st.args = Except.ok result)
    (hrows : result.RowsAffected = Except.ok rowsAffected) (hne : rowsAffected ≠ 1) :
    (Update db id asset).2 = some (Error.UnknownIDError id) ∧
      (Update db id asset).1 = [Call.Begin, Call.Exec st.sql st.args, Call.RowsAffected] ∧
      Call.Commit ∉ (Update db id asset).1 ∧
      (∀ q args, Call.StmtExec q args ∉ (Update db id asset).1) ∧
      (∀ args, Call.Exec "DELETE FROM team_member WHERE cryptoAssetId = ?;" args
        ∉ (Update db id asset).1) := by
  have hnot : ¬((_createUpdateStatement id asset).isNone = true ∧ asset.Team.isNone = true) := by
    simp [hst]
  have hscal : updateScalars db id (some st)
      = ([Call.Exec st.sql st.args, Call.RowsAffected], some (Error.UnknownIDError id)) := by
    simp [updateScalars, hexec, hrows, hne]
  have hU : Update db id asset
      = ([Call.Begin, Call.Exec st.sql st.args, Call.RowsAffected],
          some (Error.UnknownIDError id)) := by
    rw [Update_of_not_empty db id asset hnot, hbegin, hst, hscal]
  rw [hU]
  refine ⟨rfl, rfl, by simp, fun q args => by simp, fun args => ?_⟩
  have hq := createUpdateStatement_sql_ne_delete id asset st hst
  simp only [List.mem_cons, List.mem_singleton, Call.Exec.injEq, not_or, List.mem_nil_iff,
    or_false]
  exact ⟨by simp, fun hc => hq hc.1.symm, by simp⟩

/-- Witness of C16: an update of the name for an identifier without a row. -/
theorem Update_unknown_id_witness :
    (Update Sample.noSuchRow 99 { Name := some "x", Team := some ["Hal Finney"] }).2
        = some (Error.UnknownIDError 99) ∧
      (Update Sample.noSuchRow 99 { Name := some "x", Team := some ["Hal Finney"] }).1
        = [Call.Begin,
            Call.Exec "UPDATE crypto_asset SET name = ? WHERE id = ?;" [Arg.str "x", Arg.int 99],
            Call.RowsAffected] :=
  ⟨(Update_unknown_id Sample.noSuchRow 99 { Name := some "x", Team := some ["Hal Finney"] }
      { sql := "UPDATE crypto_asset SET name = ? WHERE id = ?;"
        args := [Arg.str "x", Arg.int 99] }
      { LastInsertId := Except.ok 0, RowsAffected := Except.ok 0 } 0 rfl rfl rfl rfl
      (by decide)).1,
    (Update_unknown_id Sample.noSuchRow 99 { Name := some "x", Team := some ["Hal Finney"] }
      { sql := "UPDATE crypto_asset SET name = ? WHERE id = ?;"
        args := [Arg.str "x", Arg.int 99] }
      { LastInsertId := Except.ok 0, RowsAffected := Except.ok 0 } 0 rfl rfl rfl rfl
      (by decide)).2.1⟩

end database

/-! ### Update: the team replacement -/

namespace database

theorem insertLoop_calls_of_ok (db : Responses) (id : Int) (team : List String) (n : Nat)
    (h : (insertLoop db id n team).2 = none) :
    (insertLoop db id n team).1
      = team.map fun member =>
          Call.StmtExec "INSERT INTO team_member(cryptoAssetId, name) VALUES(?, ?)"
            [Arg.int id, Arg.str member] := by
  induction team generalizing n with
  | nil => rfl
  | cons m rest ih =>
    unfold insertLoop at h ⊢
    cases hexec : db.StmtExec n [Arg.int id, Arg.str m] with
    | some sqliteError =>
      simp only [hexec] at h
      split at h <;> simp at h
    | none =>
      simp only [hexec] at h ⊢
      rw [ih (n + 1) h]
      rfl

/-- A team block of `Update` that falls through has issued exactly the calls of a team
replacement. -/
theorem updateTeam_calls_of_ok (db : Responses) (id : Int) (members : List String)
    (h : (updateTeam db id (some members)).2 = none) :
    (updateTeam db id (some members)).1 = Spec.teamCalls id members := by
  unfold updateTeam at h ⊢
  cases hexec : db.Exec "DELETE FROM team_member WHERE cryptoAssetId = ?;" [Arg.int id] with
  | error err =>
    simp only [hexec] at h
    simp at h
  | ok result =>
    simp only [hexec] at h ⊢
    cases hins : (insertTeamMembers db id members).2 with
    | some err =>
      simp only [hins] at h
      simp at h
    | none =>
      simp only [hins]
      unfold insertTeamMembers at hins ⊢
      cases hp : db.Prepare "INSERT INTO team_member(cryptoAssetId, name) VALUES(?, ?)" with
      | some text =>
        simp only [hp] at hins
        simp at hins
      | none =>
        simp only [hp] at hins ⊢
        rw [insertLoop_calls_of_ok db id members 0 hins]
        rfl

theorem updateScalars_no_team_effect (db : Responses) (id : Int) (asset : models.CryptoAsset)
    (rows : List (Int × String)) :
    (updateScalars db id (_createUpdateStatement id asset)).1.foldl Spec.teamMemberEffect rows
      = rows := by
  cases hst : _createUpdateStatement id asset with
  | none => rfl
  | some st =>
    have hq := createUpdateStatement_sql_ne_delete id asset st hst
    unfold updateScalars
    simp only
    cases hexec : db.Exec st.sql st.args with
    | error err => simp [Spec.teamMemberEffect, hq]
    | ok result =>
      simp only
      cases hrows : result.RowsAffected with
      | error text => simp [Spec.teamMemberEffect, hq]
      | ok rowsAffected =>
        simp only
        split <;> simp [Spec.teamMemberEffect, hq]

theorem teamCalls_effect (id : Int) (team : List String) (rows : List (Int × String)) :
    (Spec.teamCalls id team).foldl Spec.teamMemberEffect rows
      = (rows.filter fun r => r.1 ≠ id) ++ team.map fun member => (id, member) := by
  have hins : ∀ (members : List String) (acc : List (Int × String)),
      (members.map fun member =>
          Call.StmtExec "INSERT INTO team_member(cryptoAssetId, name) VALUES(?, ?)"
            [Arg.int id, Arg.str member]).foldl Spec.teamMemberEffect acc
        = acc ++ members.map fun member => (id, member) := by
    intro members
    induction members with
    | nil => simp
    | cons m ms ih =>
      intro acc
      simp only [List.map_cons, List.foldl_cons]
      rw [ih]
      simp [Spec.teamMemberEffect]
  unfold Spec.teamCalls
  simp only [List.foldl_cons, List.foldl_append, List.foldl_nil]
  have h1 : Spec.teamMemberEffect rows
      (Call.Exec "DELETE FROM team_member WHERE cryptoAssetId = ?;" [Arg.int id])
      = rows.filter fun r => r.1 ≠ id := by
    simp [Spec.teamMemberEffect]
  rw [h1]
  have h2 : ∀ acc : List (Int × String), Spec.teamMemberEffect acc
      (Call.Prepare "INSERT INTO team_member(cryptoAssetId, name) VALUES(?, ?)") = acc :=
    fun _ => rfl
  rw [h2, hins]
  rfl

theorem updateScalars_calls_of_ok (db : Responses) (id : Int) (st : Option statement)
    (h : (updateScalars db id st).2 = none) :
    (updateScalars db id st).1 = Spec.scalarCalls st := by
  cases st with
  | none => rfl
  | some s =>
    unfold updateScalars at h ⊢
    simp only at h ⊢
    cases hexec : db.Exec s.sql s.args with
    | error err =>
      simp only [hexec] at h
      simp at h
    | ok result =>
      simp only [hexec] at h ⊢
      cases hrows : result.RowsAffected with
      | error text =>
        simp only [hrows] at h
        simp at h
      | ok rowsAffected =>
        simp only [hrows] at h ⊢
        split at h
        · simp at h
        · rename_i hne
          simp only [hne, if_false]
          rfl

/-- A successful `Update` has begun a transaction, passed both blocks and committed. -/
theorem Update_calls_of_ok (db : Responses) (id : Int) (asset : models.CryptoAsset)
    (h : (Update db id asset).2 = none) :
    (updateScalars db id (_createUpdateStatement id asset)).2 = none ∧
      (updateTeam db id asset.Team).2 = none ∧
      (Update db id asset).1
        = Call.Begin :: (updateScalars db id (_createUpdateStatement id asset)).1
          ++ (updateTeam db id asset.Team).1 ++ [Call.Commit] := by
  by_cases hc : (_createUpdateStatement id asset).isNone = true ∧ asset.Team.isNone = true
  · unfold Update at h
    simp [hc] at h
  · rw [Update_of_not_empty db id asset hc] at h ⊢
    cases hb : db.Begin with
    | some text => simp [hb] at h
    | none =>
      simp only [hb] at h ⊢
      cases hs : (updateScalars db id (_createUpdateStatement id asset)).2 with
      | some err => simp [hs] at h
      | none =>
        simp only [hs] at h ⊢
        cases ht : (updateTeam db id asset.Team).2 with
        | some err => simp [ht] at h
        | none =>
          simp only [ht] at h ⊢
          cases hcm : db.Commit with
          | some text => simp [hcm] at h
          | none => simp

/-- C17: in a successful `Update` with a present team, the calls are `Begin`, the scalar
update if there is one, the delete of the team rows of the identifier, one insert per
provided member in input order, and `Commit`; by the SQL meaning of these calls the stored
team of the identifier afterwards is the provided sequence (no members for an empty one)
and the team of every other identifier is unchanged.  With an absent team no delete or
insert on the team-member relation is issued and the stored rows are unchanged. -/
theorem Update_team (db : Responses) (id : Int) (asset : models.CryptoAsset)
    (h : (Update db id asset).2 = none) :
    (∀ team, asset.Team = some team →
        (Update db id asset).1
          = Call.Begin :: Spec.scalarCalls (_createUpdateStatement id asset)
            ++ Spec.teamCalls id team ++ [Call.Commit] ∧
        ∀ rows : List (Int × String),
          Spec.storedTeam ((Update db id asset).1.foldl Spec.teamMemberEffect rows) id = team ∧
          ∀ other, other ≠ id →
            Spec.storedTeam ((Update db id asset).1.foldl Spec.teamMemberEffect rows) other
              = Spec.storedTeam rows other) ∧
      (asset.Team = none →
        (Update db id asset).1
          = Call.Begin :: Spec.scalarCalls (_createUpdateStatement id asset) ++ [Call.Commit] ∧
        (∀ args, Call.Exec "DELETE FROM team_member WHERE cryptoAssetId = ?;" args
          ∉ (Update db id asset).1) ∧
        (∀ q args, Call.StmtExec q args ∉ (Update db id asset).1) ∧
        ∀ rows : List (Int × String),
          (Update db id asset).1.foldl Spec.teamMemberEffect rows = rows) := by
  obtain ⟨hs, ht, htrace⟩ := Update_calls_of_ok db id asset h
  have hscal := updateScalars_calls_of_ok db id _ hs
  have hfold : ∀ rows : List (Int × String),
      (Update db id asset).1.foldl Spec.teamMemberEffect rows
        = (updateTeam db id asset.Team).1.foldl Spec.teamMemberEffect rows := by
    intro rows
    rw [htrace]
    simp only [List.foldl_cons, List.foldl_append, List.foldl_nil]
    have hb : Spec.teamMemberEffect rows Call.Begin = rows := rfl
    rw [hb, updateScalars_no_team_effect]
    rfl
  refine ⟨fun team hteam => ?_, fun hteam => ?_⟩
  · rw [hteam] at ht hfold htrace
    have hcalls := updateTeam_calls_of_ok db id team ht
    refine ⟨by rw [htrace, hscal, hcalls], fun rows => ?_⟩
    rw [hfold rows, hcalls, teamCalls_effect]
    refine ⟨?_, fun other hother => ?_⟩
    · simp [Spec.storedTeam, List.filter_append, List.filter_filter, List.filter_map,
        Function.comp_def]
    · have hne : ¬id = other := fun hc => hother hc.symm
      simp only [Spec.storedTeam, List.filter_append, List.filter_filter, List.filter_map,
        Function.comp_def, hne, decide_False, List.filter_false, List.map_nil, List.append_nil]
      congr 1
      apply List.filter_congr
      intro r _
      by_cases hr : r.1 = other
      · simp [hr, hother]
      · simp [hr]
  · rw [hteam] at hfold htrace
    have hnil : (updateTeam db id none).1 = [] := rfl
    rw [hnil] at htrace hfold
    rw [hscal] at htrace
    simp only [List.append_nil] at htrace
    refine ⟨htrace, fun args => ?_, fun q args => ?_, fun rows => by rw [hfold rows]; rfl⟩
    · rw [htrace]
      cases hst : _createUpdateStatement id asset with
      | none => simp [Spec.scalarCalls]
      | some st =>
        have hq := createUpdateStatement_sql_ne_delete id asset st hst
        simp only [Spec.scalarCalls, List.cons_append, List.nil_append, List.mem_cons,
          List.mem_singleton, Call.Exec.injEq, not_or, List.mem_nil_iff, or_false]
        exact ⟨by simp, fun hc => hq hc.1.symm, by simp, by simp⟩
    · rw [htrace]
      cases hst : _createUpdateStatement id asset <;> simp [Spec.scalarCalls]

/-- Witness of C17: replacing the team of identifier 1 by two members, clearing it with an
empty team, and a scalar update that leaves the team rows alone. -/
theorem Update_team_witness :
    (Update Sample.allSucceed 1 { Team := some ["Hal Finney", "Nick Szabo"] }).1
        = [Call.Begin,
            Call.Exec "DELETE FROM team_member WHERE cryptoAssetId = ?;" [Arg.int 1],
            Call.Prepare "INSERT INTO team_member(cryptoAssetId, name) VALUES(?, ?)",
            Call.StmtExec "INSERT INTO team_member(cryptoAssetId, name) VALUES(?, ?)"
              [Arg.int 1, Arg.str "Hal Finney"],
            Call.StmtExec "INSERT INTO team_member(cryptoAssetId, name) VALUES(?, ?)"
              [Arg.int 1, Arg.str "Nick Szabo"],
            Call.StmtClose, Call.Commit] ∧
      Spec.storedTeam
          ((Update Sample.allSucceed 1 { Team := some [] }).1.foldl Spec.teamMemberEffect
            [(1, "Satoshi Nakomoto"), (2, "Vitalik Buterin")]) 1 = [] ∧
      (Update Sample.allSucceed 1 { Name := some "x" }).1.foldl Spec.teamMemberEffect
          [(1, "Satoshi Nakomoto"), (2, "Vitalik Buterin")]
        = [(1, "Satoshi Nakomoto"), (2, "Vitalik Buterin")] :=
  ⟨((Update_team Sample.allSucceed 1 { Team := some ["Hal Finney", "Nick Szabo"] } rfl).1
      ["Hal Finney", "Nick Szabo"] rfl).1,
    (((Update_team Sample.allSucceed 1 { Team := some [] } rfl).1 [] rfl).2
      [(1, "Satoshi Nakomoto"), (2, "Vitalik Buterin")]).1,
    ((Update_team Sample.allSucceed 1 { Name := some "x" } rfl).2 rfl).2.2.2
      [(1, "Satoshi Nakomoto"), (2, "Vitalik Buterin")]⟩

end database

/-! ### Insert: the constraint errors -/

namespace strings

theorem isPrefixOf_dot (l : List Char) : ['.'].isPrefixOf l = true ↔ l.head? = some '.' := by
  cases l with
  | nil => simp [List.isPrefixOf]
  | cons c cs =>
    simp only [List.isPrefixOf, List.head?_cons, Option.some.injEq, Bool.and_true,
      beq_iff_eq]
    exact eq_comm

theorem lastIndexFrom_dot (s : List Char) (n : Nat) :
    (lastIndexFrom s ['.'] n = -1 ∧ ∀ i, i ≤ n → s[i]? ≠ some '.') ∨
      ∃ k : Nat, lastIndexFrom s ['.'] n = (k : Int) ∧ s[k]? = some '.' ∧
        ∀ i, k < i → i ≤ n → s[i]? ≠ some '.' := by
  induction n with
  | zero =>
    unfold lastIndexFrom
    by_cases h : ['.'].isPrefixOf s = true
    · right
      refine ⟨0, by simp [h], ?_, fun i hi hi0 => by omega⟩
      have := (isPrefixOf_dot s).mp h
      cases s with
      | nil => simp at this
      | cons c cs => simpa using this
    · left
      refine ⟨by simp [h], fun i hi => ?_⟩
      have hi0 : i = 0 := by omega
      subst hi0
      intro hc
      apply h
      rw [isPrefixOf_dot]
      cases s with
      | nil => simp at hc
      | cons c cs => simpa using hc
  | succ n ih =>
    unfold lastIndexFrom
    by_cases h : ['.'].isPrefixOf (s.drop (n + 1)) = true
    · right
      refine ⟨n + 1, by simp [h], ?_, fun i hi hin => by omega⟩
      rw [← List.head?_drop]
      exact (isPrefixOf_dot _).mp h
    · have hn : s[n + 1]? ≠ some '.' := by
        intro hc
        apply h
        rw [isPrefixOf_dot, List.head?_drop]
        exact hc
      simp only [h, Bool.false_eq_true, if_false]
      rcases ih with ⟨h1, h2⟩ | ⟨k, h1, h2, h3⟩
      · left
        refine ⟨h1, fun i hi => ?_⟩
        by_cases hin : i = n + 1
        · rw [hin]; exact hn
        · exact h2 i (by omega)
      · right
        refine ⟨k, h1, h2, fun i hi hin => ?_⟩
        by_cases hin1 : i = n + 1
        · rw [hin1]; exact hn
        · exact h3 i hi (by omega)

/-- The expression `s[strings.LastIndex(s, ".")+1:]` is the part of `s` after its last `.`. -/
theorem sliceFrom_LastIndex_dot (m : String) :
    Spec.IsAfterLastDot m (sliceFrom m (LastIndex m "." + 1)) := by
  unfold Spec.IsAfterLastDot sliceFrom LastIndex
  have hdot : (".".data : List Char) = ['.'] := rfl
  rw [hdot]
  have hbeyond : ∀ i, m.data.length < i → m.data[i]? ≠ some '.' := by
    intro i hi
    rw [List.getElem?_eq_none (by omega)]
    simp
  rcases lastIndexFrom_dot m.data m.data.length with ⟨h1, h2⟩ | ⟨k, h1, h2, h3⟩
  · rw [h1]
    have hnot : '.' ∉ m.data := by
      intro hc
      obtain ⟨i, hi⟩ := List.mem_iff_getElem?.mp hc
      by_cases hle : i ≤ m.data.length
      · exact h2 i hle hi
      · exact hbeyond i (by omega) hi
    simp only [Int.reduceNeg, neg_add_cancel, Int.toNat_zero, List.drop_zero]
    exact ⟨hnot, Or.inr ⟨hnot, trivial⟩⟩
  · rw [h1]
    have hk : ((k : Int) + 1).toNat = k + 1 := by omega
    simp only [hk]
    have hlt : k < m.data.length := by
      by_contra hge
      rw [List.getElem?_eq_none (by omega)] at h2
      simp at h2
    refine ⟨?_, Or.inl ⟨m.data.take k, ?_⟩⟩
    · intro hc
      obtain ⟨j, hj⟩ := List.mem_iff_getElem?.mp hc
      rw [List.getElem?_drop] at hj
      by_cases hle : k + 1 + j ≤ m.data.length
      · exact h3 (k + 1 + j) (by omega) hle hj
      · exact hbeyond (k + 1 + j) (by omega) hj
    · have hget : m.data[k] = '.' := by
        have := List.getElem?_eq_getElem hlt
        rw [this] at h2
        exact Option.some.inj h2
      rw [← hget, ← List.drop_eq_getElem_cons hlt, List.take_append_drop]

end strings

namespace database

/-- `Insert` when the asset-row insert fails: the rollback, then the switch on the code. -/
theorem Insert_of_exec_error (db : Responses) (asset : models.CryptoAsset)
    (e : sqlite3.Error) (hbegin : db.Begin = none)
    (hexec : db.Exec (insertAssetCall asset).1 (insertAssetCall asset).2 = Except.error e) :
    Insert db asset
      = ([Call.Begin, Call.Exec (insertAssetCall asset).1 (insertAssetCall asset).2,
          Call.Rollback], insertError asset e) := by
  unfold Insert
  simp only [hbegin, hexec]

/-- C19: when the asset-row insert of `Insert` fails with a not-null constraint violation
whose message is m, `Insert` returns `NullConstraintError` whose field is the part of m after
the last `.`, with the text `<field> cannot be null`; when it fails with a uniqueness
violation, `Insert` returns `UniqueConstraintError` carrying the record's symbol, with the
text `symbol <symbol> already exists`. -/
theorem Insert_constraint_errors (db : Responses) (asset : models.CryptoAsset)
    (e : sqlite3.Error) (hbegin : db.Begin = none)
    (hexec : db.Exec (insertAssetCall asset).1 (insertAssetCall asset).2 = Except.error e) :
    (e.ExtendedCode = sqlite3.ErrConstraintNotNull →
        ∃ field, (Insert db asset).2
            = Outcome.returned ("", some (Error.NullConstraintError field)) ∧
          Spec.IsAfterLastDot e.text field ∧
          (Error.NullConstraintError field).text = field ++ " cannot be null") ∧
      (e.ExtendedCode = sqlite3.ErrConstraintUnique →
        ∀ symbol, asset.Symbol = some symbol →
          (Insert db asset).2
              = Outcome.returned ("", some (Error.UniqueConstraintError symbol)) ∧
            (Error.UniqueConstraintError symbol).text
              = "symbol " ++ symbol ++ " already exists") := by
  rw [Insert_of_exec_error db asset e hbegin hexec]
  refine ⟨fun hcode => ?_, fun hcode symbol hsym => ?_⟩
  · refine ⟨strings.sliceFrom e.text (strings.LastIndex e.text "." + 1), ?_,
      strings.sliceFrom_LastIndex_dot e.text, rfl⟩
    simp [insertError, hcode]
  · have hne : sqlite3.ErrConstraintUnique ≠ sqlite3.ErrConstraintNotNull := by decide
    simp [insertError, hcode, hne, hsym]
    rfl

/-- Witness of C19: the not-null violation on name of `testRegisterUserError` and a
uniqueness violation for the symbol `btc`. -/
theorem Insert_constraint_errors_witness :
    (∃ field, (Insert Sample.nameMissing { Team := some [], FoundedDate := some "2017-12-25" }).2
          = Outcome.returned ("", some (Error.NullConstraintError field)) ∧
        Spec.IsAfterLastDot "NOT NULL constraint failed: crypto_asset.name" field ∧
        (Error.NullConstraintError field).text = field ++ " cannot be null") ∧
      (Insert Sample.nameMissing { Team := some [], FoundedDate := some "2017-12-25" }).2
        = Outcome.returned ("", some (Error.NullConstraintError "name")) ∧
      (Error.NullConstraintError "name").text = "name cannot be null" ∧
      (Insert Sample.symbolTaken { Symbol := some "btc", Team := some [] }).2
          = Outcome.returned ("", some (Error.UniqueConstraintError "btc")) ∧
        (Error.UniqueConstraintError "btc").text = "symbol btc already exists" :=
  ⟨(Insert_constraint_errors Sample.nameMissing
      { Team := some [], FoundedDate := some "2017-12-25" } _ rfl rfl).1 rfl,
    rfl, rfl,
    (Insert_constraint_errors Sample.symbolTaken { Symbol := some "btc", Team := some [] } _
      rfl rfl).2 rfl "btc" rfl⟩

end database

/-! ### Insert: commit and rollback -/

namespace database

theorem insertLoop_ok_iff (db : Responses) (id : Int) (team : List String) (n : Nat) :
    (insertLoop db id n team).2 = none ↔
      ∀ (i : Nat) (member : String), team[i]? = some member →
        db.StmtExec (n + i) [Arg.int id, Arg.str member] = none := by
  induction team generalizing n with
  | nil => simp [insertLoop]
  | cons m rest ih =>
    unfold insertLoop
    cases hexec : db.StmtExec n [Arg.int id, Arg.str m] with
    | some sqliteError =>
      simp only
      constructor
      · intro h
        split at h <;> simp at h
      · intro h
        have := h 0 m (by simp)
        simp [hexec] at this
    | none =>
      simp only
      rw [ih (n + 1)]
      constructor
      · intro h i member hi
        cases i with
        | zero =>
          simp at hi
          subst hi
          simpa using hexec
        | succ j =>
          have := h j member (by simpa using hi)
          rw [show n + (j + 1) = n + 1 + j by omega]
          exact this
      · intro h i member hi
        have := h (i + 1) member (by simpa using hi)
        rw [show n + 1 + i = n + (i + 1) by omega]
        exact this

theorem insertLoop_calls (db : Responses) (id : Int) (team : List String) (n : Nat) :
    ∀ c ∈ (insertLoop db id n team).1, c ≠ Call.Commit ∧ c ≠ Call.Rollback := by
  induction team generalizing n with
  | nil => simp [insertLoop]
  | cons m rest ih =>
    unfold insertLoop
    cases hexec : db.StmtExec n [Arg.int id, Arg.str m] with
    | some sqliteError =>
      simp only
      split <;> simp
    | none =>
      simp only
      intro c hc
      rcases List.mem_cons.mp hc with rfl | hc
      · simp
      · exact ih (n + 1) c hc

theorem insertTeamMembers_calls (db : Responses) (id : Int) (team : List String) :
    ∀ c ∈ (insertTeamMembers db id team).1, c ≠ Call.Commit ∧ c ≠ Call.Rollback := by
  unfold insertTeamMembers
  cases db.Prepare "INSERT INTO team_member(cryptoAssetId, name) VALUES(?, ?)" with
  | some text => simp
  | none =>
    simp only
    intro c hc
    simp only [List.mem_append, List.mem_singleton, List.mem_cons, List.mem_nil_iff,
      or_false] at hc
    rcases hc with (rfl | hc) | rfl
    · simp
    · exact insertLoop_calls db id team 0 c hc
    · simp

theorem insertTeamMembers_ok_iff (db : Responses) (id : Int) (team : List String) :
    (insertTeamMembers db id team).2 = none ↔
      db.Prepare "INSERT INTO team_member(cryptoAssetId, name) VALUES(?, ?)" = none ∧
        ∀ (i : Nat) (member : String), team[i]? = some member →
          db.StmtExec i [Arg.int id, Arg.str member] = none := by
  unfold insertTeamMembers
  cases hp : db.Prepare "INSERT INTO team_member(cryptoAssetId, name) VALUES(?, ?)" with
  | some text => simp
  | none =>
    simp only [true_and]
    rw [insertLoop_ok_iff]
    simp

theorem Insert_of_id_error (db : Responses) (asset : models.CryptoAsset) (result : Result)
    (text : String) (hbegin : db.Begin = none)
    (hexec : db.Exec (insertAssetCall asset).1 (insertAssetCall asset).2 = Except.ok result)
    (hid : result.LastInsertId = Except.error text) :
    Insert db asset
      = ([Call.Begin, Call.Exec (insertAssetCall asset).1 (insertAssetCall asset).2,
          Call.LastInsertId, Call.Rollback], Outcome.returned ("", some (Error.sql text))) := by
  unfold Insert
  simp only [hbegin, hexec, hid]

theorem Insert_of_team_error (db : Responses) (asset : models.CryptoAsset) (result : Result)
    (id : Int) (err : Error) (hbegin : db.Begin = none)
    (hexec : db.Exec (insertAssetCall asset).1 (insertAssetCall asset).2 = Except.ok result)
    (hid : result.LastInsertId = Except.ok id)
    (hteam : (insertTeamMembers db id (asset.Team.getD [])).2 = some err) :
    Insert db asset
      = ([Call.Begin, Call.Exec (insertAssetCall asset).1 (insertAssetCall asset).2,
            Call.LastInsertId] ++ (insertTeamMembers db id (asset.Team.getD [])).1
          ++ [Call.Rollback], Outcome.returned ("", some err)) := by
  unfold Insert
  simp only [hbegin, hexec, hid, hteam]

theorem Insert_of_steps_ok (db : Responses) (asset : models.CryptoAsset) (result : Result)
    (id : Int) (hbegin : db.Begin = none)
    (hexec : db.Exec (insertAssetCall asset).1 (insertAssetCall asset).2 = Except.ok result)
    (hid : result.LastInsertId = Except.ok id)
    (hteam : (insertTeamMembers db id (asset.Team.getD [])).2 = none) :
    Insert db asset
      = ([Call.Begin, Call.Exec (insertAssetCall asset).1 (insertAssetCall asset).2,
            Call.LastInsertId] ++ (insertTeamMembers db id (asset.Team.getD [])).1
          ++ [Call.Commit],
        match db.Commit with
        | some text => Outcome.returned ("", some (Error.sql text))
        | none => Outcome.returned (strconv.Itoa id, none)) := by
  unfold Insert
  simp only [hbegin, hexec, hid, hteam]
  cases db.Commit <;> rfl

theorem insertStepsOk_iff (db : Responses) (asset : models.CryptoAsset) (result : Result)
    (id0 : Int)
    (hexec : db.Exec (insertAssetCall asset).1 (insertAssetCall asset).2 = Except.ok result)
    (hid : result.LastInsertId = Except.ok id0) (id : Int) :
    Spec.insertStepsOk db asset id ↔
      id = id0 ∧ (insertTeamMembers db id0 (asset.Team.getD [])).2 = none := by
  unfold Spec.insertStepsOk
  rw [insertTeamMembers_ok_iff]
  constructor
  · rintro ⟨⟨result2, h1, h2⟩, hp, hm⟩
    rw [hexec] at h1
    have hr : result = result2 := Except.ok.inj h1
    subst hr
    rw [hid] at h2
    have : id0 = id := Except.ok.inj h2
    subst this
    exact ⟨rfl, hp, hm⟩
  · rintro ⟨rfl, hp, hm⟩
    exact ⟨⟨result, hexec, hid⟩, hp, hm⟩

/-- C18 as stated fails when the commit itself fails: every step of the insert succeeds and
generates the identifier 7, yet `Insert` returns the empty string and the commit error. -/
theorem Insert_commit_counterexample :
    Spec.insertStepsOk Sample.commitFails { Symbol := some "btc", Team := some ["Hal Finney"] }
        7 ∧
      (Insert Sample.commitFails { Symbol := some "btc", Team := some ["Hal Finney"] }).2
        = Outcome.returned ("", some (Error.sql "database is locked")) ∧
      (Insert Sample.commitFails { Symbol := some "btc", Team := some ["Hal Finney"] }).2
        ≠ Outcome.returned ("7", none) := by
  refine ⟨⟨⟨_, rfl, rfl⟩, rfl, fun i member _ => rfl⟩, rfl, by decide⟩

/-- C18 (amended): in a transaction that `Insert` has begun, `Commit` is called if and only if
the asset-row insert, the capture of the generated identifier and every team-member insert
all succeed; then no rollback is called, and `Insert` returns the generated identifier as a
decimal string if the commit succeeds and the empty string with the commit error if the
commit fails.  If any of those steps fails, `Insert` calls `Rollback`, does not call
`Commit` and returns the empty string together with an error (for a uniqueness violation:
on a record that has a symbol). -/
theorem Insert_transaction (db : Responses) (asset : models.CryptoAsset)
    (hbegin : db.Begin = none)
    (hsymbol : ∀ e, db.Exec (insertAssetCall asset).1 (insertAssetCall asset).2 = Except.error e →
      e.ExtendedCode = sqlite3.ErrConstraintUnique → asset.Symbol ≠ none) :
    (Call.Commit ∈ (Insert db asset).1 ↔ ∃ id, Spec.insertStepsOk db asset id) ∧
      (∀ id, Spec.insertStepsOk db asset id →
        Call.Rollback ∉ (Insert db asset).1 ∧
        (db.Commit = none → (Insert db asset).2 = Outcome.returned (strconv.Itoa id, none)) ∧
        ∀ text, db.Commit = some text →
          (Insert db asset).2 = Outcome.returned ("", some (Error.sql text))) ∧
      ((¬∃ id, Spec.insertStepsOk db asset id) →
        Call.Rollback ∈ (Insert db asset).1 ∧ Call.Commit ∉ (Insert db asset).1 ∧
        ∃ err, (Insert db asset).2 = Outcome.returned ("", some err)) := by
  cases hexec : db.Exec (insertAssetCall asset).1 (insertAssetCall asset).2 with
  | error e =>
    have hno : ¬∃ id, Spec.insertStepsOk db asset id := by
      rintro ⟨id, ⟨result, h1, _⟩, _⟩
      rw [hexec] at h1
      exact absurd h1 (by simp)
    rw [Insert_of_exec_error db asset e hbegin hexec]
    refine ⟨⟨fun h => by simp at h, fun h => absurd h hno⟩, fun id h => absurd ⟨id, h⟩ hno,
      fun _ => ⟨by simp, by simp, ?_⟩⟩
    unfold insertError
    by_cases h1 : e.ExtendedCode = sqlite3.ErrConstraintNotNull
    · rw [if_pos h1]
      exact ⟨_, rfl⟩
    · rw [if_neg h1]
      by_cases h2 : e.ExtendedCode = sqlite3.ErrConstraintUnique
      · rw [if_pos h2]
        cases hsym : asset.Symbol with
        | none => exact absurd hsym (hsymbol e hexec h2)
        | some symbol => exact ⟨_, rfl⟩
      · rw [if_neg h2]
        exact ⟨_, rfl⟩
  | ok result =>
    cases hid : result.LastInsertId with
    | error text =>
      have hno : ¬∃ id, Spec.insertStepsOk db asset id := by
        rintro ⟨id, ⟨result2, h1, h2⟩, _⟩
        rw [hexec] at h1
        have hr : result = result2 := Except.ok.inj h1
        subst hr
        rw [hid] at h2
        exact absurd h2 (by simp)
      rw [Insert_of_id_error db asset result text hbegin hexec hid]
      exact ⟨⟨fun h => by simp at h, fun h => absurd h hno⟩, fun id h => absurd ⟨id, h⟩ hno,
        fun _ => ⟨by simp, by simp, ⟨_, rfl⟩⟩⟩
    | ok id0 =>
      have hiff := insertStepsOk_iff db asset result id0 hexec hid
      have hcalls := insertTeamMembers_calls db id0 (asset.Team.getD [])
      cases hteam : (insertTeamMembers db id0 (asset.Team.getD [])).2 with
      | some err =>
        have hno : ¬∃ id, Spec.insertStepsOk db asset id := by
          rintro ⟨id, h⟩
          have := ((hiff id).mp h).2
          rw [hteam] at this
          exact absurd this (by simp)
        rw [Insert_of_team_error db asset result id0 err hbegin hexec hid hteam]
        refine ⟨⟨fun h => ?_, fun h => absurd h hno⟩, fun id h => absurd ⟨id, h⟩ hno,
          fun _ => ⟨by simp, fun h => ?_, ⟨_, rfl⟩⟩⟩
        · simp only [List.mem_append, List.mem_cons, List.mem_singleton, List.mem_nil_iff,
            or_false] at h
          rcases h with (h | h) | h
          · simp at h
          · exact absurd rfl (hcalls _ h).1
          · simp at h
        · simp only [List.mem_append, List.mem_cons, List.mem_singleton, List.mem_nil_iff,
            or_false] at h
          rcases h with (h | h) | h
          · simp at h
          · exact absurd rfl (hcalls _ h).1
          · simp at h
      | none =>
        rw [Insert_of_steps_ok db asset result id0 hbegin hexec hid hteam]
        refine ⟨⟨fun _ => ⟨id0, (hiff id0).mpr ⟨rfl, hteam⟩⟩, fun _ => by simp⟩,
          fun id h => ?_, fun hno => absurd ⟨id0, (hiff id0).mpr ⟨rfl, hteam⟩⟩ hno⟩
        have hidEq : id = id0 := ((hiff id).mp h).1
        subst hidEq
        refine ⟨fun h => ?_, fun hc => by simp [hc], fun text hc => by simp [hc]⟩
        simp only [List.mem_append, List.mem_cons, List.mem_singleton, List.mem_nil_iff,
          or_false] at h
        rcases h with (h | h) | h
        · simp at h
        · exact absurd rfl (hcalls _ h).2
        · simp at h

/-- Witness of C18 (amended): a successful insert returns the generated identifier `7` after
`Commit`; an insert whose asset row is rejected rolls back and returns the empty string. -/
theorem Insert_transaction_witness :
    (Insert Sample.allSucceed { Symbol := some "btc", Team := some ["Hal Finney"] }).2
        = Outcome.returned ("7", none) ∧
      Call.Rollback ∉
        (Insert Sample.allSucceed { Symbol := some "btc", Team := some ["Hal Finney"] }).1 ∧
      Call.Rollback ∈ (Insert Sample.symbolTaken { Symbol := some "btc", Team := some [] }).1 ∧
      Call.Commit ∉ (Insert Sample.symbolTaken { Symbol := some "btc", Team := some [] }).1 :=
  ⟨((Insert_transaction Sample.allSucceed { Symbol := some "btc", Team := some ["Hal Finney"] }
      rfl (fun _ _ _ => by simp)).2.1 7
      ⟨⟨_, rfl, rfl⟩, rfl, fun _ _ _ => rfl⟩).2.1 rfl,
    ((Insert_transaction Sample.allSucceed { Symbol := some "btc", Team := some ["Hal Finney"] }
      rfl (fun _ _ _ => by simp)).2.1 7
      ⟨⟨_, rfl, rfl⟩, rfl, fun _ _ _ => rfl⟩).1,
    ((Insert_transaction Sample.symbolTaken { Symbol := some "btc", Team := some [] }
      rfl (fun _ _ _ => by simp)).2.2
      (by rintro ⟨id, ⟨result, h, _⟩, _⟩; exact absurd h (by simp [Sample.symbolTaken]))).1,
    ((Insert_transaction Sample.symbolTaken { Symbol := some "btc", Team := some [] }
      rfl (fun _ _ _ => by simp)).2.2
      (by rintro ⟨id, ⟨result, h, _⟩, _⟩; exact absurd h (by simp [Sample.symbolTaken]))).2.1⟩

end database

/-! ### Select: folding the joined rows -/

namespace database

theorem find_some_of_mem (rows : List Row) (id : Int) (h : id ∈ rows.map fun row => row.id) :
    ∃ first, rows.find? (fun row => row.id = id) = some first := by
  cases hf : rows.find? (fun row => row.id = id) with
  | some first => exact ⟨first, rfl⟩
  | none =>
    rw [List.find?_eq_none] at hf
    obtain ⟨row, hrow, hid⟩ := List.mem_map.mp h
    exact absurd (by simpa using hid) (hf row hrow)

theorem find_none_of_not_mem (rows : List Row) (id : Int)
    (h : id ∉ rows.map fun row => row.id) :
    rows.find? (fun row => row.id = id) = none := by
  rw [List.find?_eq_none]
  intro row hrow hid
  exact h (List.mem_map.mpr ⟨row, hrow, by simpa using hid⟩)

theorem filter_nil_of_not_mem (rows : List Row) (id : Int)
    (h : id ∉ rows.map fun row => row.id) :
    (rows.filter fun row => row.id = id) = [] := by
  rw [List.filter_eq_nil_iff]
  intro row hrow hid
  exact h (List.mem_map.mpr ⟨row, hrow, by simpa using hid⟩)

/-- A further row of another identifier does not change the record of an identifier. -/
theorem selectRecord_append_other (rows : List Row) (r : Row) (id : Int)
    (hmem : id ∈ rows.map fun row => row.id) (hne : r.id ≠ id) :
    Spec.selectRecord (rows ++ [r]) id = Spec.selectRecord rows id := by
  obtain ⟨first, hfirst⟩ := find_some_of_mem rows id hmem
  unfold Spec.selectRecord
  simp [List.find?_append, hfirst, List.filter_append, hne]

/-- A further row of an identifier already seen, without member, changes nothing. -/
theorem selectRecord_append_same_none (rows : List Row) (r : Row)
    (hmem : r.id ∈ rows.map fun row => row.id) (hm : r.teamMember = none) :
    Spec.selectRecord (rows ++ [r]) r.id = Spec.selectRecord rows r.id := by
  obtain ⟨first, hfirst⟩ := find_some_of_mem rows r.id hmem
  unfold Spec.selectRecord
  simp [List.find?_append, hfirst, List.filter_append, List.filterMap_append, hm]

/-- A further row of an identifier already seen adds its member to the team. -/
theorem selectRecord_append_same_some (rows : List Row) (r : Row) (member : String)
    (hmem : r.id ∈ rows.map fun row => row.id) (hm : r.teamMember = some member) :
    Spec.selectRecord (rows ++ [r]) r.id
      = { Spec.selectRecord rows r.id with
          Team := some ((Spec.selectRecord rows r.id).Team.getD [] ++ [member]) } := by
  obtain ⟨first, hfirst⟩ := find_some_of_mem rows r.id hmem
  unfold Spec.selectRecord
  simp [List.find?_append, hfirst, List.filter_append, List.filterMap_append, hm]

/-- The first row of an identifier, without member, gives the new record. -/
theorem selectRecord_append_new_none (rows : List Row) (r : Row)
    (hmem : r.id ∉ rows.map fun row => row.id) (hm : r.teamMember = none) :
    Spec.selectRecord (rows ++ [r]) r.id = newCryptoAsset r := by
  unfold Spec.selectRecord newCryptoAsset
  simp [List.find?_append, find_none_of_not_mem rows r.id hmem, List.filter_append,
    filter_nil_of_not_mem rows r.id hmem, hm]

/-- The first row of an identifier gives the new record with its member. -/
theorem selectRecord_append_new_some (rows : List Row) (r : Row) (member : String)
    (hmem : r.id ∉ rows.map fun row => row.id) (hm : r.teamMember = some member) :
    Spec.selectRecord (rows ++ [r]) r.id
      = { newCryptoAsset r with
          Team := some ((newCryptoAsset r).Team.getD [] ++ [member]) } := by
  unfold Spec.selectRecord newCryptoAsset
  simp [List.find?_append, find_none_of_not_mem rows r.id hmem, List.filter_append,
    filter_nil_of_not_mem rows r.id hmem, hm]

theorem selectStep_keys (m : List (Int × models.CryptoAsset)) (r : Row) :
    (selectStep m r).map (fun entry => entry.1)
      = match m.find? (fun entry => entry.1 = r.id) with
        | some _ => m.map fun entry => entry.1
        | none => m.map (fun entry => entry.1) ++ [r.id] := by
  unfold selectStep
  have hupd : ∀ (l : List (Int × models.CryptoAsset)) (member : String),
      (l.map fun entry =>
          if entry.1 = r.id then
            (entry.1, { entry.2 with Team := some (entry.2.Team.getD [] ++ [member]) })
          else entry).map (fun entry => entry.1) = l.map fun entry => entry.1 := by
    intro l member
    rw [List.map_map]
    apply List.map_congr_left
    intro entry _
    simp only [Function.comp_def]
    split <;> rfl
  cases hf : m.find? (fun entry => entry.1 = r.id) <;> cases hm : r.teamMember <;>
    simp [hupd]

theorem find_entry_iff (m : List (Int × models.CryptoAsset)) (id : Int) :
    (∃ entry, m.find? (fun entry => entry.1 = id) = some entry)
      ↔ id ∈ m.map fun entry => entry.1 := by
  constructor
  · rintro ⟨entry, h⟩
    have h1 := List.find?_some h
    have h2 := List.mem_of_find?_eq_some h
    exact List.mem_map.mpr ⟨entry, h2, by simpa using h1⟩
  · intro h
    cases hf : m.find? (fun entry => entry.1 = id) with
    | some entry => exact ⟨entry, rfl⟩
    | none =>
      rw [List.find?_eq_none] at hf
      obtain ⟨entry, hentry, hid⟩ := List.mem_map.mp h
      exact absurd (by simpa using hid) (hf entry hentry)

/-- The loop invariant of `Select`: after the rows read so far, the map has one entry per
identifier seen, and the record of each identifier is the specified one. -/
theorem selectStep_invariant (rows : List Row) (m : List (Int × models.CryptoAsset)) (r : Row)
    (h1 : (m.map fun entry => entry.1).Nodup)
    (h2 : ∀ id, id ∈ m.map (fun entry => entry.1) ↔ id ∈ rows.map fun row => row.id)
    (h3 : ∀ entry ∈ m, entry.2 = Spec.selectRecord rows entry.1) :
    ((selectStep m r).map fun entry => entry.1).Nodup ∧
      (∀ id, id ∈ (selectStep m r).map (fun entry => entry.1)
        ↔ id ∈ (rows ++ [r]).map fun row => row.id) ∧
      ∀ entry ∈ selectStep m r, entry.2 = Spec.selectRecord (rows ++ [r]) entry.1 := by
  have hkeys := selectStep_keys m r
  have hold : ∀ entry ∈ m, entry.1 ≠ r.id →
      entry.2 = Spec.selectRecord (rows ++ [r]) entry.1 := by
    intro entry hentry hne
    rw [selectRecord_append_other rows r entry.1
      ((h2 entry.1).mp (List.mem_map.mpr ⟨entry, hentry, rfl⟩)) (fun hc => hne hc.symm)]
    exact h3 entry hentry
  cases hf : m.find? (fun entry => entry.1 = r.id) with
  | some found =>
    have hmem : r.id ∈ rows.map fun row => row.id :=
      (h2 r.id).mp ((find_entry_iff m r.id).mp ⟨found, hf⟩)
    rw [hf] at hkeys
    simp only at hkeys
    refine ⟨by rw [hkeys]; exact h1, fun id => ?_, fun entry hentry => ?_⟩
    · rw [hkeys, h2 id]
      simp only [List.map_append, List.map_cons, List.map_nil, List.mem_append,
        List.mem_singleton]
      constructor
      · exact Or.inl
      · rintro (h | h)
        · exact h
        · rw [h]; exact hmem
    · unfold selectStep at hentry
      simp only [hf] at hentry
      cases hm : r.teamMember with
      | none =>
        simp only [hm] at hentry
        by_cases hid : entry.1 = r.id
        · rw [hid, selectRecord_append_same_none rows r hmem hm, ← hid]
          exact h3 entry hentry
        · exact hold entry hentry hid
      | some member =>
        simp only [hm] at hentry
        obtain ⟨old, hold1, hold2⟩ := List.mem_map.mp hentry
        by_cases hid : old.1 = r.id
        · simp only [hid, if_true] at hold2
          rw [← hold2]
          simp only
          rw [selectRecord_append_same_some rows r member hmem hm, ← hid, ← h3 old hold1]
        · simp only [hid, if_false] at hold2
          rw [← hold2]
          exact hold old hold1 hid
  | none =>
    have hnot : r.id ∉ rows.map fun row => row.id := by
      intro hc
      obtain ⟨found, hfound⟩ := (find_entry_iff m r.id).mpr ((h2 r.id).mpr hc)
      rw [hf] at hfound
      exact absurd hfound (by simp)
    have hnotm : r.id ∉ m.map fun entry => entry.1 := fun hc => hnot ((h2 r.id).mp hc)
    rw [hf] at hkeys
    simp only at hkeys
    refine ⟨?_, fun id => ?_, fun entry hentry => ?_⟩
    · rw [hkeys]
      exact List.Nodup.append h1 (List.nodup_singleton _)
        (by
          intro a ha hb
          rw [List.mem_singleton] at hb
          exact hnotm (hb ▸ ha))
    · rw [hkeys]
      simp only [List.map_append, List.map_cons, List.map_nil, List.mem_append,
        List.mem_singleton, h2 id]
    · unfold selectStep at hentry
      simp only [hf] at hentry
      cases hm : r.teamMember with
      | none =>
        simp only [hm] at hentry
        rcases List.mem_append.mp hentry with hentry | hentry
        · have hid : entry.1 ≠ r.id := fun hc =>
            hnotm (hc ▸ List.mem_map.mpr ⟨entry, hentry, rfl⟩)
          exact hold entry hentry hid
        · rw [List.mem_singleton] at hentry
          rw [hentry]
          exact (selectRecord_append_new_none rows r hnot hm).symm
      | some member =>
        simp only [hm] at hentry
        obtain ⟨old, hold1, hold2⟩ := List.mem_map.mp hentry
        rcases List.mem_append.mp hold1 with hold1 | hold1
        · have hid : old.1 ≠ r.id := fun hc =>
            hnotm (hc ▸ List.mem_map.mpr ⟨old, hold1, rfl⟩)
          simp only [hid, if_false] at hold2
          rw [← hold2]
          exact hold old hold1 hid
        · rw [List.mem_singleton] at hold1
          rw [hold1] at hold2
          simp only [if_true] at hold2
          rw [← hold2]
          exact (selectRecord_append_new_some rows r member hnot hm).symm

theorem scanRows_ok (rows : List Row) (m : List (Int × models.CryptoAsset)) :
    scanRows m (rows.map Except.ok) = Except.ok (rows.foldl selectStep m) := by
  induction rows generalizing m with
  | nil => rfl
  | cons r rest ih => simp only [List.map_cons, scanRows, List.foldl_cons, ih]

theorem foldl_selectStep_invariant (rows : List Row) :
    ((rows.foldl selectStep []).map fun entry => entry.1).Nodup ∧
      (∀ id, id ∈ (rows.foldl selectStep []).map (fun entry => entry.1)
        ↔ id ∈ rows.map fun row => row.id) ∧
      ∀ entry ∈ rows.foldl selectStep [], entry.2 = Spec.selectRecord rows entry.1 := by
  induction rows using List.reverseRecOn with
  | nil => simp
  | append_singleton rows r ih =>
    rw [List.foldl_append]
    simp only [List.foldl_cons, List.foldl_nil]
    exact selectStep_invariant rows _ r ih.1 ih.2.1 ih.2.2

/-- The records of the final map are the specified records, up to order. -/
theorem foldl_selectStep_perm (rows : List Row) :
    ((rows.foldl selectStep []).map fun entry => entry.2).Perm (Spec.selectRecords rows) := by
  obtain ⟨h1, h2, h3⟩ := foldl_selectStep_invariant rows
  have hvalues : (rows.foldl selectStep []).map (fun entry => entry.2)
      = ((rows.foldl selectStep []).map fun entry => entry.1).map (Spec.selectRecord rows) := by
    rw [List.map_map]
    apply List.map_congr_left
    intro entry hentry
    exact h3 entry hentry
  rw [hvalues]
  unfold Spec.selectRecords
  apply List.Perm.map
  rw [List.perm_ext_iff_of_nodup h1 (List.nodup_dedup _)]
  intro id
  rw [h2 id, List.mem_dedup]

/-- C20: for every sequence of joined rows read by `Select`, the result holds, up to its
unspecified order, exactly one record per distinct identifier occurring in the rows; the
team of that record is the sequence of non-null member names of the rows with that
identifier in row order (a present empty sequence when no row carries a member), and its
scalar fields are those of the first row with that identifier. -/
theorem Select_records (db : Responses) (names symbols fundingStatuses coinTypes : List String)
    (startDate endDate : String) (rows : List Row)
    (hquery : db.Query
        (_createSelectStatement names symbols fundingStatuses coinTypes startDate endDate).sql
        (_createSelectStatement names symbols fundingStatuses coinTypes startDate endDate).args
      = Except.ok (rows.map Except.ok)) :
    ∃ assets,
      (Select db names symbols fundingStatuses coinTypes startDate endDate).2
          = Except.ok assets ∧
        assets.Perm ((rows.map fun row => row.id).dedup.map (Spec.selectRecord rows)) ∧
        assets.length = (rows.map fun row => row.id).dedup.length := by
  refine ⟨(rows.foldl selectStep []).map fun entry => entry.2, ?_, foldl_selectStep_perm rows,
    ?_⟩
  · unfold Select
    simp only [hquery, scanRows_ok]
  · have := (foldl_selectStep_perm rows).length_eq
    simpa [Spec.selectRecords] using this

/-- Witness of C20: five joined rows of one identifier collapse to one record with a
five-element team; one row with the null member marker gives a present empty team. -/
theorem Select_records_witness :
    (∃ assets, (Select Sample.fiveRowStore [] [] [] [] "" "").2 = Except.ok assets ∧
        assets.Perm
          ((Sample.fiveRows.map fun row => row.id).dedup.map
            (Spec.selectRecord Sample.fiveRows)) ∧
        assets.length = (Sample.fiveRows.map fun row => row.id).dedup.length) ∧
      (Sample.fiveRows.map fun row => row.id).dedup.length = 1 ∧
      (Spec.selectRecord Sample.fiveRows 1).Team
        = some ["Satoshi Nakomoto", "Hal Finney", "Nick Szabo", "Wei Dai", "Adam Back"] ∧
      (Spec.selectRecord [Sample.bitcoinRow none] 1).Team = some [] ∧
      (Spec.selectRecord Sample.fiveRows 1).Name = some "bitcoin" :=
  ⟨Select_records Sample.fiveRowStore [] [] [] [] "" "" Sample.fiveRows rfl,
    by decide, by decide, by decide, by decide⟩

end database

/-! ### The register handler: the team must be present -/

namespace server

/-- C21: the register handler answers every successfully parsed record whose team is absent
(the nil slice, which the decoder leaves for a body with `null` or without the key `team`)
with status 400 and the error `team cannot be null` and makes no call: neither Normalize nor
the Insert of the store.  On a record whose team is present, in particular the empty
sequence of the body `team: []`, it does not return there: it calls Normalize on the record
and, when Normalize succeeds, Insert on the normalized record. -/
theorem register_null_team (T : unicode.Tables) (now : time.Time) (DB : database.Interface)
    (cryptoAsset : models.CryptoAsset) :
    (cryptoAsset.Team = none →
      register T now DB (Except.ok cryptoAsset)
        = ([], database.Outcome.returned
            { code := 400, body := [("error", "team cannot be null")] })) ∧
    (∀ team, cryptoAsset.Team = some team →
      (register T now DB (Except.ok cryptoAsset)).1
        = if (cryptoAsset.Normalize T now).err.isSome then [Call.Normalize cryptoAsset]
          else [Call.Normalize cryptoAsset, Call.Insert (cryptoAsset.Normalize T now).asset]) := by
  constructor
  · intro h
    simp only [register, h, Option.isNone_none, if_true]
    rfl
  · intro team h
    simp only [register, h, Option.isNone_some, Bool.false_eq_true, if_false]
    cases herr : (cryptoAsset.Normalize T now).err with
    | some errString => simp
    | none =>
      simp only [Option.isSome_none, Bool.false_eq_true, if_false]
      cases hins : DB.Insert (cryptoAsset.Normalize T now).asset with
      | panicked => rfl
      | returned value =>
        obtain ⟨id, err⟩ := value
        cases err <;> rfl

/-- C21 at the body of the test `testNull` (an empty object) and at a record with the empty
team: the first is answered with 400 and `team cannot be null` without any call, the second
is normalized and inserted and answered with 200 and the identifier. -/
theorem register_null_team_witness :
    register unicode.asciiTables Sample.now Sample.mockDatabase (Except.ok {})
        = ([], database.Outcome.returned
            { code := 400, body := [("error", "team cannot be null")] }) ∧
      (register unicode.asciiTables Sample.now Sample.mockDatabase
          (Except.ok { Team := some [] })).1
        = [Call.Normalize { Team := some [] }, Call.Insert { Team := some [] }] ∧
      (register unicode.asciiTables Sample.now Sample.mockDatabase
          (Except.ok { Team := some [] })).2
        = database.Outcome.returned { code := 200, body := [("id", "7")] } :=
  ⟨(register_null_team unicode.asciiTables Sample.now Sample.mockDatabase {}).1 rfl,
    ((register_null_team unicode.asciiTables Sample.now Sample.mockDatabase
      { Team := some [] }).2 [] rfl).trans (by decide),
    by decide⟩

end server

/-! ### capitalize on a text of several words -/

namespace models

/-- C22: `capitalize` on the two-word name `bitcoin cash` gives `Bitcoin Cash`:
`strings.Title` title-cases the first letter of every word.  The lower-cased text with only
its first letter changed to upper case is `Bitcoin cash`, which is what the doc comment of
`capitalize` describes, so the two differ; so does Format on a stored record with that name.
On the one-word name `bitcoin` of the test both give `Bitcoin`. -/
theorem capitalize_every_word (T : unicode.Tables) :
    capitalize T "bitcoin cash" = "Bitcoin Cash" ∧
      Spec.capitalizeFirst T "bitcoin cash" = "Bitcoin cash" ∧
      capitalize T "bitcoin cash" ≠ Spec.capitalizeFirst T "bitcoin cash" ∧
      (Sample.stored.Format T).Name = some "Bitcoin Cash" ∧
      capitalize T "bitcoin" = "Bitcoin" ∧
      Spec.capitalizeFirst T "bitcoin" = "Bitcoin" := by
  have h1 : capitalize T "bitcoin cash" = "Bitcoin Cash" := rfl
  have h2 : Spec.capitalizeFirst T "bitcoin cash" = "Bitcoin cash" := rfl
  refine ⟨h1, h2, ?_, rfl, rfl, rfl⟩
  rw [h1, h2]
  decide

end models

/-! ### Dates: the order of the texts is the order of the days -/

namespace time

/-- A digit rune is `0` plus its value, and the value is at most nine. -/
theorem isDigit_toNat (c : Char) (h : isDigit c = true) :
    c.toNat = 48 + digitVal c ∧ digitVal c ≤ 9 := by
  simp only [isDigit, Bool.and_eq_true, decide_eq_true_eq] at h
  have h0 : '0'.toNat = 48 := rfl
  have h9 : '9'.toNat = 57 := rfl
  rw [h0, h9] at h
  unfold digitVal
  rw [h0]
  omega

/-- What a successful `Parse` says about its text: ten runes, the digits of year, month and
day around two hyphens, a month from 1 to 12 and a day of that month. -/
theorem Parse_some (d : String) (t : Time) (h : Parse d = some t) :
    ∃ y1 y2 y3 y4 m1 m2 d1 d2 : Char,
      d.data = [y1, y2, y3, y4, '-', m1, m2, '-', d1, d2] ∧
      isDigit y1 = true ∧ isDigit y2 = true ∧ isDigit y3 = true ∧ isDigit y4 = true ∧
      isDigit m1 = true ∧ isDigit m2 = true ∧ isDigit d1 = true ∧ isDigit d2 = true ∧
      1 ≤ digitVal m1 * 10 + digitVal m2 ∧ digitVal m1 * 10 + digitVal m2 ≤ 12 ∧
      1 ≤ digitVal d1 * 10 + digitVal d2 ∧
      digitVal d1 * 10 + digitVal d2
        ≤ daysIn (digitVal m1 * 10 + digitVal m2)
            (digitVal y1 * 1000 + digitVal y2 * 100 + digitVal y3 * 10 + digitVal y4) ∧
      t = Date (digitVal y1 * 1000 + digitVal y2 * 100 + digitVal y3 * 10 + digitVal y4)
            (digitVal m1 * 10 + digitVal m2) (digitVal d1 * 10 + digitVal d2) := by
  unfold Parse at h
  split at h
  · rename_i y1 y2 y3 y4 s1 m1 m2 s2 d1 d2 hdata
    refine ⟨y1, y2, y3, y4, m1, m2, d1, d2, ?_⟩
    split at h
    · rename_i hfmt
      simp only [Bool.and_eq_true, decide_eq_true_eq] at hfmt
      obtain ⟨⟨⟨⟨⟨⟨⟨⟨⟨hy1, hy2⟩, hy3⟩, hy4⟩, hs1⟩, hm1⟩, hm2⟩, hs2⟩, hd1⟩, hd2⟩ := hfmt
      subst hs1 hs2
      simp only at h
      split at h
      · exact absurd h (by simp)
      · split at h
        · exact absurd h (by simp)
        · rename_i hmonth hday
          simp only [Option.some.injEq] at h
          refine ⟨hdata, hy1, hy2, hy3, hy4, hm1, hm2, hd1, hd2, ?_, ?_, ?_, ?_, h.symm⟩
            <;> omega
    · exact absurd h (by simp)
  · exact absurd h (by simp)

theorem isLeap_iff (y : Nat) :
    isLeap y = true ↔ y % 4 = 0 ∧ (y % 100 ≠ 0 ∨ y % 400 = 0) := by
  simp [isLeap]

/-- The days before a year grow by the length of the year. -/
theorem daysBeforeYear_succ (y : Nat) :
    daysBeforeYear (y + 1) = daysBeforeYear y + 365 + (if isLeap y = true then 1 else 0) := by
  have e4 : (y + 1 + 3) / 4 = (y + 3) / 4 + (if y % 4 = 0 then 1 else 0) := by
    split_ifs <;> omega
  have e100 : (y + 1 + 99) / 100 = (y + 99) / 100 + (if y % 100 = 0 then 1 else 0) := by
    split_ifs <;> omega
  have e400 : (y + 1 + 399) / 400 = (y + 399) / 400 + (if y % 400 = 0 then 1 else 0) := by
    split_ifs <;> omega
  have hle : (y + 99) / 100 ≤ (y + 3) / 4 := by omega
  have h1 : y % 100 = 0 → y % 4 = 0 := by omega
  have h2 : y % 400 = 0 → y % 100 = 0 := by omega
  unfold daysBeforeYear
  rw [e4, e100, e400]
  generalize (y + 3) / 4 = a at hle ⊢
  generalize (y + 99) / 100 = b at hle ⊢
  generalize (y + 399) / 400 = c
  by_cases hl : isLeap y = true
  · rw [if_pos hl]
    rw [isLeap_iff] at hl
    split_ifs <;> omega
  · rw [if_neg hl]
    rw [isLeap_iff] at hl
    split_ifs <;> omega

/-- A later year starts after the whole of an earlier year. -/
theorem daysBeforeYear_lt (y z : Nat) (h : y < z) :
    daysBeforeYear y + 365 + (if isLeap y = true then 1 else 0) ≤ daysBeforeYear z := by
  induction z with
  | zero => omega
  | succ z ih =>
    rw [daysBeforeYear_succ z]
    by_cases hyz : y = z
    · subst hyz
      omega
    · have := ih (by omega)
      omega

/-- The months of a year: the days before each month and its length, with `l` the leap day
of the year. -/
theorem month_table (y m : Nat) (hm1 : 1 ≤ m) (hm2 : m ≤ 12) :
    ∃ c n l : Nat, l = (if isLeap y = true then 1 else 0) ∧
      daysBefore (m - 1) + (if m > 2 ∧ isLeap y = true then 1 else 0) = c ∧ daysIn m y = n ∧
      ((m = 1 ∧ c = 0 ∧ n = 31) ∨ (m = 2 ∧ c = 31 ∧ n = 28 + l) ∨
        (m = 3 ∧ c = 59 + l ∧ n = 31) ∨ (m = 4 ∧ c = 90 + l ∧ n = 30) ∨
        (m = 5 ∧ c = 120 + l ∧ n = 31) ∨ (m = 6 ∧ c = 151 + l ∧ n = 30) ∨
        (m = 7 ∧ c = 181 + l ∧ n = 31) ∨ (m = 8 ∧ c = 212 + l ∧ n = 31) ∨
        (m = 9 ∧ c = 243 + l ∧ n = 30) ∨ (m = 10 ∧ c = 273 + l ∧ n = 31) ∨
        (m = 11 ∧ c = 304 + l ∧ n = 30) ∨ (m = 12 ∧ c = 334 + l ∧ n = 31)) := by
  refine ⟨_, _, _, rfl, rfl, rfl, ?_⟩
  by_cases hl : isLeap y = true <;> interval_cases m <;> simp [hl, daysIn, daysBefore]

/-- The day of the year of a date, counted from 0 as `Date` adds it up, lies in the year. -/
theorem dayOfYear_lt (y m d : Nat) (hm1 : 1 ≤ m) (hm2 : m ≤ 12) (hd1 : 1 ≤ d)
    (hd2 : d ≤ daysIn m y) :
    daysBefore (m - 1) + (if m > 2 ∧ isLeap y = true then 1 else 0) + (d - 1)
      < 365 + (if isLeap y = true then 1 else 0) := by
  obtain ⟨c, n, l, hl, hc, hn, h⟩ := month_table y m hm1 hm2
  rw [hc, ← hl]
  rw [hn] at hd2
  have : l ≤ 1 := by rw [hl]; split_ifs <;> omega
  omega

/-- Within a year the order of (month, day) is the order of the days of the year. -/
theorem dayOfYear_le_iff (y m d m' d' : Nat) (hm1 : 1 ≤ m) (hm2 : m ≤ 12) (hd1 : 1 ≤ d)
    (hd2 : d ≤ daysIn m y) (hm1' : 1 ≤ m') (hm2' : m' ≤ 12) (hd1' : 1 ≤ d')
    (hd2' : d' ≤ daysIn m' y) :
    m * 100 + d ≤ m' * 100 + d' ↔
      daysBefore (m - 1) + (if m > 2 ∧ isLeap y = true then 1 else 0) + (d - 1)
        ≤ daysBefore (m' - 1) + (if m' > 2 ∧ isLeap y = true then 1 else 0) + (d' - 1) := by
  obtain ⟨c, n, l, hl, hc, hn, h⟩ := month_table y m hm1 hm2
  obtain ⟨c', n', l', hl', hc', hn', h'⟩ := month_table y m' hm1' hm2'
  rw [hc, hc']
  rw [hn] at hd2
  rw [hn'] at hd2'
  have hll : l' = l := by rw [hl, hl']
  subst hll
  have : l' ≤ 1 := by rw [hl']; split_ifs <;> omega
  clear hl hl' hc hc' hn hn'
  rcases h with h | h | h | h | h | h | h | h | h | h | h | h <;>
    rcases h' with h' | h' | h' | h' | h' | h' | h' | h' | h' | h' | h' | h' <;> omega

/-- The order of the triples (year, month, day) of two dates is the order of their days
since the year 0. -/
theorem days_le_iff (y m d y' m' d' : Nat) (hm1 : 1 ≤ m) (hm2 : m ≤ 12) (hd1 : 1 ≤ d)
    (hd2 : d ≤ daysIn m y) (hm1' : 1 ≤ m') (hm2' : m' ≤ 12) (hd1' : 1 ≤ d')
    (hd2' : d' ≤ daysIn m' y') :
    y * 10000 + m * 100 + d ≤ y' * 10000 + m' * 100 + d' ↔
      daysBeforeYear y + daysBefore (m - 1) + (if m > 2 ∧ isLeap y = true then 1 else 0)
          + (d - 1)
        ≤ daysBeforeYear y' + daysBefore (m' - 1)
          + (if m' > 2 ∧ isLeap y' = true then 1 else 0) + (d' - 1) := by
  have hin := dayOfYear_lt y m d hm1 hm2 hd1 hd2
  have hin' := dayOfYear_lt y' m' d' hm1' hm2' hd1' hd2'
  have hd31 : d ≤ 31 := by
    obtain ⟨c, n, l, hl, -, hn, h⟩ := month_table y m hm1 hm2
    have : l ≤ 1 := by rw [hl]; split_ifs <;> omega
    omega
  have hd31' : d' ≤ 31 := by
    obtain ⟨c, n, l, hl, -, hn, h⟩ := month_table y' m' hm1' hm2'
    have : l ≤ 1 := by rw [hl]; split_ifs <;> omega
    omega
  rcases Nat.lt_trichotomy y y' with hlt | heq | hgt
  · have := daysBeforeYear_lt y y' hlt
    constructor <;> intro _ <;> omega
  · subst heq
    have := dayOfYear_le_iff y m d m' d' hm1 hm2 hd1 hd2 hm1' hm2' hd1' hd2'
    omega
  · have := daysBeforeYear_lt y' y hgt
    constructor <;> intro _ <;> omega

/-- On valid dates `After` is the strict order of the triples (year, month, day). -/
theorem Date_After_eq_false_iff (y m d y' m' d' : Nat) (hm1 : 1 ≤ m) (hm2 : m ≤ 12)
    (hd1 : 1 ≤ d) (hd2 : d ≤ daysIn m y) (hm1' : 1 ≤ m') (hm2' : m' ≤ 12) (hd1' : 1 ≤ d')
    (hd2' : d' ≤ daysIn m' y') :
    (Date y m d).After (Date y' m' d') = false ↔
      y * 10000 + m * 100 + d ≤ y' * 10000 + m' * 100 + d' := by
  rw [days_le_iff y m d y' m' d' hm1 hm2 hd1 hd2 hm1' hm2' hd1' hd2']
  simp only [Time.After, Date, Bool.or_eq_false_iff, decide_eq_false_iff_not,
    Bool.and_eq_false_iff, gt_iff_lt, lt_irrefl, not_false_eq_true, or_true, and_true, not_lt]
  generalize daysBeforeYear y = a
  generalize daysBeforeYear y' = a'
  generalize daysBefore (m - 1) = b
  generalize daysBefore (m' - 1) = b'
  generalize (if m > 2 ∧ isLeap y = true then 1 else 0 : Nat) = c
  generalize (if m' > 2 ∧ isLeap y' = true then 1 else 0 : Nat) = c'
  omega

end time

namespace sqlite3

theorem textLE_cons_iff (a b : Char) (as bs : List Char) :
    textLE (a :: as) (b :: bs) = true ↔
      a.toNat < b.toNat ∨ (a.toNat = b.toNat ∧ textLE as bs = true) := by
  rw [textLE]
  by_cases h1 : a.toNat < b.toNat
  · simp [h1]
  · by_cases h2 : b.toNat < a.toNat
    · have h3 : a.toNat ≠ b.toNat := by omega
      simp [h1, h2, h3]
    · have h3 : a.toNat = b.toNat := by omega
      simp [h3]

/-- On two texts of the form of a date the order of the texts is the order of the triples
(year, month, day). -/
theorem textLE_date (y1 y2 y3 y4 m1 m2 d1 d2 z1 z2 z3 z4 n1 n2 e1 e2 : Char)
    (hy1 : time.isDigit y1 = true) (hy2 : time.isDigit y2 = true)
    (hy3 : time.isDigit y3 = true) (hy4 : time.isDigit y4 = true)
    (hm1 : time.isDigit m1 = true) (hm2 : time.isDigit m2 = true)
    (hd1 : time.isDigit d1 = true) (hd2 : time.isDigit d2 = true)
    (hz1 : time.isDigit z1 = true) (hz2 : time.isDigit z2 = true)
    (hz3 : time.isDigit z3 = true) (hz4 : time.isDigit z4 = true)
    (hn1 : time.isDigit n1 = true) (hn2 : time.isDigit n2 = true)
    (he1 : time.isDigit e1 = true) (he2 : time.isDigit e2 = true) :
    textLE [y1, y2, y3, y4, '-', m1, m2, '-', d1, d2] [z1, z2, z3, z4, '-', n1, n2, '-', e1, e2]
        = true ↔
      (time.digitVal y1 * 1000 + time.digitVal y2 * 100 + time.digitVal y3 * 10
            + time.digitVal y4) * 10000
          + (time.digitVal m1 * 10 + time.digitVal m2) * 100
          + (time.digitVal d1 * 10 + time.digitVal d2)
        ≤ (time.digitVal z1 * 1000 + time.digitVal z2 * 100 + time.digitVal z3 * 10
              + time.digitVal z4) * 10000
            + (time.digitVal n1 * 10 + time.digitVal n2) * 100
            + (time.digitVal e1 * 10 + time.digitVal e2) := by
  have ty1 := time.isDigit_toNat y1 hy1
  have ty2 := time.isDigit_toNat y2 hy2
  have ty3 := time.isDigit_toNat y3 hy3
  have ty4 := time.isDigit_toNat y4 hy4
  have tm1 := time.isDigit_toNat m1 hm1
  have tm2 := time.isDigit_toNat m2 hm2
  have td1 := time.isDigit_toNat d1 hd1
  have td2 := time.isDigit_toNat d2 hd2
  have tz1 := time.isDigit_toNat z1 hz1
  have tz2 := time.isDigit_toNat z2 hz2
  have tz3 := time.isDigit_toNat z3 hz3
  have tz4 := time.isDigit_toNat z4 hz4
  have tn1 := time.isDigit_toNat n1 hn1
  have tn2 := time.isDigit_toNat n2 hn2
  have te1 := time.isDigit_toNat e1 he1
  have te2 := time.isDigit_toNat e2 he2
  have hnil : textLE [] [] = true := rfl
  simp only [textLE_cons_iff, hnil, and_true, lt_irrefl, false_or, true_and]
  rw [ty1.1, ty2.1, ty3.1, ty4.1, tm1.1, tm2.1, td1.1, td2.1, tz1.1, tz2.1, tz3.1, tz4.1,
    tn1.1, tn2.1, te1.1, te2.1]
  omega

/-- C23: the lexical comparison of texts that the date clauses of the search leave to SQLite
agrees with the order of the calendar on validated dates: for any two texts `d1` and `d2`
that `time.Parse` accepts in the layout `2006-01-02`, `d1 <= d2` as texts if and only if the
date of `d1` is not after the date of `d2`. -/
theorem textLE_iff_not_After (d1 d2 : String) (t1 t2 : time.Time)
    (h1 : time.Parse d1 = some t1) (h2 : time.Parse d2 = some t2) :
    textLE d1.data d2.data = true ↔ t1.After t2 = false := by
  obtain ⟨y1, y2, y3, y4, m1, m2, e1, e2, hdata, hy1, hy2, hy3, hy4, hm1, hm2, he1, he2,
    hmlo, hmhi, hdlo, hdhi, ht⟩ := time.Parse_some d1 t1 h1
  obtain ⟨z1, z2, z3, z4, n1, n2, f1, f2, hdata', hz1, hz2, hz3, hz4, hn1, hn2, hf1, hf2,
    hmlo', hmhi', hdlo', hdhi', ht'⟩ := time.Parse_some d2 t2 h2
  rw [hdata, hdata', ht, ht',
    textLE_date y1 y2 y3 y4 m1 m2 e1 e2 z1 z2 z3 z4 n1 n2 f1 f2 hy1 hy2 hy3 hy4 hm1 hm2 he1
      he2 hz1 hz2 hz3 hz4 hn1 hn2 hf1 hf2,
    time.Date_After_eq_false_iff _ _ _ _ _ _ hmlo hmhi hdlo hdhi hmlo' hmhi' hdlo' hdhi']

/-- C23 at the bounds of the search of the specification, 2009-01-03 and 2018-01-18, in
both directions, and at a leap day against the first of March. -/
theorem textLE_iff_not_After_witness :
    (textLE "2009-01-03".data "2018-01-18".data = true ↔
        (time.Date 2009 1 3).After (time.Date 2018 1 18) = false) ∧
      textLE "2009-01-03".data "2018-01-18".data = true ∧
      (textLE "2018-01-18".data "2009-01-03".data = true ↔
        (time.Date 2018 1 18).After (time.Date 2009 1 3) = false) ∧
      textLE "2018-01-18".data "2009-01-03".data = false ∧
      (textLE "2016-02-29".data "2016-03-01".data = true ↔
        (time.Date 2016 2 29).After (time.Date 2016 3 1) = false) :=
  ⟨textLE_iff_not_After "2009-01-03" "2018-01-18" _ _ rfl rfl, by decide,
    textLE_iff_not_After "2018-01-18" "2009-01-03" _ _ rfl rfl, by decide,
    textLE_iff_not_After "2016-02-29" "2016-03-01" _ _ rfl rfl⟩

end sqlite3

/-! ### Normalize in the update handler: the reasons of failure -/

namespace models

/-- C24 as stated fails: a record whose id is present and converts to an int and whose
foundedDate is absent is rejected for its negative icoAmount (-1.5), and one whose
foundedDate `9999-12-31` is in the form YYYY-MM-DD is rejected because the date lies after
the current time. -/
theorem Normalize_update_counterexample :
    strconv.Atoi "1" = some 1 ∧
      (({ ID := some "1", ICOAmount := some ⟨0xBFF8000000000000⟩ } : CryptoAsset).Normalize
        unicode.asciiTables Sample.now).err = some "ICO amount cannot be negative" ∧
      time.Parse "9999-12-31" = some (time.Date 9999 12 31) ∧
      (({ ID := some "1", FoundedDate := some "9999-12-31" } : CryptoAsset).Normalize
        unicode.asciiTables Sample.now).err
        = some "date must be an ISO-8601 date in the past" := by
  decide

/-- C24 (amended): in the update handler, where the id is present, normalization fails only
if the id cannot be converted to an int, the icoAmount or the blockReward is negative, or the
trimmed foundedDate is not a date in the form YYYY-MM-DD or lies after the current time: for
every record whose id is present and converts to an int, whose icoAmount and blockReward are
absent or not negative, and whose foundedDate is absent or, once trimmed, a date in the form
YYYY-MM-DD that is not after the current time, Normalize succeeds and returns the converted
id. -/
theorem Normalize_update_succeeds (T : unicode.Tables) (now : time.Time) (asset : CryptoAsset)
    (s : String) (id : Int) (hid : asset.ID = some s) (hconv : strconv.Atoi s = some id)
    (hico : ∀ x, asset.ICOAmount = some x → x.ltZero = false)
    (hbr : ∀ y, asset.BlockReward = some y → y.ltZero = false)
    (hfd : ∀ raw, asset.FoundedDate = some raw →
      ∃ date, time.Parse (strings.TrimSpace raw) = some date ∧ date.After now = false) :
    (asset.Normalize T now).err = none ∧ (asset.Normalize T now).id = id := by
  have hok : parseID asset = Except.ok id := by
    simp [parseID, hid, hconv]
  have hico' : isNegative asset.ICOAmount = false := by
    cases hx : asset.ICOAmount with
    | none => rfl
    | some x => simpa [isNegative] using hico x hx
  have hbr' : isNegative asset.BlockReward = false := by
    cases hy : asset.BlockReward with
    | none => rfl
    | some y => simpa [isNegative] using hbr y hy
  cases hraw : asset.FoundedDate with
  | none =>
    rw [Normalize_of_no_date T now asset id hok hico' hbr' hraw]
    exact ⟨rfl, rfl⟩
  | some raw =>
    obtain ⟨date, hp, ha⟩ := hfd raw hraw
    rw [Normalize_of_good_date T now asset id raw date hok hico' hbr' hraw hp ha]
    exact ⟨rfl, rfl⟩

/-- C24 (amended) on an update of the id 42 with an icoAmount of 0 and the founded date
`2009-01-03`: Normalize succeeds and returns 42. -/
theorem Normalize_update_succeeds_witness :
    (({ ID := some "42", ICOAmount := some ⟨0⟩, FoundedDate := some " 2009-01-03 " }
        : CryptoAsset).Normalize unicode.asciiTables Sample.now).err = none ∧
      (({ ID := some "42", ICOAmount := some ⟨0⟩, FoundedDate := some " 2009-01-03 " }
        : CryptoAsset).Normalize unicode.asciiTables Sample.now).id = 42 :=
  Normalize_update_succeeds unicode.asciiTables Sample.now
    { ID := some "42", ICOAmount := some ⟨0⟩, FoundedDate := some " 2009-01-03 " } "42" 42 rfl
    (by decide) (fun x hx => by cases hx; decide) (fun y hy => by cases hy)
    (fun raw hraw => by
      cases hraw
      exact ⟨time.Date 2009 1 3, by decide, by decide⟩)

end models

/-! ### splitQueryArray -/

namespace strings

theorem splitLoop_ne_nil (sep : Char) (s piece : List Char) : splitLoop sep piece s ≠ [] := by
  induction s generalizing piece with
  | nil => simp [splitLoop]
  | cons c cs ih =>
    unfold splitLoop
    split_ifs
    · simp
    · exact ih _

theorem intercalate_cons_of_ne_nil {α : Type} (sep p : List α) (ps : List (List α))
    (h : ps ≠ []) : sep.intercalate (p :: ps) = p ++ sep ++ sep.intercalate ps := by
  cases ps with
  | nil => exact absurd rfl h
  | cons q qs => simp [List.intercalate, List.intersperse]

/-- Joining the pieces with the separator gives the text back. -/
theorem splitLoop_intercalate (sep : Char) (s piece : List Char) :
    [sep].intercalate (splitLoop sep piece s) = piece ++ s := by
  induction s generalizing piece with
  | nil => simp [splitLoop, List.intercalate]
  | cons c cs ih =>
    unfold splitLoop
    split_ifs with hc
    · rw [intercalate_cons_of_ne_nil _ _ _ (splitLoop_ne_nil sep cs []), ih, hc]
      simp
    · rw [ih]
      simp

/-- No piece holds the separator. -/
theorem splitLoop_not_mem (sep : Char) (s piece : List Char) (hp : sep ∉ piece) :
    ∀ p ∈ splitLoop sep piece s, sep ∉ p := by
  induction s generalizing piece with
  | nil => simpa [splitLoop] using hp
  | cons c cs ih =>
    unfold splitLoop
    split_ifs with hc
    · intro p hmem
      rcases List.mem_cons.mp hmem with rfl | hmem
      · exact hp
      · exact ih [] (by simp) p hmem
    · refine ih _ ?_
      simp only [List.mem_append, List.mem_singleton, not_or]
      exact ⟨hp, fun h => hc h.symm⟩

/-- There is one piece more than there are separators. -/
theorem splitLoop_length (sep : Char) (s piece : List Char) :
    (splitLoop sep piece s).length = s.count sep + 1 := by
  induction s generalizing piece with
  | nil => simp [splitLoop]
  | cons c cs ih =>
    unfold splitLoop
    split_ifs with hc
    · simp [ih, hc]
    · rw [ih, List.count_cons_of_ne (Ne.symm hc)]

end strings

namespace server

/-- The pieces of `strings.Split` at the commas are the comma-separated pieces. -/
theorem Split_isCommaPieces (value : String) :
    Spec.IsCommaPieces value (strings.Split value comma) := by
  refine ⟨?_, ?_, ?_⟩
  · simp [strings.Split, strings.splitLoop_ne_nil]
  · intro piece hmem
    simp only [strings.Split, List.mem_map] at hmem
    obtain ⟨p, hp, rfl⟩ := hmem
    exact strings.splitLoop_not_mem comma value.data [] (by simp) p hp
  · have h := strings.splitLoop_intercalate comma value.data []
    simp only [strings.Split, List.map_map]
    have hid : (String.data ∘ String.mk) = id := rfl
    rw [hid, List.map_id]
    simpa [comma] using h

/-- The two loops of `splitQueryArray` append the normalized pieces of all values. -/
theorem splitQueryArray_eq (T : unicode.Tables) (queryArray : List String) :
    splitQueryArray T queryArray
      = ((queryArray.map fun v => strings.Split v comma).flatten).map (util.Normalize T) := by
  have inner : ∀ (pieces : List String) (acc : List String),
      pieces.foldl (fun acc p => acc ++ [util.Normalize T p]) acc
        = acc ++ pieces.map (util.Normalize T) := by
    intro pieces
    induction pieces with
    | nil => simp
    | cons p ps ih => intro acc; simp [ih]
  have hfun : (fun (acc : List String) (v : String) =>
        (strings.Split v comma).foldl (fun acc p => acc ++ [util.Normalize T p]) acc)
      = fun acc v => acc ++ (strings.Split v comma).map (util.Normalize T) := by
    funext acc v
    exact inner _ _
  have outer : ∀ (values : List String) (acc : List String),
      values.foldl (fun acc v => acc ++ (strings.Split v comma).map (util.Normalize T)) acc
        = acc
          ++ ((values.map fun v => strings.Split v comma).flatten).map (util.Normalize T) := by
    intro values
    induction values with
    | nil => simp
    | cons v vs ih => intro acc; simp [ih]
  unfold splitQueryArray
  rw [hfun, outer]
  simp

/-- C25: for every list of query values, `splitQueryArray` returns, in order, the trimmed
lower-cased form of every comma-separated piece of every value; the result has one entry
per piece, its length being the sum over the values of the number of commas plus one, and it
is empty for an empty list of values.  Two values without comma stay two entries, one value
with a comma becomes two entries. -/
theorem splitQueryArray_pieces (T : unicode.Tables) (queryArray : List String) :
    (∃ pieces : List (List String),
        List.Forall₂ Spec.IsCommaPieces queryArray pieces ∧
        splitQueryArray T queryArray
          = pieces.flatten.map fun piece => strings.ToLower T (strings.TrimSpace piece)) ∧
      (splitQueryArray T queryArray).length
        = (queryArray.map fun value => value.data.count ',' + 1).sum ∧
      splitQueryArray T [] = [] ∧
      splitQueryArray T ["post-ico", "active-ico"] = ["post-ico", "active-ico"] ∧
      splitQueryArray T ["governance,storage"] = ["governance", "storage"] := by
  refine ⟨⟨queryArray.map fun v => strings.Split v comma, ?_, ?_⟩, ?_, rfl, rfl, rfl⟩
  · rw [List.forall₂_map_right_iff]
    exact List.forall₂_same.mpr fun v _ => Split_isCommaPieces v
  · rw [splitQueryArray_eq]
    rfl
  · rw [splitQueryArray_eq, List.length_map, List.length_flatten, List.map_map]
    congr 1
    refine List.map_congr_left fun v _ => ?_
    simp [strings.Split, strings.splitLoop_length, comma]

end server

/-! ### The select statement: the text does not depend on the values -/

namespace database

theorem placeholders_append (a b : String) :
    Spec.placeholders (a ++ b) = Spec.placeholders a + Spec.placeholders b := by
  simp [Spec.placeholders, String.data_append]

theorem setClause_congr (col : String) (values values' : List String)
    (h : values.length = values'.length) :
    Spec.setClause col values = Spec.setClause col values' := by
  have hmap : ∀ vs : List String,
      (vs.map fun _ => col ++ " = ?") = List.replicate vs.length (col ++ " = ?") := by
    intro vs
    induction vs with
    | nil => rfl
    | cons v vs ih => simp [List.replicate_succ, ih]
  have hempty : values.isEmpty = values'.isEmpty := by
    cases values <;> cases values' <;> simp at h ⊢
  simp only [Spec.setClause, hmap, h, hempty]

theorem dateClause_congr (comparator date date' : String) (h : date = "" ↔ date' = "") :
    Spec.dateClause comparator date = Spec.dateClause comparator date' := by
  unfold Spec.dateClause
  by_cases hd : date = ""
  · rw [if_pos hd, if_pos (h.mp hd)]
  · rw [if_neg hd, if_neg (fun h' => hd (h.mpr h'))]

/-- The placeholders of conditions joined by ` OR `. -/
theorem placeholders_conditions (condition : String) (n : Nat) :
    Spec.placeholders (" OR ".intercalate (List.replicate n condition))
      = n * Spec.placeholders condition := by
  induction n with
  | zero => simp [String.intercalate, Spec.placeholders]
  | succ n ih =>
    rw [intercalate_replicate_succ]
    by_cases hn : n = 0
    · subst hn
      simp
    · rw [if_neg hn, placeholders_append, placeholders_append, ih]
      have : Spec.placeholders " OR " = 0 := by decide
      rw [this]
      ring

/-- The clause of a set of values holds one placeholder per value. -/
theorem placeholders_setClause (col : String) (values : List String)
    (hcol : Spec.placeholders col = 0) :
    ((Spec.setClause col values).map Spec.placeholders).sum = values.length := by
  have hmap : (values.map fun _ => col ++ " = ?")
      = List.replicate values.length (col ++ " = ?") := by
    induction values with
    | nil => rfl
    | cons v vs ih => simp [List.replicate_succ, ih]
  unfold Spec.setClause
  cases values with
  | nil => simp
  | cons v vs =>
    rw [hmap]
    simp only [List.isEmpty_cons, Bool.false_eq_true, if_false, List.map_cons, List.map_nil,
      List.sum_cons, List.sum_nil, placeholders_append, placeholders_conditions, hcol]
    have h1 : Spec.placeholders " (" = 0 := by decide
    have h2 : Spec.placeholders ")" = 0 := by decide
    have h3 : Spec.placeholders " = ?" = 1 := by decide
    rw [h1, h2, h3]
    simp

/-- The clause of a date bound holds a placeholder when the date is not empty. -/
theorem placeholders_dateClause (comparator date : String)
    (hcmp : Spec.placeholders comparator = 0) :
    ((Spec.dateClause comparator date).map Spec.placeholders).sum
      = if date = "" then 0 else 1 := by
  unfold Spec.dateClause
  by_cases hd : date = ""
  · simp [hd]
  · have h1 : Spec.placeholders " foundedDate " = 0 := by decide
    have h2 : Spec.placeholders " ?" = 1 := by decide
    simp [hd, placeholders_append, hcmp, h1, h2]

/-- The keywords add no placeholder to the clauses. -/
theorem placeholders_withKeywords (clauses : List String) :
    Spec.placeholders (Spec.withKeywords clauses) = (clauses.map Spec.placeholders).sum := by
  have hand : Spec.placeholders " AND" = 0 := by decide
  have hwhere : Spec.placeholders " WHERE" = 0 := by decide
  have hjoin : ∀ cs : List String,
      Spec.placeholders (String.join (cs.map fun c => " AND" ++ c))
        = (cs.map Spec.placeholders).sum := by
    intro cs
    induction cs with
    | nil => rfl
    | cons c cs ih =>
      rw [List.map_cons, join_cons, placeholders_append, placeholders_append, ih, hand]
      simp
  cases clauses with
  | nil => rfl
  | cons c cs =>
    simp only [Spec.withKeywords, placeholders_append, hjoin, hwhere, List.map_cons,
      List.sum_cons]
    omega

/-- C26: the SQL text of `_createSelectStatement` depends only on how many values each set
has and on whether each date is empty: two inputs with equal set lengths and dates empty
alike give the same text; the argument list holds exactly the values that the caller
supplied, so that they reach the database through the arguments and not through the text;
and the number of `?` placeholders of the text is the length of the argument list. -/
theorem createSelectStatement_values (names symbols fundingStatuses coinTypes : List String)
    (startDate endDate : String) (names2 symbols2 fundingStatuses2 coinTypes2 : List String)
    (startDate2 endDate2 : String) (hnames : names.length = names2.length)
    (hsymbols : symbols.length = symbols2.length)
    (hstatuses : fundingStatuses.length = fundingStatuses2.length)
    (htypes : coinTypes.length = coinTypes2.length)
    (hstart : startDate = "" ↔ startDate2 = "") (hend : endDate = "" ↔ endDate2 = "") :
    (_createSelectStatement names symbols fundingStatuses coinTypes startDate endDate).sql
        = (_createSelectStatement names2 symbols2 fundingStatuses2 coinTypes2 startDate2
            endDate2).sql ∧
      (∀ a : Arg,
        a ∈ (_createSelectStatement names symbols fundingStatuses coinTypes startDate
            endDate).args ↔
          ∃ v, a = Arg.str v ∧
            Spec.IsSearchValue names symbols fundingStatuses coinTypes startDate endDate v) ∧
      Spec.placeholders
          (_createSelectStatement names symbols fundingStatuses coinTypes startDate endDate).sql
        = (_createSelectStatement names symbols fundingStatuses coinTypes startDate
            endDate).args.length := by
  simp only [createSelectStatement_eq]
  refine ⟨?_, ?_, ?_⟩
  · simp only [Spec.selectSQL, Spec.presentClauses,
      setClause_congr "ca.name" names names2 hnames,
      setClause_congr "symbol" symbols symbols2 hsymbols,
      setClause_congr "fundingStatus" fundingStatuses fundingStatuses2 hstatuses,
      setClause_congr "coinType" coinTypes coinTypes2 htypes,
      dateClause_congr ">=" startDate startDate2 hstart,
      dateClause_congr "<=" endDate endDate2 hend]
  · intro a
    simp only [Spec.selectArgs, Spec.IsSearchValue, List.mem_map, List.mem_append]
    constructor
    · rintro ⟨v, hv, rfl⟩
      refine ⟨v, rfl, ?_⟩
      rcases hv with ((((hv | hv) | hv) | hv) | hv) | hv
      · exact Or.inl hv
      · exact Or.inr (Or.inl hv)
      · exact Or.inr (Or.inr (Or.inl hv))
      · exact Or.inr (Or.inr (Or.inr (Or.inl hv)))
      · by_cases hs : startDate = ""
        · simp [hs] at hv
        · simp only [hs, if_false, List.mem_singleton] at hv
          exact Or.inr (Or.inr (Or.inr (Or.inr (Or.inl ⟨hv, hs⟩))))
      · by_cases he : endDate = ""
        · simp [he] at hv
        · simp only [he, if_false, List.mem_singleton] at hv
          exact Or.inr (Or.inr (Or.inr (Or.inr (Or.inr ⟨hv, he⟩))))
    · rintro ⟨v, rfl, hv⟩
      refine ⟨v, ?_, rfl⟩
      rcases hv with hv | hv | hv | hv | ⟨hv, hs⟩ | ⟨hv, he⟩
      · exact Or.inl (Or.inl (Or.inl (Or.inl (Or.inl hv))))
      · exact Or.inl (Or.inl (Or.inl (Or.inl (Or.inr hv))))
      · exact Or.inl (Or.inl (Or.inl (Or.inr hv)))
      · exact Or.inl (Or.inl (Or.inr hv))
      · exact Or.inl (Or.inr (by simp [hs, hv]))
      · exact Or.inr (by simp [he, hv])
  · have hbase : Spec.placeholders Spec.selectBase = 0 := by decide
    have hsemi : Spec.placeholders ";" = 0 := by decide
    simp only [Spec.selectSQL, placeholders_append, placeholders_withKeywords,
      Spec.presentClauses, List.map_append, List.sum_append,
      placeholders_setClause "ca.name" names (by decide),
      placeholders_setClause "symbol" symbols (by decide),
      placeholders_setClause "fundingStatus" fundingStatuses (by decide),
      placeholders_setClause "coinType" coinTypes (by decide),
      placeholders_dateClause ">=" startDate (by decide),
      placeholders_dateClause "<=" endDate (by decide), hbase, hsemi, Spec.selectArgs,
      List.length_map, List.length_append]
    by_cases hs : startDate = "" <;> by_cases he : endDate = "" <;> simp [hs, he]

/-- C26 at the search of the specification and at a search of the same shape whose values
are pieces of SQL: the text is the same, with five placeholders for the five arguments. -/
theorem createSelectStatement_values_witness :
    (_createSelectStatement ["Bitcoin", "Ethereum"] ["BTC"] [] [] "2009-01-03"
          "2018-01-18").sql
        = (_createSelectStatement ["1 OR 1 = 1", "?"] ["); DROP TABLE crypto_asset; --"] [] []
            "x" "WHERE").sql ∧
      Spec.placeholders
          (_createSelectStatement ["Bitcoin", "Ethereum"] ["BTC"] [] [] "2009-01-03"
            "2018-01-18").sql = 5 :=
  ⟨(createSelectStatement_values ["Bitcoin", "Ethereum"] ["BTC"] [] [] "2009-01-03"
      "2018-01-18" ["1 OR 1 = 1", "?"] ["); DROP TABLE crypto_asset; --"] [] [] "x" "WHERE"
      rfl rfl rfl rfl (by decide) (by decide)).1,
    by decide⟩

end database

/-! ### Normalize: what a failure leaves behind -/

namespace models

/-- The message of the id check is none of the three fixed messages. -/
theorem invalid_id_ne (s : String) :
    "invalid id: " ++ s ≠ "ICO amount cannot be negative" ∧
      "invalid id: " ++ s ≠ "block reward cannot be negative" ∧
      "invalid id: " ++ s ≠ "date must be an ISO-8601 date in the past" := by
  have h : ∀ t : String, t.data.head? ≠ some 'i' → "invalid id: " ++ s ≠ t := by
    intro t ht heq
    apply ht
    rw [← heq, String.data_append]
    rfl
  exact ⟨h _ (by decide), h _ (by decide), h _ (by decide)⟩

/-- A failing id block reports the id it could not convert. -/
theorem parseID_error (asset : CryptoAsset) (e : String) (h : parseID asset = Except.error e) :
    ∃ s, asset.ID = some s ∧ e = "invalid id: " ++ s := by
  unfold parseID at h
  cases hid : asset.ID with
  | none => simp [hid] at h
  | some s =>
    rw [hid] at h
    cases ha : strconv.Atoi s with
    | none =>
      simp only [ha, Except.error.injEq] at h
      exact ⟨s, rfl, h.symm⟩
    | some id => simp [ha] at h

/-- The ways `Normalize` ends: at the id check with the record untouched, at an amount check
with name, symbol, description and team rewritten, at the date check with the funding status
rewritten as well, or with success. -/
theorem Normalize_outcome (T : unicode.Tables) (now : time.Time) (asset : CryptoAsset) :
    (∃ s, asset.ID = some s ∧
        asset.Normalize T now
          = { id := -1, err := some ("invalid id: " ++ s), asset := asset }) ∨
      asset.Normalize T now
        = { id := -1, err := some "ICO amount cannot be negative",
            asset := beforeAmounts T asset } ∨
      asset.Normalize T now
        = { id := -1, err := some "block reward cannot be negative",
            asset := beforeAmounts T asset } ∨
      asset.Normalize T now
        = { id := -1, err := some "date must be an ISO-8601 date in the past",
            asset := beforeDate T asset } ∨
      (asset.Normalize T now).err = none := by
  cases hid : parseID asset with
  | error e =>
    obtain ⟨s, hs, rfl⟩ := parseID_error asset e hid
    exact Or.inl ⟨s, hs, Normalize_of_id_error T now asset _ hid⟩
  | ok id =>
    cases hico : isNegative asset.ICOAmount with
    | true => exact Or.inr (Or.inl (Normalize_of_ico_negative T now asset id hid hico))
    | false =>
      cases hbr : isNegative asset.BlockReward with
      | true =>
        exact Or.inr (Or.inr (Or.inl (Normalize_of_reward_negative T now asset id hid hico hbr)))
      | false =>
        cases hfd : asset.FoundedDate with
        | none =>
          refine Or.inr (Or.inr (Or.inr (Or.inr ?_)))
          rw [Normalize_of_no_date T now asset id hid hico hbr hfd]
          rfl
        | some raw =>
          cases hp : time.Parse (strings.TrimSpace raw) with
          | none =>
            exact Or.inr (Or.inr (Or.inr (Or.inl
              (Normalize_of_bad_date T now asset id raw hid hico hbr hfd (Or.inl hp)))))
          | some date =>
            cases ha : date.After now with
            | true =>
              exact Or.inr (Or.inr (Or.inr (Or.inl
                (Normalize_of_bad_date T now asset id raw hid hico hbr hfd
                  (Or.inr ⟨date, hp, ha⟩)))))
            | false =>
              refine Or.inr (Or.inr (Or.inr (Or.inr ?_)))
              rw [Normalize_of_good_date T now asset id raw date hid hico hbr hfd hp ha]
              rfl

/-- C27: Normalize is not atomic on failure.  When it fails at the icoAmount or the
blockReward check, name, symbol, description and team have already been overwritten with
their normalized values and every other field keeps its input value; when it fails at the
foundedDate check, fundingStatus has been overwritten as well, while foundedDate, coinType
and website (and id and the amounts) keep their input values; when it fails at the id check
the record is entirely unchanged.  The message of the error tells the check that failed. -/
theorem Normalize_not_atomic (T : unicode.Tables) (now : time.Time) (asset : CryptoAsset) :
    (((asset.Normalize T now).err = some "ICO amount cannot be negative" ∨
          (asset.Normalize T now).err = some "block reward cannot be negative") →
        (asset.Normalize T now).asset
          = { asset with
              Name := asset.Name.map fun s => strings.ToLower T (strings.TrimSpace s)
              Symbol := asset.Symbol.map fun s => strings.ToLower T (strings.TrimSpace s)
              Description := asset.Description.map strings.TrimSpace
              Team := asset.Team.map (List.map strings.TrimSpace) }) ∧
      ((asset.Normalize T now).err = some "date must be an ISO-8601 date in the past" →
        (asset.Normalize T now).asset
          = { asset with
              Name := asset.Name.map fun s => strings.ToLower T (strings.TrimSpace s)
              Symbol := asset.Symbol.map fun s => strings.ToLower T (strings.TrimSpace s)
              Description := asset.Description.map strings.TrimSpace
              Team := asset.Team.map (List.map strings.TrimSpace)
              FundingStatus :=
                asset.FundingStatus.map fun s => strings.ToLower T (strings.TrimSpace s) }) ∧
      (∀ s, (asset.Normalize T now).err = some ("invalid id: " ++ s) →
        (asset.Normalize T now).asset = asset) := by
  rcases Normalize_outcome T now asset with ⟨s, -, h⟩ | h | h | h | h
  · refine ⟨fun he => ?_, fun he => ?_, fun _ _ => by rw [h]⟩
    · rw [h] at he
      simp only [Option.some.injEq] at he
      rcases he with he | he
      · exact absurd he (invalid_id_ne s).1
      · exact absurd he (invalid_id_ne s).2.1
    · rw [h] at he
      simp only [Option.some.injEq] at he
      exact absurd he (invalid_id_ne s).2.2
  · refine ⟨fun _ => by rw [h]; rfl, fun he => ?_, fun s he => ?_⟩
    · rw [h] at he
      simp only [Option.some.injEq] at he
      exact absurd he (by decide)
    · rw [h] at he
      simp only [Option.some.injEq] at he
      exact absurd he.symm (invalid_id_ne s).1
  · refine ⟨fun _ => by rw [h]; rfl, fun he => ?_, fun s he => ?_⟩
    · rw [h] at he
      simp only [Option.some.injEq] at he
      exact absurd he (by decide)
    · rw [h] at he
      simp only [Option.some.injEq] at he
      exact absurd he.symm (invalid_id_ne s).2.1
  · refine ⟨fun he => ?_, fun _ => by rw [h]; rfl, fun s he => ?_⟩
    · rw [h] at he
      simp only [Option.some.injEq] at he
      rcases he with he | he <;> exact absurd he (by decide)
    · rw [h] at he
      simp only [Option.some.injEq] at he
      exact absurd he.symm (invalid_id_ne s).2.2
  · refine ⟨fun he => ?_, fun he => ?_, fun s he => ?_⟩
    · rw [h] at he
      rcases he with he | he <;> exact absurd he (by simp)
    · rw [h] at he
      exact absurd he (by simp)
    · rw [h] at he
      exact absurd he (by simp)

/-- C27 on three failing records at 2018-11-01: a negative icoAmount leaves the name
rewritten and the funding status and coin type as they came; a date in the future leaves
name and funding status rewritten and the date and coin type as they came; an id that is
not a number leaves the whole record as it came. -/
theorem Normalize_not_atomic_witness :
    (({ Name := some " BitCoin ", ICOAmount := some ⟨0xBFF8000000000000⟩,
          FundingStatus := some " NO-ICO ", CoinType := some " Currency " }
        : CryptoAsset).Normalize unicode.asciiTables Sample.now).asset
        = { Name := some "bitcoin", ICOAmount := some ⟨0xBFF8000000000000⟩,
            FundingStatus := some " NO-ICO ", CoinType := some " Currency " } ∧
      (({ Name := some " BitCoin ", FundingStatus := some " NO-ICO ",
          FoundedDate := some " 9999-12-31 ", CoinType := some " Currency " }
        : CryptoAsset).Normalize unicode.asciiTables Sample.now).asset
        = { Name := some "bitcoin", FundingStatus := some "no-ico",
            FoundedDate := some " 9999-12-31 ", CoinType := some " Currency " } ∧
      (({ ID := some "a", Name := some " BitCoin " } : CryptoAsset).Normalize
        unicode.asciiTables Sample.now).asset = { ID := some "a", Name := some " BitCoin " } :=
  ⟨((Normalize_not_atomic unicode.asciiTables Sample.now
        { Name := some " BitCoin ", ICOAmount := some ⟨0xBFF8000000000000⟩,
          FundingStatus := some " NO-ICO ", CoinType := some " Currency " }).1
      (Or.inl (by decide))).trans (by decide),
    ((Normalize_not_atomic unicode.asciiTables Sample.now
        { Name := some " BitCoin ", FundingStatus := some " NO-ICO ",
          FoundedDate := some " 9999-12-31 ", CoinType := some " Currency " }).2.1
      (by decide)).trans (by decide),
    (Normalize_not_atomic unicode.asciiTables Sample.now
      { ID := some "a", Name := some " BitCoin " }).2.2 "a" (by decide)⟩

end models

/-! ### Normalize after Format -/

namespace strings

/-- A string that `util.Normalize` returned is trimmed and lower-case. -/
theorem Normalize_canonical (T : unicode.Tables) (hidem : unicode.LowerIdempotent T)
    (hspace : unicode.LowerKeepsSpace T) (x : String) :
    TrimSpace (util.Normalize T x) = util.Normalize T x ∧
      ToLower T (util.Normalize T x) = util.Normalize T x := by
  unfold util.Normalize
  rw [TrimSpace_ToLower T hspace, TrimSpace_TrimSpace, ToLower_ToLower T hidem]
  exact ⟨rfl, rfl⟩

/-- Normalizing undoes upper-casing on a canonical text whose runes come back from their
upper case. -/
theorem Normalize_ToUpper (T : unicode.Tables) (hspace : unicode.LowerKeepsSpace T)
    (n : String) (htrim : TrimSpace n = n) (hround : Spec.UpperRoundTrips T n) :
    util.Normalize T (ToUpper T (TrimSpace n)) = n := by
  have hsp : (ToUpper T n).data.map unicode.IsSpace = n.data.map unicode.IsSpace := by
    simp only [ToUpper, List.map_map]
    refine List.map_congr_left fun r hr => ?_
    have := hspace (unicode.ToUpper T r)
    rw [hround r hr] at this
    exact this.symm
  have htrim1 : (n.data.dropWhile unicode.IsSpace).rdropWhile unicode.IsSpace = n.data := by
    have := congrArg String.data htrim
    simpa [TrimSpace] using this
  have hup : TrimSpace (ToUpper T n) = ToUpper T n := by
    unfold TrimSpace
    simp only [trimmed_of_map_eq unicode.IsSpace _ _ hsp htrim1]
  rw [htrim]
  unfold util.Normalize
  rw [hup]
  unfold ToLower ToUpper
  simp only [List.map_map]
  have hmap : n.data.map (unicode.ToLower T ∘ unicode.ToUpper T) = n.data := by
    conv_rhs => rw [← List.map_id n.data]
    exact List.map_congr_left fun r hr => hround r hr
  rw [hmap]

/-- The runes of `titleRunes` are the runes of the text, some of them title-cased: tests and
mappings that agree on both agree on the result. -/
theorem titleRunes_map {α : Type} (T : unicode.Tables) (f : Char → α) (l : List Char)
    (h : ∀ r ∈ l, f (unicode.ToTitle T r) = f r) (prev : Char) :
    (titleRunes T prev l).map f = l.map f := by
  induction l generalizing prev with
  | nil => rfl
  | cons r rs ih =>
    have hr := h r (List.mem_cons_self r rs)
    have hrs : ∀ c ∈ rs, f (unicode.ToTitle T c) = f c :=
      fun c hc => h c (List.mem_cons_of_mem r hc)
    simp only [titleRunes, List.map_cons, ih hrs]
    split <;> simp [hr]

/-- Normalizing undoes `capitalize` on a canonical text whose runes come back from their
title case. -/
theorem Normalize_capitalize (T : unicode.Tables) (hspace : unicode.LowerKeepsSpace T)
    (n : String) (htrim : TrimSpace n = n) (hlower : ToLower T n = n)
    (hround : Spec.TitleRoundTrips T n) :
    util.Normalize T (models.capitalize T (TrimSpace n)) = n := by
  have hfix : ∀ r ∈ n.data, unicode.ToLower T r = r := by
    have := congrArg String.data hlower
    exact forall_fixed_of_map_eq (unicode.ToLower T) n.data (by simpa [ToLower] using this)
  have hsp : (Title T n).data.map unicode.IsSpace = n.data.map unicode.IsSpace := by
    refine titleRunes_map T unicode.IsSpace n.data (fun r hr => ?_) ' '
    have := hspace (unicode.ToTitle T r)
    rw [hround r hr] at this
    exact this.symm
  have htrim1 : (n.data.dropWhile unicode.IsSpace).rdropWhile unicode.IsSpace = n.data := by
    have := congrArg String.data htrim
    simpa [TrimSpace] using this
  have htitle : TrimSpace (Title T n) = Title T n := by
    unfold TrimSpace
    simp only [trimmed_of_map_eq unicode.IsSpace _ _ hsp htrim1]
  unfold models.capitalize util.Normalize
  rw [htrim, hlower, htitle]
  unfold ToLower Title
  have hmap : (titleRunes T ' ' n.data).map (unicode.ToLower T) = n.data := by
    rw [titleRunes_map T (unicode.ToLower T) n.data
      (fun r hr => (hround r hr).trans (hfix r hr).symm) ' ']
    conv_rhs => rw [← List.map_id n.data]
    exact List.map_congr_left fun r hr => hfix r hr
  simp only [hmap]

end strings

namespace unicode

/-- On ASCII the case mappings do not consult the tables: a lower-case ASCII rune comes back
from its upper case and from its title case, whatever the tables are. -/
theorem ascii_roundTrip (T : Tables) (r : Char) (hascii : r.toNat ≤ 0x7F)
    (hr : ToLower T r = r) :
    ToLower T (ToUpper T r) = r ∧ ToLower T (ToTitle T r) = r := by
  have hA : 'A'.toNat = 65 := rfl
  have hZ : 'Z'.toNat = 90 := rfl
  have ha : 'a'.toNat = 97 := rfl
  have hz : 'z'.toNat = 122 := rfl
  have hup : ToLower T (ToUpper T r) = r := by
    unfold ToUpper MaxASCII
    rw [if_pos hascii, ha, hz, hA]
    by_cases h : 97 ≤ r.toNat ∧ r.toNat ≤ 122
    · have hn : (Char.ofNat (r.toNat - (97 - 65))).toNat = r.toNat - 32 :=
        toNat_ofNat_small _ (by omega)
      rw [if_pos h]
      unfold ToLower MaxASCII
      rw [hn, if_pos (by omega), hA, hZ, ha, if_pos (by omega)]
      have : r.toNat - 32 + (97 - 65) = r.toNat := by omega
      rw [this, Char.ofNat_toNat]
    · rw [if_neg h, hr]
  have htitle : ToTitle T r = ToUpper T r := by
    unfold ToTitle ToUpper MaxASCII
    rw [if_pos hascii, if_pos hascii]
  exact ⟨hup, by rw [htitle]; exact hup⟩

end unicode

namespace models

/-- A successful `Normalize` passed every check: the id block, both amount checks and, for a
present founded date, the date check. -/
theorem Normalize_success (T : unicode.Tables) (now : time.Time) (asset : CryptoAsset)
    (h : (asset.Normalize T now).err = none) :
    ∃ id, parseID asset = Except.ok id ∧ isNegative asset.ICOAmount = false ∧
      isNegative asset.BlockReward = false ∧
      ((asset.FoundedDate = none ∧
          asset.Normalize T now = normalizeRest T id (beforeDate T asset)) ∨
        ∃ raw date, asset.FoundedDate = some raw ∧
          time.Parse (strings.TrimSpace raw) = some date ∧ date.After now = false ∧
          asset.Normalize T now
            = normalizeRest T id
                { beforeDate T asset with FoundedDate := some (strings.TrimSpace raw) }) := by
  cases hid : parseID asset with
  | error e =>
    rw [Normalize_of_id_error T now asset e hid] at h
    exact absurd h (by simp)
  | ok id =>
    cases hico : isNegative asset.ICOAmount with
    | true =>
      rw [Normalize_of_ico_negative T now asset id hid hico] at h
      exact absurd h (by simp)
    | false =>
      cases hbr : isNegative asset.BlockReward with
      | true =>
        rw [Normalize_of_reward_negative T now asset id hid hico hbr] at h
        exact absurd h (by simp)
      | false =>
        refine ⟨id, rfl, rfl, rfl, ?_⟩
        cases hfd : asset.FoundedDate with
        | none => exact Or.inl ⟨rfl, Normalize_of_no_date T now asset id hid hico hbr hfd⟩
        | some raw =>
          cases hp : time.Parse (strings.TrimSpace raw) with
          | none =>
            rw [Normalize_of_bad_date T now asset id raw hid hico hbr hfd (Or.inl hp)] at h
            exact absurd h (by simp)
          | some date =>
            cases ha : date.After now with
            | true =>
              rw [Normalize_of_bad_date T now asset id raw hid hico hbr hfd
                (Or.inr ⟨date, hp, ha⟩)] at h
              exact absurd h (by simp)
            | false =>
              exact Or.inr ⟨raw, date, rfl, hp, ha,
                Normalize_of_good_date T now asset id raw date hid hico hbr hfd hp ha⟩

/-- C28 as stated fails: with the case mappings of Go for the dotless i (U+0131) the record
whose symbol is that letter is the result of a successful Normalize, Format upper-cases the
symbol to `I`, and Normalize then stores `i`, another symbol. -/
theorem Format_Normalize_counterexample :
    ({ Symbol := some "ı" } : CryptoAsset).Normalize unicode.dotlessTables Sample.now
        = { id := 0, err := none, asset := { Symbol := some "ı" } } ∧
      ({ Symbol := some "ı" } : CryptoAsset).Format unicode.dotlessTables
        = { Symbol := some "I" } ∧
      (({ Symbol := some "ı" } : CryptoAsset).Format unicode.dotlessTables).Normalize
          unicode.dotlessTables Sample.now
        = { id := 0, err := none, asset := { Symbol := some "i" } } ∧
      (({ Symbol := some "ı" } : CryptoAsset).Format unicode.dotlessTables).Normalize
          unicode.dotlessTables Sample.now
        ≠ ({ Symbol := some "ı" } : CryptoAsset).Normalize unicode.dotlessTables Sample.now := by
  decide

/-- The record that a successful `Normalize` leaves is in canonical form, converts its id to
the returned identifier, holds no negative amount and, if any, a trimmed founded date that
parses and is not after the current time. -/
theorem Normalize_result_canonical (T : unicode.Tables) (hidem : unicode.LowerIdempotent T)
    (hspace : unicode.LowerKeepsSpace T) (now : time.Time) (asset r : CryptoAsset) (id : Int)
    (hr : asset.Normalize T now = { id := id, err := none, asset := r }) :
    Spec.IsCanonical T r ∧ parseID r = Except.ok id ∧ isNegative r.ICOAmount = false ∧
      isNegative r.BlockReward = false ∧
      ∀ d, r.FoundedDate = some d →
        ∃ date, time.Parse d = some date ∧ date.After now = false := by
  have herr : (asset.Normalize T now).err = none := by rw [hr]
  have hN : ∀ (o : Option String), ∀ s ∈ o.map (util.Normalize T),
      Spec.IsCanonicalText T s := by
    intro o s hs
    cases o with
    | none => simp at hs
    | some x =>
      simp only [Option.map_some', Option.mem_def, Option.some.injEq] at hs
      subst hs
      exact strings.Normalize_canonical T hidem hspace x
  have hS : ∀ (o : Option String), ∀ s ∈ o.map strings.TrimSpace,
      strings.TrimSpace s = s := by
    intro o s hs
    cases o with
    | none => simp at hs
    | some x =>
      simp only [Option.map_some', Option.mem_def, Option.some.injEq] at hs
      subst hs
      exact strings.TrimSpace_TrimSpace x
  have hL : ∀ (o : Option (List String)), ∀ team ∈ o.map (List.map strings.TrimSpace),
      ∀ s ∈ team, strings.TrimSpace s = s := by
    intro o team hteam s hs
    cases o with
    | none => simp at hteam
    | some l =>
      simp only [Option.map_some', Option.mem_def, Option.some.injEq] at hteam
      subst hteam
      obtain ⟨x, -, rfl⟩ := List.mem_map.mp hs
      exact strings.TrimSpace_TrimSpace x
  obtain ⟨id2, hid, hico, hbr, hcase⟩ := Normalize_success T now asset herr
  rcases hcase with ⟨hfd, hres⟩ | ⟨raw, date, hfd, hp, ha, hres⟩
  · rw [hr] at hres
    simp only [normalizeRest, NormalizeResult.mk.injEq, true_and] at hres
    obtain ⟨rfl, rfl⟩ := hres
    refine ⟨⟨hN _, hN _, hN _, hN _, hN _, hS _, hL _, ?_⟩, (parseID_congr _ _ rfl).trans hid,
      hico, hbr, ?_⟩
    · intro s hs
      simp [beforeDate, beforeAmounts, hfd] at hs
    · intro d hd
      simp [beforeDate, beforeAmounts, hfd] at hd
  · rw [hr] at hres
    simp only [normalizeRest, NormalizeResult.mk.injEq, true_and] at hres
    obtain ⟨rfl, rfl⟩ := hres
    refine ⟨⟨hN _, hN _, hN _, hN _, hN _, hS _, hL _, ?_⟩, (parseID_congr _ _ rfl).trans hid,
      hico, hbr, ?_⟩
    · intro s hs
      simp only [Option.mem_def, Option.some.injEq] at hs
      subst hs
      exact strings.TrimSpace_TrimSpace raw
    · intro d hd
      simp only [Option.some.injEq] at hd
      subst hd
      exact ⟨date, hp, ha⟩

/-- C28 (amended): for every record `r` that is the result of a successful Normalize and
whose name and coinType hold only runes that lower-casing maps back from their title case
and whose symbol and fundingStatus hold only runes that lower-casing maps back from their
upper case (every lower-case ASCII text does, whatever the tables), applying Format and then
Normalize at the same current time succeeds and gives back exactly `r` with the same
returned identifier.  The tables are taken to lower-case idempotently and to keep white
space under lower-casing. -/
theorem Format_Normalize (T : unicode.Tables) (hidem : unicode.LowerIdempotent T)
    (hspace : unicode.LowerKeepsSpace T) (now : time.Time) (asset r : CryptoAsset) (id : Int)
    (hr : asset.Normalize T now = { id := id, err := none, asset := r })
    (hname : ∀ s ∈ r.Name, Spec.TitleRoundTrips T s)
    (hsymbol : ∀ s ∈ r.Symbol, Spec.UpperRoundTrips T s)
    (hstatus : ∀ s ∈ r.FundingStatus, Spec.UpperRoundTrips T s)
    (hcoin : ∀ s ∈ r.CoinType, Spec.TitleRoundTrips T s) :
    (r.Format T).Normalize T now = { id := id, err := none, asset := r } := by
  obtain ⟨⟨cname, csymbol, cstatus, ccoin, cweb, cdesc, cteam, cdate⟩, hid, hico, hbr,
    hdate⟩ :=
    Normalize_result_canonical T hidem hspace now asset r id hr
  have hcap : ∀ o : Option String, (∀ s ∈ o, Spec.IsCanonicalText T s) →
      (∀ s ∈ o, Spec.TitleRoundTrips T s) →
      (o.map fun s => capitalize T (strings.TrimSpace s)).map (util.Normalize T) = o := by
    intro o hc ht
    cases o with
    | none => rfl
    | some s =>
      simp only [Option.map_some', Option.some.injEq]
      exact strings.Normalize_capitalize T hspace s (hc s rfl).1 (hc s rfl).2 (ht s rfl)
  have hup : ∀ o : Option String, (∀ s ∈ o, Spec.IsCanonicalText T s) →
      (∀ s ∈ o, Spec.UpperRoundTrips T s) →
      (o.map fun s => strings.ToUpper T (strings.TrimSpace s)).map (util.Normalize T) = o := by
    intro o hc ht
    cases o with
    | none => rfl
    | some s =>
      simp only [Option.map_some', Option.some.injEq]
      exact strings.Normalize_ToUpper T hspace s (hc s rfl).1 (ht s rfl)
  have hnorm : ∀ o : Option String, (∀ s ∈ o, Spec.IsCanonicalText T s) →
      o.map (util.Normalize T) = o := by
    intro o hc
    cases o with
    | none => rfl
    | some s =>
      simp only [Option.map_some', Option.some.injEq, util.Normalize]
      rw [(hc s rfl).1, (hc s rfl).2]
  have htrim : ∀ o : Option String, (∀ s ∈ o, strings.TrimSpace s = s) →
      o.map strings.TrimSpace = o := by
    intro o hc
    cases o with
    | none => rfl
    | some s => simp [hc s rfl]
  have hteam : r.Team.map (List.map strings.TrimSpace) = r.Team := by
    cases ht : r.Team with
    | none => rfl
    | some team =>
      simp only [Option.map_some', Option.some.injEq]
      conv_rhs => rw [← List.map_id team]
      exact List.map_congr_left fun s hs => cteam team ht s hs
  have hfinal : normalizeRest T id (beforeDate T (r.Format T))
      = { id := id, err := none, asset := r } := by
    cases r
    simp only [CryptoAsset.Format, beforeDate, beforeAmounts, normalizeRest] at *
    simp only [hcap _ cname hname, hup _ csymbol hsymbol, hup _ cstatus hstatus, htrim _ cdesc,
      hteam, hcap _ ccoin hcoin, hnorm _ cweb]
  have hidF : parseID (r.Format T) = Except.ok id := (parseID_congr _ _ rfl).trans hid
  cases hfd : r.FoundedDate with
  | none => rw [Normalize_of_no_date T now (r.Format T) id hidF hico hbr hfd, hfinal]
  | some d =>
    obtain ⟨date, hp, ha⟩ := hdate d hfd
    have hd : strings.TrimSpace d = d := cdate d hfd
    rw [Normalize_of_good_date T now (r.Format T) id d date hidF hico hbr hfd
      (by rw [hd]; exact hp) ha, hd]
    have hsame : ({ beforeDate T (r.Format T) with FoundedDate := some d } : CryptoAsset)
        = beforeDate T (r.Format T) := by
      cases r
      simp only [CryptoAsset.Format, beforeDate, beforeAmounts] at *
      rw [hfd]
    rw [hsame, hfinal]

/-- C28 (amended) on the record of `testSuccess`: the result of its Normalize is ASCII text,
and Format followed by Normalize gives the same result again. -/
theorem Format_Normalize_witness :
    ((Sample.bitcoin.Normalize unicode.asciiTables Sample.now).asset.Format
        unicode.asciiTables).Normalize unicode.asciiTables Sample.now
      = Sample.bitcoin.Normalize unicode.asciiTables Sample.now :=
  Format_Normalize unicode.asciiTables unicode.asciiTables_lowerIdempotent
    unicode.asciiTables_lowerKeepsSpace Sample.now Sample.bitcoin
    (Sample.bitcoin.Normalize unicode.asciiTables Sample.now).asset 0 (by decide)
    (fun s hs => by
      cases (show s = "bitcoin" from (Option.some.inj hs).symm)
      unfold Spec.TitleRoundTrips
      decide)
    (fun s hs => by
      cases (show s = "btc" from (Option.some.inj hs).symm)
      unfold Spec.UpperRoundTrips
      decide)
    (fun s hs => by
      cases (show s = "no-ico" from (Option.some.inj hs).symm)
      unfold Spec.UpperRoundTrips
      decide)
    (fun s hs => by
      cases (show s = "currency" from (Option.some.inj hs).symm)
      unfold Spec.TitleRoundTrips
      decide)

end models
